import Mathlib

/-!
# PDCursesMod, OpenGL port: screen model, glyph atlas and render handoff

A shallow embedding of `src/gl/pdcdisp.c`.  C arrays are lists, a pointer that
may be `NULL` is an `Option`, `Uint32` values are natural numbers reduced
modulo `2^32` where the C arithmetic can wrap, and a function whose C
execution can leave defined behaviour or fail to return yields a `Res`.

An array with its element count (`glyph_grid_layers` with `grid_layers`,
`pdc_glyph_start_col` with `pdc_glyph_row_capacity`, a style cache with its
`pdc_glyph_cache_size`) is one list whose length is the count.  List reads and
writes are total; the properties are stated for arrays that have the size the
dimensions say (`sized`), where every access of the C code is inside its
array, and the two places where the C code itself leaves its arrays (lines
425 and 553) yield `Res.undef`.  A list of layers has no value for a pointer
to freed memory: `shrink_glyph_grid` yields `Res.undef` where the `memmove`
of line 453, whose count is in bytes, leaves such a pointer in the live array,
and `shrink_glyph_grid_memory` gives the same function on the bytes of the
array and the blocks of the allocator, where every such run has its outcome.
Byte counts are taken to fit `size_t` and cell counts to fit `int`.
`PDC_transform_line` is given by the calls of `_new_packet` it makes, in
order.  What the code takes from headers and libraries outside `src/` (font
metrics, the GPU limit, the rasterizer, the masks and macros of curses.h, the
palette) is a field of `Env` or `Curses`, so that the properties hold for
every value of it.
-/

namespace PDCGL

/-! ## Outcomes -/

/-- Outcome of running a C function: a normal return, undefined behaviour (a
write outside an allocation, a use of freed memory), or a loop that was still
running when the supplied fuel ran out. -/
inductive Res (α : Type) where
  | ok (a : α) : Res α
  | undef : Res α
  | fuelOut : Res α
deriving DecidableEq, Repr

/-- Sequencing of outcomes. -/
def Res.bind {α β : Type} (r : Res α) (f : α → Res β) : Res β :=
  match r with
  | Res.ok a => f a
  | Res.undef => Res.undef
  | Res.fuelOut => Res.fuelOut

/-! ## Data model (lines 22-111) -/

/-- The C `struct color_data`: two packed 32-bit colour words. -/
structure color_data where
  bg_color : Nat
  fg_color : Nat
deriving DecidableEq, Repr, Inhabited

/-- The C `struct glyph_grid_layer`. -/
structure glyph_grid_layer where
  occupancy : Nat
  glyph_grid : Option (List Nat)
  codepoint_attr : Option (List Nat)
deriving DecidableEq, Repr, Inhabited

/-- The two values of `pdc_threading_mode`. -/
inductive ThreadingMode where
  | PDC_GL_SINGLE_THREADED_RENDERING : ThreadingMode
  | PDC_GL_MULTI_THREADED_RENDERING : ThreadingMode
deriving DecidableEq, Repr

/-- The file-scope screen state: `color_grid`, `glyph_grid_layers`, `grid_w`,
`grid_h`.  The C pair (`glyph_grid_layers`, `grid_layers`) is one list: the
first `grid_layers` structs of the array, the only ones the code reads. -/
structure Grid where
  color_grid : Option (List color_data)
  glyph_grid_layers : List glyph_grid_layer
  grid_w : Nat
  grid_h : Nat
deriving DecidableEq, Repr

/-- The C global `grid_layers`. -/
def Grid.grid_layers (g : Grid) : Nat := g.glyph_grid_layers.length

/-- The state before the first call: all pointers `NULL`, all counts 0. -/
def Grid.empty : Grid :=
  { color_grid := none, glyph_grid_layers := [], grid_w := 0, grid_h := 0 }

/-- What the code takes from outside this file: build configuration, font
metrics, the GPU limit, the rasterizer, the combining-character table, the
attribute masks of curses.h, and the contents of uninitialised memory. -/
structure Env where
  pdc_threading_mode : ThreadingMode
  pdc_fwidth : Nat
  pdc_fheight : Nat
  max_texture_size : Nat
  supplementary_planes : Bool
  render_glyph : Nat → Nat → Option Nat
  expand_combined : Nat → Nat × Nat
  A_UNDERLINE : Nat
  A_OVERLINE : Nat
  A_STRIKEOUT : Nat
  A_LEFT : Nat
  A_RIGHT : Nat
  junk : Nat → Nat
  junk_color : Nat → color_data

/-! ## Array primitives -/

/-- The C `memcpy(dst + d, src + s, n)` on arrays of elements. -/
def memcpy {α : Type} (dst : List α) (d : Nat) (src : List α) (s n : Nat) : List α :=
  dst.take d ++ ((src.drop s).take n ++ dst.drop (d + n))

/-- The loop `for(; i < n; ++i) a[i + base] = z`, with `k = n - i` iterations left. -/
def zero_loop {α : Type} (z : α) (base : Nat) : (k : Nat) → (i : Nat) → List α → List α
  | 0, _, a => a
  | k + 1, i, a => zero_loop z base k (i + 1) (a.set (i + base) z)

/-- An assignment `p[i] = v` through a pointer. -/
def store {α : Type} (p : Option (List α)) (i : Nat) (v : α) : Option (List α) :=
  p.map (fun a => a.set i v)

/-- A read `p[i]` through a pointer. -/
def load (p : Option (List Nat)) (i : Nat) : Nat :=
  (p.getD []).getD i 0

/-- The C `malloc(n)` for `n` elements: uninitialised contents. -/
def malloc {α : Type} (junk : Nat → α) (n : Nat) : List α :=
  (List.range n).map junk

/-- The C `realloc(p, n)` for `n` elements: the old contents up to `n`, then
uninitialised memory. -/
def realloc {α : Type} (junk : Nat → α) (p : Option (List α)) (n : Nat) : List α :=
  (p.getD []).take n ++ (List.range (n - (p.getD []).length)).map junk

/-! ## ensure_glyph_grid (lines 335-436) -/

/-- One iteration of the row loop shared by the colour grid (lines 344-363)
and each layer (lines 391-406): copy the overlapping part of row `j`, zero the
rest of the row. -/
def resize_row {α : Type} (z : α) (cols grid_w grid_h : Nat) (old : Option (List α))
    (j : Nat) (a : List α) : List α :=
  match old with
  | some src =>
    if j < grid_h then
      zero_loop z (j * cols) (cols - min grid_w cols) (min grid_w cols)
        (memcpy a (j * cols) src (j * grid_w) (min grid_w cols))
    else zero_loop z (j * cols) cols 0 a
  | none => zero_loop z (j * cols) cols 0 a

/-- The row loop `for(j = ...; j < SP->lines; ++j)`, with `k` iterations left. -/
def resize_rows {α : Type} (z : α) (cols grid_w grid_h : Nat) (old : Option (List α)) :
    (k : Nat) → (j : Nat) → List α → List α
  | 0, _, a => a
  | k + 1, j, a =>
    resize_rows z cols grid_w grid_h old k (j + 1) (resize_row z cols grid_w grid_h old j a)

/-- The body of the layer loop (lines 386-430).  In single-threaded mode the
`memset` of line 425 is given the byte count `old_size - size`, which is
computed in `size_t` and is only reached when `old_size < size`: the count
wraps to more than the allocation holds and the write leaves it. -/
def ensure_layer (env : Env) (cols lines grid_w grid_h : Nat) (l : glyph_grid_layer) :
    Res glyph_grid_layer :=
  let new_codepoints :=
    resize_rows 0 cols grid_w grid_h l.codepoint_attr lines 0 (List.replicate (lines * cols) 0)
  if env.pdc_threading_mode = ThreadingMode.PDC_GL_SINGLE_THREADED_RENDERING then
    if grid_w * grid_h < lines * cols then Res.undef
    else Res.ok
      { occupancy := l.occupancy
        glyph_grid := some (realloc env.junk l.glyph_grid (lines * cols))
        codepoint_attr := some new_codepoints }
  else Res.ok
    { occupancy := l.occupancy
      glyph_grid := l.glyph_grid
      codepoint_attr := some new_codepoints }

/-- The layer loop of lines 384-431. -/
def ensure_layers (env : Env) (cols lines grid_w grid_h : Nat) :
    List glyph_grid_layer → Res (List glyph_grid_layer)
  | [] => Res.ok []
  | l :: ls =>
    (ensure_layer env cols lines grid_w grid_h l).bind fun l1 =>
      (ensure_layers env cols lines grid_w grid_h ls).bind fun ls1 => Res.ok (l1 :: ls1)

/-- The layers after lines 368-381: new layers start empty with `NULL` arrays. -/
def extend_layers (layers : List glyph_grid_layer) (min_layers : Nat) : List glyph_grid_layer :=
  if layers.length < min_layers then
    layers ++ List.replicate (min_layers - layers.length)
      { occupancy := 0, glyph_grid := none, codepoint_attr := none }
  else layers

/-- The C `ensure_glyph_grid(min_layers)`, reading `SP->cols` and `SP->lines`. -/
def ensure_glyph_grid (env : Env) (cols lines min_layers : Nat) (g : Grid) : Res Grid :=
  if cols ≠ g.grid_w ∨ lines ≠ g.grid_h ∨ g.grid_layers < min_layers then
    let new_colors :=
      resize_rows (color_data.mk 0 0) cols g.grid_w g.grid_h g.color_grid lines 0
        (malloc env.junk_color (lines * cols))
    (ensure_layers env cols lines g.grid_w g.grid_h
        (extend_layers g.glyph_grid_layers min_layers)).bind fun layers =>
      Res.ok
        { color_grid := some new_colors
          glyph_grid_layers := layers
          grid_w := cols
          grid_h := lines }
  else Res.ok g

/-! ## shrink_glyph_grid (lines 441-460) -/

/-- The loop `for(layer = 1; layer < grid_layers;)` of `shrink_glyph_grid`
at index `layer`, on the list of layers; every round costs one unit of fuel,
and `grid_layers - layer` rounds are all there can be.  A layer with occupancy
0 is freed and the layers above it are moved down by `memmove` with a count of
`grid_layers - layer - 1` bytes, not structs.  For the top layer the count is
0 and the layer is dropped.  For any other layer the slot stays inside the
live array with its two freed pointers, for which a list of layers has no
value: the outcome is `Res.undef`, both where the next round frees them again
and where the C call returns with them in place and the next commit reads
them.  `shrink_memory_loop` below tells these apart. -/
def shrink_loop : (fuel : Nat) → (layer : Nat) → List glyph_grid_layer →
    Res (List glyph_grid_layer)
  | fuel, layer, layers =>
    if layer < layers.length then
      match fuel with
      | 0 => Res.fuelOut
      | fuel + 1 =>
        if (layers.getD layer default).occupancy ≠ 0 then shrink_loop fuel (layer + 1) layers
        else if layers.length - layer - 1 = 0 then shrink_loop fuel layer (layers.take layer)
        else Res.undef
    else Res.ok layers

/-- The C `shrink_glyph_grid()`. -/
def shrink_glyph_grid (g : Grid) : Res Grid :=
  (shrink_loop g.grid_layers 1 g.glyph_grid_layers).bind fun layers =>
    Res.ok { g with glyph_grid_layers := layers }

/-! ## shrink_glyph_grid on the memory of the layer array (lines 441-460) -/

/-- The `n` bytes of an unsigned integer, lowest byte first. -/
def to_bytes : (n : Nat) → (value : Nat) → List Nat
  | 0, _ => []
  | n + 1, value => value % 256 :: to_bytes n (value / 256)

/-- The unsigned integer held by a run of bytes, lowest byte first. -/
def of_bytes : List Nat → Nat
  | [] => 0
  | b :: bs => b + 256 * of_bytes bs

/-- The C `sizeof(struct glyph_grid_layer)` on the 64-bit targets of the port
(x86-64, AArch64): `occupancy` in bytes 0-3, four bytes of padding,
`glyph_grid` in bytes 8-15, `codepoint_attr` in bytes 16-23. -/
def sizeof_glyph_grid_layer : Nat := 24

/-- The bytes of one `struct glyph_grid_layer`. -/
def layer_bytes (occupancy glyph_grid codepoint_attr : Nat) : List Nat :=
  to_bytes 4 occupancy ++ to_bytes 4 0 ++ to_bytes 8 glyph_grid ++ to_bytes 8 codepoint_attr

/-- The layer array as the allocator and `memmove` see it: the bytes of the
block `glyph_grid_layers` points to, the count `grid_layers`, and the blocks
that `malloc` handed out and `free` has not taken back, each with its address
and contents. -/
structure LayerMemory where
  bytes : List Nat
  grid_layers : Nat
  heap : List (Nat × List Nat)
deriving DecidableEq, Repr

/-- A read of an `n`-byte member at byte offset `off` of the array. -/
def read_member (bytes : List Nat) (off n : Nat) : Nat :=
  of_bytes ((bytes.drop off).take n)

/-- The C `free(p)`: nothing for `NULL`, the block is given back if `p` is the
address of a live block, undefined behaviour otherwise. -/
def free (heap : List (Nat × List Nat)) (p : Nat) : Res (List (Nat × List Nat)) :=
  if p = 0 then Res.ok heap
  else if heap.any (fun b => decide (b.1 = p)) then
    Res.ok (heap.filter fun b => decide (b.1 ≠ p))
  else Res.undef

/-- The C `memmove(a + d, a + s, n)` inside one array: the source is read
before the destination is written. -/
def memmove {α : Type} (a : List α) (d s n : Nat) : List α :=
  memcpy a d a s n

/-- The loop `for(layer = 1; layer < grid_layers;)` of `shrink_glyph_grid` at
index `layer`, on the memory; every round costs one unit of fuel.  A struct
outside the array is not read.  A layer whose `occupancy` is not 0 is stepped
over.  Of any other layer the two arrays are freed; then `memmove` moves
`grid_layers - layer - 1` bytes, the count of line 456, from the next struct
to this one, and `grid_layers` is decremented; the same index is tested
again. -/
def shrink_memory_loop : (fuel : Nat) → (layer : Nat) → LayerMemory → Res LayerMemory
  | fuel, layer, m =>
    if layer < m.grid_layers then
      match fuel with
      | 0 => Res.fuelOut
      | fuel + 1 =>
        if m.bytes.length < sizeof_glyph_grid_layer * (layer + 1) then Res.undef
        else if read_member m.bytes (sizeof_glyph_grid_layer * layer) 4 ≠ 0 then
          shrink_memory_loop fuel (layer + 1) m
        else
          (free m.heap (read_member m.bytes (sizeof_glyph_grid_layer * layer + 8) 8)).bind
            fun heap1 =>
          (free heap1 (read_member m.bytes (sizeof_glyph_grid_layer * layer + 16) 8)).bind
            fun heap2 =>
          if m.bytes.length <
              sizeof_glyph_grid_layer * (layer + 1) + (m.grid_layers - layer - 1) then Res.undef
          else
            shrink_memory_loop fuel layer
              { bytes :=
                  memmove m.bytes (sizeof_glyph_grid_layer * layer)
                    (sizeof_glyph_grid_layer * (layer + 1)) (m.grid_layers - layer - 1)
                grid_layers := m.grid_layers - 1
                heap := heap2 }
    else Res.ok m

/-- The C `shrink_glyph_grid()` on the memory of the layer array. -/
def shrink_glyph_grid_memory (m : LayerMemory) : Res LayerMemory :=
  shrink_memory_loop m.grid_layers 1 m

/-! ## draw_glyph and draw_cursor (lines 562-626) -/

/-- The attribute byte `gl_attrs` of lines 572-577. -/
def gl_attrs (env : Env) (attr : Nat) : Nat :=
  (if attr &&& env.A_UNDERLINE ≠ 0 then 1 <<< 2 else 0) |||
  (if attr &&& env.A_OVERLINE ≠ 0 then 1 <<< 3 else 0) |||
  (if attr &&& env.A_STRIKEOUT ≠ 0 then 1 <<< 4 else 0) |||
  (if attr &&& env.A_LEFT ≠ 0 then 1 <<< 5 else 0) |||
  (if attr &&& env.A_RIGHT ≠ 0 then 1 <<< 6 else 0)

/-- One iteration of the loop of lines 588-595 on one non-base layer. -/
def clear_cell (i : Nat) (l : glyph_grid_layer) : glyph_grid_layer :=
  if load l.codepoint_attr i ≠ 0 then
    { occupancy := (l.occupancy + (2 ^ 32 - 1)) % 2 ^ 32
      glyph_grid := l.glyph_grid
      codepoint_attr := store l.codepoint_attr i 0 }
  else l

/-- Lines 588-595: clear cell `i` on every layer above the base. -/
def clear_upper_layers (i : Nat) : List glyph_grid_layer → List glyph_grid_layer
  | [] => []
  | base :: upper => base :: upper.map (clear_cell i)

/-- The assignment `glyph_grid_layers[layer].codepoint_attr[i] = v`, with the
occupancy changed by `f`. -/
def set_cell (layers : List glyph_grid_layer) (layer i v : Nat) (f : Nat → Nat) :
    List glyph_grid_layer :=
  layers.modify
    (fun l =>
      { occupancy := f l.occupancy
        glyph_grid := l.glyph_grid
        codepoint_attr := store l.codepoint_attr i v })
    layer

/-- The loop of lines 599-609, `while(ch32 > 0x110000)`: each round takes one
combining character off `ch32` and puts it on the next layer.  Returns the
base character left and the grid. -/
def combine_loop (env : Env) (cols lines cache_attr_index i : Nat) :
    (fuel : Nat) → (layer ch32 : Nat) → Grid → Res (Nat × Grid)
  | fuel, layer, ch32, g =>
    if ch32 > 0x110000 then
      match fuel with
      | 0 => Res.fuelOut
      | fuel + 1 =>
        (ensure_glyph_grid env cols lines (layer + 1 + 1) g).bind fun g1 =>
          let added := (env.expand_combined ch32).2
          let codepoint_attr := (added ||| (cache_attr_index <<< 30)) % 2 ^ 32
          combine_loop env cols lines cache_attr_index i fuel (layer + 1)
            (env.expand_combined ch32).1
            { g1 with
              glyph_grid_layers :=
                set_cell g1.glyph_grid_layers (layer + 1) i codepoint_attr
                  (fun o => (o + 1) % 2 ^ 32) }
    else Res.ok (ch32, g)

/-- The code point left in `ch32` when the loop of lines 599-609 ends: a
plain code point is kept, a combined one is expanded until a plain one is
left.  With `fuel` rounds used up the value reached is returned. -/
def base_code (env : Env) : (fuel : Nat) → (ch32 : Nat) → Nat
  | fuel, ch32 =>
    if ch32 > 0x110000 then
      match fuel with
      | 0 => ch32
      | fuel + 1 => base_code env fuel (env.expand_combined ch32).1
    else ch32

/-- The C `draw_glyph`, built with `USING_COMBINING_CHARACTER_SCHEME`.
`cache_attr_index` is the file-scope style index set by `_set_attr`. -/
def draw_glyph (env : Env) (cols lines cache_attr_index fuel : Nat) (y x : Int)
    (attr ch32 background foreground : Nat) (g : Grid) : Res Grid :=
  if y < 0 ∨ y ≥ lines ∨ x < 0 ∨ x ≥ cols then Res.ok g
  else
    let i := (x + y * cols).toNat
    (ensure_glyph_grid env cols lines 1 g).bind fun g1 =>
      let cd : color_data :=
        { bg_color := background
          fg_color := (foreground ||| (gl_attrs env attr <<< 24)) % 2 ^ 32 }
      let g2 : Grid :=
        { g1 with
          color_grid := store g1.color_grid i cd
          glyph_grid_layers := clear_upper_layers i g1.glyph_grid_layers }
      (combine_loop env cols lines cache_attr_index i fuel 0 ch32 g2).bind fun r =>
        let codepoint_attr := (r.1 ||| (cache_attr_index <<< 30)) % 2 ^ 32
        Res.ok
          { r.2 with
            glyph_grid_layers :=
              set_cell r.2.glyph_grid_layers 0 i codepoint_attr (fun o => o) }

/-- The C `draw_cursor`. -/
def draw_cursor (env : Env) (cols lines : Nat) (y x visibility : Int) (g : Grid) : Res Grid :=
  if y < 0 ∨ y ≥ lines ∨ x < 0 ∨ x ≥ cols then Res.ok g
  else
    let i := (x + y * cols).toNat
    let attrs : Nat := if visibility ≥ 0 ∧ visibility ≤ 2 then visibility.toNat else 0
    (ensure_glyph_grid env cols lines 1 g).bind fun g1 =>
      Res.ok
        { g1 with
          color_grid :=
            g1.color_grid.map fun a =>
              a.modify (fun cd => { cd with fg_color := (cd.fg_color ||| (attrs <<< 24)) % 2 ^ 32 }) i }

/-! ## The glyph atlas (lines 113-329, 471-556) -/

/-- The C `struct SDL_Rect`. -/
structure SDL_Rect where
  x : Int
  y : Int
  w : Int
  h : Int
deriving DecidableEq, Repr, Inhabited

/-- The C `struct mt_render_state`.  As in `Grid`, the layer array and its
count `grid_layers` are one list. -/
structure mt_render_state where
  color_grid : Option (List color_data)
  glyph_grid_layers : List glyph_grid_layer
  grid_w : Nat
  grid_h : Nat
  viewport : SDL_Rect
  hcol : Int
  hcol_rgb : Nat
  updated : Nat
deriving DecidableEq, Repr

/-- The count `grid_layers` of a render state. -/
def mt_render_state.grid_layers (s : mt_render_state) : Nat := s.glyph_grid_layers.length

/-- The initialiser of `submitted_state` and `locked_state` (lines 106-111). -/
def mt_render_state.init : mt_render_state :=
  { color_grid := none, glyph_grid_layers := [], grid_w := 0, grid_h := 0,
    viewport := { x := 0, y := 0, w := 0, h := 0 }, hcol := 0, hcol_rgb := 0, updated := 0 }

/-- The atlas globals: `pdc_glyph_cache_w`, `pdc_glyph_cache_h`,
`pdc_glyph_col_capacity`, the row cursors `pdc_glyph_start_col` (their count
is `pdc_glyph_row_capacity`) and the four style caches `pdc_glyph_cache` (the
length of each is its `pdc_glyph_cache_size`).  Texture handles and pixels are
GPU state and are left out. -/
structure Atlas where
  pdc_glyph_cache_w : Nat
  pdc_glyph_cache_h : Nat
  pdc_glyph_col_capacity : Nat
  pdc_glyph_start_col : List Nat
  pdc_glyph_cache : List (List Nat)
deriving DecidableEq, Repr

/-- The C global `pdc_glyph_row_capacity`. -/
def Atlas.pdc_glyph_row_capacity (a : Atlas) : Nat := a.pdc_glyph_start_col.length

/-- The atlas before the first glyph: no texture, no rows, four empty caches. -/
def Atlas.init : Atlas :=
  { pdc_glyph_cache_w := 0, pdc_glyph_cache_h := 0, pdc_glyph_col_capacity := 0,
    pdc_glyph_start_col := [], pdc_glyph_cache := [[], [], [], []] }

/-- The macro `BUILD_GLYPH_INDEX(col, row, w)` on `Uint32`. -/
def BUILD_GLYPH_INDEX (col row w : Nat) : Nat :=
  (col % 2 ^ 32) ||| ((row <<< 15) % 2 ^ 32) ||| ((w <<< 30) % 2 ^ 32)

/-- The C `next_pow_2` for `n ≥ 1`; for `n = 0` the C code computes `-1 + 1`. -/
def next_pow_2 (n : Nat) : Nat :=
  if n = 0 then 0
  else
    let n0 := n - 1
    let n1 := n0 ||| (n0 >>> 1)
    let n2 := n1 ||| (n1 >>> 2)
    let n3 := n2 ||| (n2 >>> 4)
    let n4 := n3 ||| (n3 >>> 8)
    let n5 := n4 ||| (n4 >>> 16)
    n5 + 1

/-- The side of the new texture chosen by lines 131-150. -/
def new_glyph_cache_size (env : Env) (a : Atlas) : Nat × Nat :=
  let w0 := 2 * a.pdc_glyph_cache_w
  let h0 := 2 * a.pdc_glyph_cache_h
  let p := next_pow_2 ((if env.pdc_fwidth > env.pdc_fheight then env.pdc_fwidth
    else env.pdc_fheight) * 16)
  let w1 := if w0 = 0 ∨ h0 = 0 then p else w0
  let h1 := if w0 = 0 ∨ h0 = 0 then p else h0
  if w1 > env.max_texture_size ∨ h1 > env.max_texture_size then
    (env.max_texture_size, env.max_texture_size)
  else (w1, h1)

/-- The row scan shared by `alloc_glyph_cache` (lines 313-322) and the
re-packing of lines 259-279: the first row, counted from `row`, whose cursor
leaves room for `w` columns.  Returns the index handed out and the cursors
after the allocation. -/
def first_fit (col_capacity w : Nat) : (row : Nat) → List Nat → Option (Nat × List Nat)
  | _, [] => none
  | row, col :: rest =>
    if col + w ≤ col_capacity then some (BUILD_GLYPH_INDEX col row w, (col + w) :: rest)
    else
      match first_fit col_capacity w (row + 1) rest with
      | some r => some (r.1, col :: r.2)
      | none => none

/-- The inner loop of lines 243-252 on one layer: is some cell equal to
`old_glyph` and not yet visited?  `k` iterations are left, `base` is
`layer * grid_w * grid_h`. -/
def used_in_layer (old_glyph base : Nat) (gg : List Nat) (visited : List Bool) :
    (k : Nat) → (j : Nat) → Bool
  | 0, _ => false
  | k + 1, j =>
    (gg.getD j 0 = old_glyph ∧ visited.getD (j + base) false = false) ||
      used_in_layer old_glyph base gg visited k (j + 1)

/-- Lines 242-252: the layer loop of the use check, from layer index `layer`. -/
def used_in_layers (old_glyph n : Nat) (visited : List Bool) :
    (layer : Nat) → List glyph_grid_layer → Bool
  | _, [] => false
  | layer, l :: ls =>
    used_in_layer old_glyph (layer * n) (l.glyph_grid.getD []) visited n 0 ||
      used_in_layers old_glyph n visited (layer + 1) ls

/-- The inner loop of lines 283-292 on one layer: every unvisited cell equal
to `old_glyph` gets `new_glyph` and is marked visited. -/
def rewrite_layer (old_glyph new_glyph base : Nat) :
    (k : Nat) → (j : Nat) → List Nat → List Bool → List Nat × List Bool
  | 0, _, gg, visited => (gg, visited)
  | k + 1, j, gg, visited =>
    if gg.getD j 0 = old_glyph ∧ visited.getD (j + base) false = false then
      rewrite_layer old_glyph new_glyph base k (j + 1) (gg.set j new_glyph)
        (visited.set (j + base) true)
    else rewrite_layer old_glyph new_glyph base k (j + 1) gg visited

/-- Lines 282-292: the layer loop of the rewrite, from layer index `layer`. -/
def rewrite_layers (old_glyph new_glyph n : Nat) :
    (layer : Nat) → List glyph_grid_layer → List Bool → List glyph_grid_layer × List Bool
  | _, [], visited => ([], visited)
  | layer, l :: ls, visited =>
    let r := rewrite_layer old_glyph new_glyph (layer * n) n 0 (l.glyph_grid.getD []) visited
    let rs := rewrite_layers old_glyph new_glyph n (layer + 1) ls r.2
    ({ occupancy := l.occupancy
       glyph_grid := l.glyph_grid.map (fun _ => r.1)
       codepoint_attr := l.codepoint_attr } :: rs.1, rs.2)

/-- What the compaction loop carries from one cache entry to the next: the
row cursors, the layers of `locked_state` and the `visited` flags. -/
structure Compaction where
  start_col : List Nat
  layers : List glyph_grid_layer
  visited : List Bool
deriving DecidableEq, Repr

/-- The body of the entry loop (lines 233-292) for one cache entry holding
`old_glyph`; `n` is `locked_state.grid_w * locked_state.grid_h`.  Returns the
entry's new value. -/
def compact_entry (col_capacity n old_glyph : Nat) (c : Compaction) : Nat × Compaction :=
  if old_glyph = 0 then (0, c)
  else if used_in_layers old_glyph n c.visited 0 c.layers then
    let fit := first_fit col_capacity (old_glyph >>> 30) 0 c.start_col
    let new_glyph := match fit with
      | some r => r.1
      | none => 0
    let start_col := match fit with
      | some r => r.2
      | none => c.start_col
    let r := rewrite_layers old_glyph new_glyph n 0 c.layers c.visited
    (new_glyph, { start_col := start_col, layers := r.1, visited := r.2 })
  else (0, c)

/-- The loop `for(i = 0; i < pdc_glyph_cache_size[attr]; ++i)` over one cache. -/
def compact_cache (col_capacity n : Nat) : List Nat → Compaction → List Nat × Compaction
  | [], c => ([], c)
  | old_glyph :: rest, c =>
    let r := compact_entry col_capacity n old_glyph c
    let rs := compact_cache col_capacity n rest r.2
    (r.1 :: rs.1, rs.2)

/-- The loop `for(attr = 0; attr < 4; ++attr)` over the style caches. -/
def compact_caches (col_capacity n : Nat) :
    List (List Nat) → Compaction → List (List Nat) × Compaction
  | [], c => ([], c)
  | cache :: rest, c =>
    let r := compact_cache col_capacity n cache c
    let rs := compact_caches col_capacity n rest r.2
    (r.1 :: rs.1, rs.2)

/-- The row cursors after the growth branch, lines 203-211: the old rows keep
their cursor, a new row starts at 0, and row 0 at 1 when it is created. -/
def grow_start_col (start_col : List Nat) (new_row_capacity : Nat) : List Nat :=
  start_col.take new_row_capacity ++
    (List.range' start_col.length (new_row_capacity - start_col.length)).map
      (fun i => if i = 0 then 1 else 0)

/-- The C `enlarge_glyph_cache()`, on the atlas and `locked_state`. -/
def enlarge_glyph_cache (env : Env) (st : Atlas × mt_render_state) : Atlas × mt_render_state :=
  let a := st.1
  let locked := st.2
  let new_size := new_glyph_cache_size env a
  if new_size.1 ≠ a.pdc_glyph_cache_w ∨ new_size.2 ≠ a.pdc_glyph_cache_h then
    ({ pdc_glyph_cache_w := new_size.1
       pdc_glyph_cache_h := new_size.2
       pdc_glyph_col_capacity := new_size.1 / env.pdc_fwidth
       pdc_glyph_start_col := grow_start_col a.pdc_glyph_start_col (new_size.2 / env.pdc_fheight)
       pdc_glyph_cache := a.pdc_glyph_cache }, locked)
  else
    let n := locked.grid_w * locked.grid_h
    let c0 : Compaction :=
      { start_col := List.replicate a.pdc_glyph_row_capacity 0
        layers := locked.glyph_grid_layers
        visited := List.replicate (n * locked.grid_layers) false }
    let r := compact_caches a.pdc_glyph_col_capacity n a.pdc_glyph_cache c0
    ({ a with pdc_glyph_start_col := r.2.start_col, pdc_glyph_cache := r.1 },
     { locked with glyph_grid_layers := r.2.layers })

/-- The C `alloc_glyph_cache(w)`: the loop `for(;;)` runs until a row has
room; every failed scan costs one unit of fuel. -/
def alloc_glyph_cache (env : Env) :
    (fuel : Nat) → (w : Nat) → Atlas × mt_render_state → Res (Nat × (Atlas × mt_render_state))
  | fuel, w, st =>
    match first_fit st.1.pdc_glyph_col_capacity w 0 st.1.pdc_glyph_start_col with
    | some r => Res.ok (r.1, ({ st.1 with pdc_glyph_start_col := r.2 }, st.2))
    | none =>
      match fuel with
      | 0 => Res.fuelOut
      | fuel + 1 => alloc_glyph_cache env fuel w (enlarge_glyph_cache env st)

/-- The loop `while((Uint32)new_cache_size < ch32) new_cache_size *= 2`, with
`k` iterations left. -/
def double_until : (k : Nat) → (new_cache_size ch32 : Nat) → Nat
  | 0, new_cache_size, _ => new_cache_size
  | k + 1, new_cache_size, ch32 =>
    if new_cache_size < ch32 then double_until k (new_cache_size * 2) ch32 else new_cache_size

/-- The size the style cache is grown to, lines 542-544. -/
def new_cache_size (cache_size ch32 : Nat) : Nat :=
  double_until ch32 (if cache_size = 0 then 256 else cache_size) ch32

/-- Lines 537-553: grow the style cache when `ch32` is not below its size, then
store `index` at `ch32`.  A store at an index that is not below the new size
writes past the end of the array. -/
def cache_store (cache : List Nat) (ch32 index : Nat) : Res (List Nat) :=
  let grown :=
    if ch32 ≥ cache.length then
      cache ++ List.replicate (new_cache_size cache.length ch32 - cache.length) 0
    else cache
  if ch32 < grown.length then Res.ok (grown.set ch32 index) else Res.undef

/-- The C `get_glyph_texture_index(ch32, attr_index)`.  `env.render_glyph`
stands for `TTF_RenderGlyph32_Blended` and gives the width `surf->w` of the
bitmap, or `none` for no surface. -/
def get_glyph_texture_index (env : Env) (fuel ch32 attr_index : Nat)
    (st : Atlas × mt_render_state) : Res (Nat × (Atlas × mt_render_state)) :=
  if ch32 = 0x110000 ∨ ch32 = 0 then Res.ok (0, st)
  else
    let ch := if env.supplementary_planes = false ∧ ch32 > 0xffff then 63 else ch32
    let cache := st.1.pdc_glyph_cache.getD attr_index []
    if ch < cache.length ∧ cache.getD ch 0 > 0 then Res.ok (cache.getD ch 0, st)
    else
      match env.render_glyph ch attr_index with
      | none => Res.ok (0, st)
      | some surf_w =>
        let w := (surf_w + env.pdc_fwidth - 1) / env.pdc_fwidth
        (alloc_glyph_cache env fuel w st).bind fun r =>
          (cache_store (r.2.1.pdc_glyph_cache.getD attr_index []) ch r.1).bind fun cache1 =>
            Res.ok (r.1,
              ({ r.2.1 with pdc_glyph_cache := r.2.1.pdc_glyph_cache.set attr_index cache1 },
               r.2.2))

/-! ## The render handoff (lines 788-839, 1015-1127) -/

/-- Everything the renderer and the producer share, with the atlas: the two
render states and the render mutex (`true` while a thread holds it). -/
structure World where
  atlas : Atlas
  submitted_state : mt_render_state
  locked_state : mt_render_state
  pdc_render_mutex : Bool
deriving DecidableEq, Repr

/-- The world at program start. -/
def World.init : World :=
  { atlas := Atlas.init, submitted_state := mt_render_state.init,
    locked_state := mt_render_state.init, pdc_render_mutex := false }

/-- What `PDC_doupdate` reads from the curses screen `SP` and its host:
`SP->cols`, `SP->lines`, `SP->line_color`, `PDC_get_viewport()` and
`PDC_get_palette_entry`. -/
structure Screen where
  cols : Nat
  lines : Nat
  line_color : Int
  viewport : SDL_Rect
  palette : Nat → Nat

/-- The body of the cell loop of `PDC_render_frame` (lines 833-837). -/
def resolve_cell (env : Env) (fuel layer i : Nat) (st : Atlas × mt_render_state) :
    Res (Atlas × mt_render_state) :=
  let codepoint_attr := load (st.2.glyph_grid_layers.getD layer default).codepoint_attr i
  (get_glyph_texture_index env fuel (codepoint_attr &&& 0x3FFFFFFF) (codepoint_attr >>> 30)
      st).bind fun r =>
    Res.ok (r.2.1,
      { r.2.2 with
        glyph_grid_layers :=
          r.2.2.glyph_grid_layers.modify
            (fun l =>
              { occupancy := l.occupancy
                glyph_grid := store l.glyph_grid i r.1
                codepoint_attr := l.codepoint_attr })
            layer })

/-- The cell loop of line 831 on one layer, with `k` iterations left. -/
def resolve_cells (env : Env) (fuel layer : Nat) :
    (k : Nat) → (i : Nat) → Atlas × mt_render_state → Res (Atlas × mt_render_state)
  | 0, _, st => Res.ok st
  | k + 1, i, st =>
    (resolve_cell env fuel layer i st).bind fun st1 =>
      resolve_cells env fuel layer k (i + 1) st1

/-- The layer loop of line 828, with `k` iterations left. -/
def resolve_layers (env : Env) (fuel n : Nat) :
    (k : Nat) → (layer : Nat) → Atlas × mt_render_state → Res (Atlas × mt_render_state)
  | 0, _, st => Res.ok st
  | k + 1, layer, st =>
    (resolve_cells env fuel layer n 0 st).bind fun st1 =>
      resolve_layers env fuel n k (layer + 1) st1

/-- Lines 798-822 of `PDC_render_frame`, the two-thread handoff.  `wake` is
what the producer did to `submitted_state` while the renderer was blocked in
`SDL_CondWait`, which gives the mutex up and holds it again on return.  The
result says whether the frame goes on to draw. -/
def render_handoff (wake : mt_render_state → mt_render_state) (w : World) : World × Bool :=
  let w1 := { w with pdc_render_mutex := true }
  let w2 :=
    if w1.submitted_state.updated = 0 then
      { w1 with submitted_state := wake w1.submitted_state }
    else w1
  if w.submitted_state.updated = 0 ∧ w2.submitted_state.updated = 0 then (w2, false)
  else
    ({ atlas := w2.atlas
       submitted_state := { w2.locked_state with updated := 0 }
       locked_state := w2.submitted_state
       pdc_render_mutex := false }, true)

/-- The C `PDC_render_frame()`: the handoff and the resolution of every cell
of `locked_state` against the atlas.  The GL calls that follow read the state
and change none of it. -/
def PDC_render_frame (env : Env) (fuel : Nat) (wake : mt_render_state → mt_render_state)
    (w : World) : Res World :=
  let h :=
    if env.pdc_threading_mode = ThreadingMode.PDC_GL_MULTI_THREADED_RENDERING then
      render_handoff wake w
    else (w, true)
  if h.2 = false then Res.ok h.1
  else
    (resolve_layers env fuel (h.1.locked_state.grid_w * h.1.locked_state.grid_h)
        h.1.locked_state.grid_layers 0 (h.1.atlas, h.1.locked_state)).bind fun st =>
      Res.ok { h.1 with atlas := st.1, locked_state := st.2 }

/-- The body of the loop of lines 1050-1090 for layer `i`: `sub` is the
layer's struct in `submitted_state` when `i` is below its old layer count,
`n` is `grid_w * grid_h`, `resized` says `old_grid_size != grid_size`. -/
def commit_layer (env : Env) (n : Nat) (resized : Bool) (sub : Option glyph_grid_layer)
    (live : glyph_grid_layer) : glyph_grid_layer :=
  let glyph_grid : Option (List Nat) :=
    match sub with
    | none => some (malloc env.junk n)
    | some l => if resized then some (realloc env.junk l.glyph_grid n) else l.glyph_grid
  let codepoint_attr : Option (List Nat) :=
    match sub with
    | none => some (malloc env.junk n)
    | some l => if resized then some (realloc env.junk l.codepoint_attr n) else l.codepoint_attr
  { occupancy := live.occupancy
    glyph_grid := glyph_grid
    codepoint_attr := codepoint_attr.map fun dst => memcpy dst 0 (live.codepoint_attr.getD []) 0 n }

/-- The loop of lines 1050-1090 from layer index `i`. -/
def commit_layers (env : Env) (n : Nat) (resized : Bool) (subs : List glyph_grid_layer) :
    (i : Nat) → List glyph_grid_layer → List glyph_grid_layer
  | _, [] => []
  | i, live :: rest =>
    commit_layer env n resized (subs.get? i) live :: commit_layers env n resized subs (i + 1) rest

/-- The two-thread branch of `PDC_doupdate` (lines 1022-1112): lock, bring
`submitted_state` to the live layer count and size, copy, unlock. -/
def commit (env : Env) (sp : Screen) (g : Grid) (w : World) : World :=
  let sub := w.submitted_state
  let n := g.grid_w * g.grid_h
  let old_n := sub.grid_w * sub.grid_h
  let color_grid : Option (List color_data) :=
    if n ≠ old_n then some (realloc env.junk_color sub.color_grid n) else sub.color_grid
  { atlas := w.atlas
    submitted_state :=
      { color_grid := color_grid.map fun dst => memcpy dst 0 (g.color_grid.getD []) 0 n
        glyph_grid_layers :=
          commit_layers env n (decide (old_n ≠ n)) sub.glyph_grid_layers 0 g.glyph_grid_layers
        grid_w := g.grid_w
        grid_h := g.grid_h
        viewport := sp.viewport
        hcol := sp.line_color
        hcol_rgb := if sp.line_color > 0 then sp.palette sp.line_color.toNat else sub.hcol_rgb
        updated := 1 }
    locked_state := w.locked_state
    pdc_render_mutex := false }

/-- The C `PDC_doupdate()`.  In single-threaded mode `locked_state` takes the
live arrays by pointer, so what the frame writes into them is seen by the
live layers as well. -/
def PDC_doupdate (env : Env) (sp : Screen) (fuel : Nat) (g : Grid) (w : World) :
    Res (Grid × World) :=
  (ensure_glyph_grid env sp.cols sp.lines 1 g).bind fun g1 =>
    (shrink_glyph_grid g1).bind fun g2 =>
      if env.pdc_threading_mode = ThreadingMode.PDC_GL_MULTI_THREADED_RENDERING then
        Res.ok (g2, commit env sp g2 w)
      else
        let locked : mt_render_state :=
          { color_grid := g2.color_grid
            glyph_grid_layers := g2.glyph_grid_layers
            grid_w := g2.grid_w
            grid_h := g2.grid_h
            viewport := sp.viewport
            hcol := sp.line_color
            hcol_rgb :=
              if sp.line_color > 0 then sp.palette sp.line_color.toNat
              else w.locked_state.hcol_rgb
            updated := w.locked_state.updated }
        (PDC_render_frame env fuel (fun s => s) { w with locked_state := locked }).bind fun w1 =>
          Res.ok ({ g2 with glyph_grid_layers := w1.locked_state.glyph_grid_layers }, w1)

/-! ## Notions used to state the properties -/

/-- The colour record of cell `(x, y)`, zero outside the array. -/
def Grid.color (g : Grid) (x y : Nat) : color_data :=
  (g.color_grid.getD []).getD (x + y * g.grid_w) (color_data.mk 0 0)

/-- The pending word `codepoint_attr` of cell `(x, y)` on `layer`. -/
def Grid.pending (g : Grid) (layer x y : Nat) : Nat :=
  load (g.glyph_grid_layers.getD layer default).codepoint_attr (x + y * g.grid_w)

/-- An array pointer holds exactly `n` elements; a `NULL` pointer does so only
for `n = 0`. -/
def holds {α : Type} (p : Option (List α)) (n : Nat) : Prop :=
  match p with
  | some a => a.length = n
  | none => n = 0

/-- A layer whose pending array is allocated with `n` elements. -/
def layer_sized (n : Nat) (l : glyph_grid_layer) : Prop :=
  ∃ ca, l.codepoint_attr = some ca ∧ ca.length = n

/-- The arrays of the live screen state have the size the dimensions say. -/
def Grid.sized (g : Grid) : Prop :=
  holds g.color_grid (g.grid_w * g.grid_h) ∧
    ∀ l ∈ g.glyph_grid_layers, layer_sized (g.grid_w * g.grid_h) l

/-- The arrays of a render state have the size its dimensions say. -/
def mt_render_state.sized (s : mt_render_state) : Prop :=
  holds s.color_grid (s.grid_w * s.grid_h) ∧
    ∀ l ∈ s.glyph_grid_layers, layer_sized (s.grid_w * s.grid_h) l

/-- The value the row loop of `ensure_glyph_grid` leaves in cell `(x, y)`. -/
def resized_cell {α : Type} (z : α) (grid_w grid_h : Nat) (old : Option (List α))
    (y x : Nat) : α :=
  match old with
  | some src => if y < grid_h ∧ x < grid_w then src.getD (y * grid_w + x) z else z
  | none => z

/-- The number of cells of a layer whose pending word is not 0. -/
def count_nonzero (l : glyph_grid_layer) : Nat :=
  (l.codepoint_attr.getD []).countP (fun v => v ≠ 0)

/-- The pointer `p` stands for the array `a`: `NULL` for no array, else the
address of a live block with the contents of the array. -/
def points_to (heap : List (Nat × List Nat)) (p : Nat) (a : Option (List Nat)) : Prop :=
  match a with
  | none => p = 0
  | some c => p ≠ 0 ∧ (p, c) ∈ heap

/-- The pointer member of layer `k`: `codepoint_attr` if `second`, else
`glyph_grid`. -/
def member_pointer (bytes : List Nat) (k : Nat) (second : Bool) : Nat :=
  read_member bytes (sizeof_glyph_grid_layer * k + if second then 16 else 8) 8

/-- The memory `m` holds the layer list `layers`: the count, the occupancy
and the arrays of every layer, no block being shared by two members. -/
def LayerMemory.represents (m : LayerMemory) (layers : List glyph_grid_layer) : Prop :=
  m.grid_layers = layers.length ∧
  sizeof_glyph_grid_layer * layers.length ≤ m.bytes.length ∧
  (∀ k, k < layers.length →
    read_member m.bytes (sizeof_glyph_grid_layer * k) 4 = (layers.getD k default).occupancy ∧
    points_to m.heap (member_pointer m.bytes k false) (layers.getD k default).glyph_grid ∧
    points_to m.heap (member_pointer m.bytes k true) (layers.getD k default).codepoint_attr) ∧
  (∀ k k1 s s1, k < layers.length → k1 < layers.length → (k ≠ k1 ∨ s ≠ s1) →
    member_pointer m.bytes k s ≠ 0 → member_pointer m.bytes k s ≠ member_pointer m.bytes k1 s1)

/-- The screen states reached from the empty screen by `draw_glyph`,
`ensure_glyph_grid` and `shrink_glyph_grid`, the screen size being whatever
the host reports at each call. -/
inductive ScreenReachable (env : Env) : Grid → Prop where
  | empty : ScreenReachable env Grid.empty
  | draw (g g1 : Grid) (cols lines cache_attr_index fuel : Nat) (y x : Int)
      (attr ch32 background foreground : Nat) :
      ScreenReachable env g →
      draw_glyph env cols lines cache_attr_index fuel y x attr ch32 background foreground g
        = Res.ok g1 →
      ScreenReachable env g1
  | ensure (g g1 : Grid) (cols lines min_layers : Nat) :
      ScreenReachable env g →
      ensure_glyph_grid env cols lines min_layers g = Res.ok g1 →
      ScreenReachable env g1
  | shrink (g g1 : Grid) :
      ScreenReachable env g → shrink_glyph_grid g = Res.ok g1 → ScreenReachable env g1

/-- The column field of a glyph index, `index & 0x7FFF`. -/
def glyph_col (index : Nat) : Nat := index &&& 0x7FFF

/-- The row field of a glyph index, `index >> 15 & 0x7FFF`. -/
def glyph_row (index : Nat) : Nat := (index >>> 15) &&& 0x7FFF

/-- The advance field of a glyph index, `index >> 30`. -/
def glyph_advance (index : Nat) : Nat := index >>> 30

/-- The entry of style cache `attr` for code point `ch`, 0 outside the array. -/
def Atlas.entry (a : Atlas) (attr ch : Nat) : Nat :=
  (a.pdc_glyph_cache.getD attr []).getD ch 0

/-- Every bitmap the rasterizer returns is one or two cells wide. -/
def advance_one_or_two (env : Env) : Prop :=
  ∀ ch attr surf_w, env.render_glyph ch attr = some surf_w →
    (surf_w + env.pdc_fwidth - 1) / env.pdc_fwidth = 1 ∨
      (surf_w + env.pdc_fwidth - 1) / env.pdc_fwidth = 2

/-- The atlas states reached from the initial atlas by lookups, whatever
`locked_state` holds at each of them (the renderer swaps it between frames and
writes its glyph grids during one). -/
inductive AtlasReachable (env : Env) : Atlas → Prop where
  | init : AtlasReachable env Atlas.init
  | lookup (a : Atlas) (locked : mt_render_state) (fuel ch32 attr_index : Nat)
      (r : Nat × (Atlas × mt_render_state)) :
      AtlasReachable env a → attr_index < 4 →
      get_glyph_texture_index env fuel ch32 attr_index (a, locked) = Res.ok r →
      AtlasReachable env r.2.1

/-- A run of commits by the producer: each step is a call of `PDC_doupdate`
on the live screen state of that moment. -/
def run_commits (env : Env) (fuel : Nat) :
    List (Screen × Grid) → Grid × World → Res (Grid × World)
  | [], gw => Res.ok gw
  | step :: rest, gw =>
    (PDC_doupdate env step.1 fuel step.2 gw.2).bind fun gw1 => run_commits env fuel rest gw1

/-- The render state holds the live screen state: dimensions, layer count,
colour grid, and on every layer occupancy and pending words. -/
def snapshot_of (s : mt_render_state) (g : Grid) : Prop :=
  s.grid_w = g.grid_w ∧ s.grid_h = g.grid_h ∧ s.grid_layers = g.grid_layers ∧
    s.color_grid.getD [] = g.color_grid.getD [] ∧
    (s.color_grid.getD []).length = g.grid_w * g.grid_h ∧
    ∀ i, i < g.grid_layers →
      (s.glyph_grid_layers.getD i default).codepoint_attr
          = (g.glyph_grid_layers.getD i default).codepoint_attr ∧
        holds (s.glyph_grid_layers.getD i default).codepoint_attr (g.grid_w * g.grid_h) ∧
        (s.glyph_grid_layers.getD i default).occupancy
          = (g.glyph_grid_layers.getD i default).occupancy

/-! ## Concrete configurations -/

/-- A two-thread configuration with an 8 x 16 cell, a 1024 texel GPU limit, a
rasterizer giving one-cell bitmaps, a combining table that splits every
combined code into `e` and U+0301, and attribute masks on five distinct bits. -/
def demo_env : Env :=
  { pdc_threading_mode := ThreadingMode.PDC_GL_MULTI_THREADED_RENDERING
    pdc_fwidth := 8
    pdc_fheight := 16
    max_texture_size := 1024
    supplementary_planes := true
    render_glyph := fun _ _ => some 8
    expand_combined := fun _ => (101, 769)
    A_UNDERLINE := 0x100000
    A_OVERLINE := 0x200000
    A_STRIKEOUT := 0x400000
    A_LEFT := 0x800000
    A_RIGHT := 0x1000000
    junk := fun i => 0xA5A50000 + i
    junk_color := fun i => color_data.mk (0xA5A50000 + i) (0xA5A50000 + i) }

/-- The same configuration in single-threaded mode. -/
def demo_env_st : Env :=
  { demo_env with pdc_threading_mode := ThreadingMode.PDC_GL_SINGLE_THREADED_RENDERING }

/-- The same configuration with a 512 x 1024 cell: the largest texture holds
two columns and one row. -/
def big_font_env : Env :=
  { demo_env with pdc_fwidth := 512, pdc_fheight := 1024, render_glyph := fun _ _ => some 512 }

/-- A screen of `cols` x 1 cells as `PDC_doupdate` sees it. -/
def demo_screen (cols : Nat) : Screen :=
  { cols := cols, lines := 1, line_color := -1,
    viewport := { x := 0, y := 0, w := 640, h := 480 }, palette := fun _ => 0 }

/-- A locked render state of `pending.length` x 1 cells with one layer. -/
def one_line (pending glyphs : List Nat) : mt_render_state :=
  { color_grid := some (List.replicate pending.length (color_data.mk 0 0xFFFFFF))
    glyph_grid_layers :=
      [{ occupancy := 0, glyph_grid := some glyphs, codepoint_attr := some pending }]
    grid_w := pending.length
    grid_h := 1
    viewport := { x := 0, y := 0, w := 640, h := 480 }
    hcol := -1
    hcol_rgb := 0
    updated := 0 }

/-- The 2 x 1 screen after `draw_glyph` put the combined character `e` +
U+0301 into cell (1, 0): the mark is the one non-zero cell of layer 1. -/
def grid_with_mark : Grid :=
  { color_grid := some [color_data.mk 0 0, color_data.mk 0 0xFFFFFF]
    glyph_grid_layers :=
      [{ occupancy := 0, glyph_grid := none, codepoint_attr := some [0, 101] },
       { occupancy := 1, glyph_grid := none, codepoint_attr := some [0, 769] }]
    grid_w := 2
    grid_h := 1 }

/-- The screen `grid_with_mark` after the terminal shrank to 1 x 1. -/
def grid_after_shrink : Grid :=
  { color_grid := some [color_data.mk 0 0]
    glyph_grid_layers :=
      [{ occupancy := 0, glyph_grid := none, codepoint_attr := some [0] },
       { occupancy := 1, glyph_grid := none, codepoint_attr := some [0] }]
    grid_w := 1
    grid_h := 1 }

/-- The 2 x 1 screen right after the first `ensure_glyph_grid(1)`: one blank
layer. -/
def blank_line_grid : Grid :=
  { color_grid := some [color_data.mk 0 0, color_data.mk 0 0]
    glyph_grid_layers := [{ occupancy := 0, glyph_grid := none, codepoint_attr := some [0, 0] }]
    grid_w := 2
    grid_h := 1 }

/-- The big-font atlas after `A` was looked up in a fresh atlas: the texture is
at the GPU limit and `A` sits at column 1 of the only row. -/
def atlas_with_A : Atlas :=
  { pdc_glyph_cache_w := 1024
    pdc_glyph_cache_h := 1024
    pdc_glyph_col_capacity := 2
    pdc_glyph_start_col := [2]
    pdc_glyph_cache := [(List.replicate 256 0).set 65 (BUILD_GLYPH_INDEX 1 0 1), [], [], []] }

/-- The big-font atlas and the locked screen `ABC` in the middle of a frame,
after cells 0 and 1 were resolved: the texture is at the GPU limit, both of its
slots are taken by `A` and `B`, and both are on screen. -/
def full_atlas : Atlas × mt_render_state :=
  ({ pdc_glyph_cache_w := 1024
     pdc_glyph_cache_h := 1024
     pdc_glyph_col_capacity := 2
     pdc_glyph_start_col := [2]
     pdc_glyph_cache :=
       [((List.replicate 256 0).set 65 (BUILD_GLYPH_INDEX 0 0 1)).set 66
          (BUILD_GLYPH_INDEX 1 0 1), [], [], []] },
   one_line [65, 66, 67] [BUILD_GLYPH_INDEX 0 0 1, BUILD_GLYPH_INDEX 1 0 1, 0])

/-- The index `e` names a slot of one or two columns that lies below the
cursor of its row and inside the column capacity. -/
def placed (start_col : List Nat) (col_capacity e : Nat) : Prop :=
  ∃ c r w, e = BUILD_GLYPH_INDEX c r w ∧ (w = 1 ∨ w = 2) ∧ r < start_col.length ∧
    c + w ≤ start_col.getD r 0 ∧ c + w ≤ col_capacity

/-- The invariant of the atlas: the texture is square and within the GPU
limit, the capacities are the texture size in cells, there are four caches,
every non-zero cache entry is a placed slot, and no cache holds an index
twice. -/
def atlas_inv (env : Env) (a : Atlas) : Prop :=
  a.pdc_glyph_cache_w ≤ env.max_texture_size ∧
    a.pdc_glyph_cache_h = a.pdc_glyph_cache_w ∧
    a.pdc_glyph_col_capacity = a.pdc_glyph_cache_w / env.pdc_fwidth ∧
    a.pdc_glyph_start_col.length = a.pdc_glyph_cache_h / env.pdc_fheight ∧
    a.pdc_glyph_cache.length = 4 ∧
    (∀ s i, a.entry s i ≠ 0 →
      placed a.pdc_glyph_start_col a.pdc_glyph_col_capacity (a.entry s i)) ∧
    (∀ s i j, a.entry s i ≠ 0 → a.entry s i = a.entry s j → i = j)

/-- The atlas of `demo_env` after `A` was looked up in a fresh atlas: a 256 x
256 texture of 32 x 16 cells with `A` at column 1 of row 0. -/
def demo_atlas : Atlas :=
  { pdc_glyph_cache_w := 256
    pdc_glyph_cache_h := 256
    pdc_glyph_col_capacity := 32
    pdc_glyph_start_col := [2, 0, 0, 0, 0, 0, 0, 0, 0, 0, 0, 0, 0, 0, 0, 0]
    pdc_glyph_cache := [(List.replicate 256 0).set 65 (BUILD_GLYPH_INDEX 1 0 1), [], [], []] }

/-- The world after two commits from program start: the blank 2 x 1 screen,
then the screen with a combining mark. -/
def two_commits : World :=
  commit demo_env (demo_screen 2) grid_with_mark
    (commit demo_env (demo_screen 2) blank_line_grid World.init)

/-- The atlas of `demo_env` right after the first slot was allocated and
before anything is stored in a cache. -/
def atlas_after_alloc : Atlas :=
  { pdc_glyph_cache_w := 256
    pdc_glyph_cache_h := 256
    pdc_glyph_col_capacity := 32
    pdc_glyph_start_col := [2, 0, 0, 0, 0, 0, 0, 0, 0, 0, 0, 0, 0, 0, 0, 0]
    pdc_glyph_cache := [[], [], [], []] }

/-- A configuration with a 65536 texel GPU limit and a cell of 1 x 65536
texels, whose rasterizer gives two-cell bitmaps: the largest texture holds
65536 columns and one row. -/
def wide_env : Env :=
  { demo_env with
    pdc_fwidth := 1, pdc_fheight := 65536, max_texture_size := 65536
    render_glyph := fun _ _ => some 2 }

/-- The plain style cache of `wide_env` after code point 20000 and then the
code points 1 to `k - 1` were looked up, in this order. -/
@[irreducible]
def wide_cache (k : Nat) : List Nat :=
  (List.range 32768).map fun i =>
    if i = 20000 then BUILD_GLYPH_INDEX 1 0 2
    else if 1 ≤ i ∧ i < k then BUILD_GLYPH_INDEX (1 + 2 * i) 0 2
    else 0

/-- The atlas of `wide_env` after those `k` lookups. -/
def wide_atlas (k : Nat) : Atlas :=
  { pdc_glyph_cache_w := 65536
    pdc_glyph_cache_h := 65536
    pdc_glyph_col_capacity := 65536
    pdc_glyph_start_col := [1 + 2 * k]
    pdc_glyph_cache := [wide_cache k, [], [], []] }

/-- The 2 x 1 screen after the first `draw_glyph`, which put `A` into cell
(0, 0) of the empty screen. -/
def grid_with_A : Grid :=
  { color_grid := some [color_data.mk 0 0xFFFFFF, color_data.mk 0 0]
    glyph_grid_layers := [{ occupancy := 0, glyph_grid := none, codepoint_attr := some [65, 0] }]
    grid_w := 2
    grid_h := 1 }

/-- The configuration `demo_env` with a combining table in which the combined
code 0x110002 carries two marks: it splits into the combined code 0x110001 and
U+0302, and every other combined code into `e` and U+0301. -/
def stacked_env : Env :=
  { demo_env with
    expand_combined := fun c => if c = 0x110002 then (0x110001, 770) else (101, 769) }

/-- The 1 x 1 screen after `draw_glyph` put `e` with two combining marks into
its cell: one mark on layer 1 and one on layer 2. -/
def grid_two_marks : Grid :=
  { color_grid := some [color_data.mk 0 0xFFFFFF]
    glyph_grid_layers :=
      [{ occupancy := 0, glyph_grid := none, codepoint_attr := some [101] },
       { occupancy := 1, glyph_grid := none, codepoint_attr := some [770] },
       { occupancy := 1, glyph_grid := none, codepoint_attr := some [769] }]
    grid_w := 1
    grid_h := 1 }

/-- The screen `grid_two_marks` after `f` was written over its cell: both
upper layers are empty. -/
def grid_marks_cleared : Grid :=
  { color_grid := some [color_data.mk 0 0xFFFFFF]
    glyph_grid_layers :=
      [{ occupancy := 0, glyph_grid := none, codepoint_attr := some [102] },
       { occupancy := 0, glyph_grid := none, codepoint_attr := some [0] },
       { occupancy := 0, glyph_grid := none, codepoint_attr := some [0] }]
    grid_w := 1
    grid_h := 1 }

/-- The screen `grid_with_mark` after `f` was written over the cell with the
mark: layer 1 is empty. -/
def grid_mark_cleared : Grid :=
  { color_grid := some [color_data.mk 0 0, color_data.mk 0 0xFFFFFF]
    glyph_grid_layers :=
      [{ occupancy := 0, glyph_grid := none, codepoint_attr := some [0, 102] },
       { occupancy := 0, glyph_grid := none, codepoint_attr := some [0, 0] }]
    grid_w := 2
    grid_h := 1 }

/-- The configuration `demo_env` with a rasterizer that has no glyph at all. -/
def no_glyph_env : Env :=
  { demo_env with render_glyph := fun _ _ => none }

/-- The dimensions of the atlas agree: the texture is square and within the
GPU limit, and the capacities are the texture size in cells. -/
def atlas_dims (env : Env) (a : Atlas) : Prop :=
  a.pdc_glyph_cache_w ≤ env.max_texture_size ∧
    a.pdc_glyph_cache_h = a.pdc_glyph_cache_w ∧
    a.pdc_glyph_col_capacity = a.pdc_glyph_cache_w / env.pdc_fwidth ∧
    a.pdc_glyph_row_capacity = a.pdc_glyph_cache_h / env.pdc_fheight

/-- The configuration `demo_env` with a rasterizer whose bitmaps are 32
texels wide, four cells of 8 texels. -/
def broad_env : Env :=
  { demo_env with render_glyph := fun _ _ => some 32 }

/-- The atlas of `broad_env` after `A` was looked up in a fresh atlas: four
columns of row 0 are taken and the cache holds the index 1 for `A`. -/
def broad_atlas : Atlas :=
  { pdc_glyph_cache_w := 256
    pdc_glyph_cache_h := 256
    pdc_glyph_col_capacity := 32
    pdc_glyph_start_col := [5, 0, 0, 0, 0, 0, 0, 0, 0, 0, 0, 0, 0, 0, 0, 0]
    pdc_glyph_cache := [(List.replicate 256 0).set 65 1, [], [], []] }

/-! ## PDC_transform_line (lines 716-740) -/

/-- One call `_new_packet(attr, lineno, x, len, srcp)`; `srcp` is the array of
cells from the pointer passed on. -/
structure Packet where
  attr : Nat
  lineno : Int
  x : Int
  len : Nat
  srcp : List Nat
deriving DecidableEq, Repr

/-- The loop `for (i = 1, j = 1; j < len; i++, j++)` of `PDC_transform_line`
with `k = len - j` iterations left, followed by the closing `_new_packet`.
`mask` is `A_ATTRIBUTES ^ A_ALTCHARSET`.  Returns the calls of `_new_packet`
in the order they are made. -/
def transform_loop (mask : Nat) (lineno : Int) :
    (k : Nat) → (i : Nat) → (old_attr : Nat) → (x : Int) → (srcp : List Nat) → List Packet
  | 0, i, old_attr, x, srcp =>
    [{ attr := old_attr, lineno := lineno, x := x, len := i, srcp := srcp }]
  | k + 1, i, old_attr, x, srcp =>
    let attr := srcp.getD i 0 &&& mask
    if attr ≠ old_attr then
      { attr := old_attr, lineno := lineno, x := x, len := i, srcp := srcp } ::
        transform_loop mask lineno k (0 + 1) attr (x + i) (srcp.drop i)
    else transform_loop mask lineno k (i + 1) old_attr x srcp

/-- The C `PDC_transform_line(lineno, x, len, srcp)` as the calls of
`_new_packet` it makes; it has no other effect. -/
def PDC_transform_line (mask : Nat) (lineno x : Int) (len : Nat) (srcp : List Nat) :
    List Packet :=
  transform_loop mask lineno (len - 1) 1 (srcp.getD 0 0 &&& mask) x srcp

/-- The packets cover the cells from column `x` on one after the other: each
starts where the one before ended, in the array and on the screen, and is at
least one cell long. -/
def consecutive : Int → List Nat → List Packet → Prop
  | _, _, [] => True
  | x, cells, p :: ps =>
    p.x = x ∧ p.srcp = cells ∧ 1 ≤ p.len ∧ consecutive (x + p.len) (cells.drop p.len) ps

/-- A line of four cells: two with attribute bits 0x10000, two with 0x20000. -/
def demo_cells : List Nat := [0x10041, 0x10042, 0x20043, 0x20044]

/-! ## _set_attr, get_pdc_color and _new_packet (lines 462-469, 628-711) -/

/-- What `_set_attr`, `get_pdc_color` and `_new_packet` take from outside this
file: the build option `PDC_WIDE`, `SP->termattrs` and `SP->mono`, the
attribute masks and the macros `_is_altcharset` and `PAIR_NUMBER` of curses.h,
the table `acs_map`, the colour pairs, the palette and the channel macros of
pdccolor.h. -/
structure Curses where
  pdc_wide : Bool
  termattrs : Nat
  mono : Bool
  A_BOLD : Nat
  A_ITALIC : Nat
  A_BLINK : Nat
  A_REVERSE : Nat
  A_COLOR : Nat
  A_CHARTEXT : Nat
  is_altcharset : Nat → Bool
  acs_map : Nat → Nat
  PAIR_NUMBER : Nat → Nat
  extended_pair_content : Nat → Int × Int
  PDC_get_palette_entry : Int → Nat
  Get_RValue : Nat → Nat
  Get_GValue : Nat → Nat
  Get_BValue : Nat → Nat

/-- The file-scope variables `foregr`, `backgr` and `cache_attr_index`. -/
structure Pen where
  foregr : Int
  backgr : Int
  cache_attr_index : Nat
deriving DecidableEq, Repr

/-- The C `get_pdc_color(color_idx)`. -/
def get_pdc_color (cu : Curses) (color_idx : Int) : Nat :=
  let rgb := cu.PDC_get_palette_entry (if color_idx > 0 then color_idx else 0)
  (cu.Get_RValue rgb % 2 ^ 32) ||| ((cu.Get_GValue rgb % 2 ^ 32) <<< 8) % 2 ^ 32 |||
    ((cu.Get_BValue rgb % 2 ^ 32) <<< 16) % 2 ^ 32

/-- The C `_set_attr(ch)`. -/
def _set_attr (cu : Curses) (ch : Nat) (pen : Pen) : Pen :=
  let sysattrs := cu.termattrs
  let bold : Bool := cu.pdc_wide && decide (ch &&& cu.A_BOLD ≠ 0 ∧ sysattrs &&& cu.A_BOLD ≠ 0)
  let italic : Bool :=
    cu.pdc_wide && decide (ch &&& cu.A_ITALIC ≠ 0 ∧ sysattrs &&& cu.A_ITALIC ≠ 0)
  let cache_attr_index := (if bold then 1 else 0) ||| (if italic then 2 else 0)
  let ch1 := ch &&& (cu.A_COLOR ||| cu.A_BOLD ||| cu.A_BLINK ||| cu.A_REVERSE)
  if cu.mono then { pen with cache_attr_index := cache_attr_index }
  else
    let pair := cu.extended_pair_content (cu.PAIR_NUMBER ch1)
    let newfg : Int :=
      if ch1 &&& cu.A_BOLD ≠ 0 ∧ ¬ (sysattrs &&& cu.A_BOLD ≠ 0) then Int.lor pair.1 8 else pair.1
    let newbg : Int :=
      if ch1 &&& cu.A_BLINK ≠ 0 ∧ ¬ (sysattrs &&& cu.A_BLINK ≠ 0) then Int.lor pair.2 8 else pair.2
    if ch1 &&& cu.A_REVERSE ≠ 0 then
      { foregr := newbg, backgr := newfg, cache_attr_index := cache_attr_index }
    else { foregr := newfg, backgr := newbg, cache_attr_index := cache_attr_index }

/-- The code point `_new_packet` passes to `draw_glyph` for the cell `ch`
(lines 699-706): a space while the run is blinked off, the `acs_map` entry for
an alternate character set cell, then the character bits, as `Uint32`. -/
def packet_char (cu : Curses) (blink : Bool) (ch : Nat) : Nat :=
  let ch1 := if blink then 32 else ch
  let ch2 := if cu.is_altcharset ch1 then cu.acs_map (ch1 &&& 0x7f) else ch1
  (ch2 &&& cu.A_CHARTEXT) % 2 ^ 32

/-- The loop `for (j = 0; j < len; j++)` of `_new_packet`, with `k = len - j`
iterations left. -/
def new_packet_loop (env : Env) (cu : Curses) (cols lines fuel : Nat) (blink : Bool) (pen : Pen)
    (attr : Nat) (lineno x : Int) (srcp : List Nat) : (k : Nat) → (j : Nat) → Grid → Res Grid
  | 0, _, g => Res.ok g
  | k + 1, j, g =>
    (draw_glyph env cols lines pen.cache_attr_index fuel lineno (x + j) attr
        (packet_char cu blink (srcp.getD j 0))
        (get_pdc_color cu pen.backgr) (get_pdc_color cu pen.foregr) g).bind fun g1 =>
      new_packet_loop env cu cols lines fuel blink pen attr lineno x srcp k (j + 1) g1

/-- The C `_new_packet(attr, lineno, x, len, srcp)`, on the pen and the screen
state; `blinked_off` is the file-scope flag of that name. -/
def _new_packet (env : Env) (cu : Curses) (cols lines fuel : Nat) (blinked_off : Bool)
    (attr : Nat) (lineno x : Int) (len : Nat) (srcp : List Nat) (st : Pen × Grid) :
    Res (Pen × Grid) :=
  let blink : Bool :=
    blinked_off && decide (attr &&& cu.A_BLINK ≠ 0) && decide (cu.termattrs &&& cu.A_BLINK ≠ 0)
  let pen := _set_attr cu attr st.1
  (new_packet_loop env cu cols lines fuel blink pen attr lineno x srcp len 0 st.2).bind fun g =>
    Res.ok (pen, g)

/-- A wide-character build with bold, italic and blink in the system mask, the
attribute masks of a 64-bit `chtype`, colour pair `n` standing for foreground
`n` on background 0, and a palette whose entry `n` is the packed colour
`0x010101 * n`. -/
def demo_curses : Curses :=
  { pdc_wide := true
    termattrs := 0x00E0000000
    mono := false
    A_BOLD := 0x0080000000
    A_ITALIC := 0x0040000000
    A_BLINK := 0x0020000000
    A_REVERSE := 0x0010000000
    A_COLOR := 0xFFFFF00000000000
    A_CHARTEXT := 0x1FFFFF
    is_altcharset := fun ch => decide (ch &&& 0x0001FFFF80 = 0x0000010000)
    acs_map := fun ch => ch
    PAIR_NUMBER := fun ch => ch >>> 44
    extended_pair_content := fun n => (n, 0)
    PDC_get_palette_entry := fun n => 0x010101 * n.toNat
    Get_RValue := fun rgb => rgb &&& 0xFF
    Get_GValue := fun rgb => (rgb >>> 8) &&& 0xFF
    Get_BValue := fun rgb => (rgb >>> 16) &&& 0xFF }

/-- A run of two blinking cells, `Z` and `Y`, with colour pair 7. -/
def blink_cells : List Nat := [0x70002000005A, 0x700020000059]

/-- The screen `grid_with_mark` after an underlined white `A` on grey was drawn
over the cell with the mark. -/
def grid_underlined : Grid :=
  { color_grid := some [color_data.mk 0 0, color_data.mk 0x202020 0x04FFFFFF]
    glyph_grid_layers :=
      [{ occupancy := 0, glyph_grid := none, codepoint_attr := some [0, 65] },
       { occupancy := 0, glyph_grid := none, codepoint_attr := some [0, 0] }]
    grid_w := 2
    grid_h := 1 }

/-- The configuration `demo_env` with a 341 x 512 cell, so that the largest
texture holds three columns and two rows, and a rasterizer whose bitmaps are
one cell wide below code point 128 and two cells wide from there on. -/
def odd_env : Env :=
  { demo_env with
    pdc_fwidth := 341, pdc_fheight := 512
    render_glyph := fun ch _ => if ch ≥ 128 then some 682 else some 341 }

/-- The atlas of `odd_env` after the frame that drew the code points 200, 65,
201 and 66: all six slots are taken, by `A` at (0, 0), code 200 at columns 1-2
of row 0, code 201 at columns 0-1 of row 1 and `B` at (2, 1). -/
def packed_atlas : Atlas :=
  { pdc_glyph_cache_w := 1024
    pdc_glyph_cache_h := 1024
    pdc_glyph_col_capacity := 3
    pdc_glyph_start_col := [3, 3]
    pdc_glyph_cache :=
      [((((List.replicate 256 0).set 65 (BUILD_GLYPH_INDEX 0 0 1)).set 66
          (BUILD_GLYPH_INDEX 2 1 1)).set 200 (BUILD_GLYPH_INDEX 1 0 2)).set 201
          (BUILD_GLYPH_INDEX 0 1 2), [], [], []] }

/-- The locked screen `A`, `B`, 200, 201, `C` in the middle of the next frame,
after its first four cells were resolved against `packed_atlas`. -/
def packed_screen : mt_render_state :=
  one_line [65, 66, 200, 201, 67]
    [BUILD_GLYPH_INDEX 0 0 1, BUILD_GLYPH_INDEX 2 1 1, BUILD_GLYPH_INDEX 1 0 2,
     BUILD_GLYPH_INDEX 0 1 2, 0]

/-- The argument of `glUniform3f(u_line_color, ...)` in `PDC_render_frame`
(lines 957-967): the packed colour `hcol_rgb` whose three channels are passed
when `hcol >= 0`, and `none` for the sentinel (-1, -1, -1). -/
def u_line_color (s : mt_render_state) : Option Nat :=
  if s.hcol ≥ 0 then some s.hcol_rgb else none

/-- A blank screen of two cells with highlight colour index `n` and a palette
with black at index 0 and red at index 1. -/
def line_color_screen (n : Int) : Screen :=
  { cols := 2, lines := 1, line_color := n,
    viewport := { x := 0, y := 0, w := 640, h := 480 },
    palette := fun i => if i = 1 then 0x0000FF else 0 }

/-- The memory `memory_empty_below_top` after `shrink_glyph_grid`: the array
at 0x2000 is freed, the slot of layer 1 has the low byte of the occupancy of
layer 2 and still holds the address 0x2000, and `grid_layers` is 2. -/
def memory_after_shrink : LayerMemory :=
  { bytes := layer_bytes 0 0 0x1000 ++ layer_bytes 1 0 0x2000 ++ layer_bytes 1 0 0x3000
    grid_layers := 2
    heap := [(0x1000, [102]), (0x3000, [769])] }

/-- The memory of the screen `grid_marks_cleared`: the layer stack (base,
empty, empty). -/
def memory_marks_cleared : LayerMemory :=
  { bytes := layer_bytes 0 0 0x1000 ++ layer_bytes 0 0 0x2000 ++ layer_bytes 0 0 0x3000
    grid_layers := 3
    heap := [(0x1000, [102]), (0x2000, [0]), (0x3000, [0])] }

/-- The memory of the screen `grid_mark_cleared`: the layer stack (base,
empty). -/
def memory_mark_cleared : LayerMemory :=
  { bytes := layer_bytes 0 0 0x1000 ++ layer_bytes 0 0 0x2000
    grid_layers := 2
    heap := [(0x1000, [0, 102]), (0x2000, [0, 0])] }

/-! # Properties -/

set_option maxRecDepth 8000

/-! ## Arrays -/

theorem zero_loop_length {α : Type} (z : α) (base : Nat) : ∀ (k i : Nat) (a : List α),
    (zero_loop z base k i a).length = a.length := by
  intro k
  induction k with
  | zero => intro i a; rfl
  | succ k ih => intro i a; simp [zero_loop, ih]

theorem zero_loop_getElem? {α : Type} (z : α) (base : Nat) : ∀ (k i : Nat) (a : List α) (p : Nat),
    (zero_loop z base k i a)[p]? =
      if base + i ≤ p ∧ p < base + i + k ∧ p < a.length then some z else a[p]? := by
  intro k
  induction k with
  | zero =>
    intro i a p
    have : ¬ (base + i ≤ p ∧ p < base + i + 0 ∧ p < a.length) := by omega
    simp only [zero_loop, this, if_false]
  | succ k ih =>
    intro i a p
    simp only [zero_loop, ih, List.length_set, List.getElem?_set]
    by_cases h1 : i + base = p
    · subst h1
      by_cases h2 : i + base < a.length
      · have c1 : ¬ (base + (i + 1) ≤ i + base ∧ i + base < base + (i + 1) + k ∧ i + base < a.length) := by omega
        have c2 : (base + i ≤ i + base ∧ i + base < base + i + (k + 1) ∧ i + base < a.length) := by omega
        simp [c1, c2, h2]
      · have c1 : ¬ (base + (i + 1) ≤ i + base ∧ i + base < base + (i + 1) + k ∧ i + base < a.length) := by omega
        have c2 : ¬ (base + i ≤ i + base ∧ i + base < base + i + (k + 1) ∧ i + base < a.length) := by omega
        simp [c1, c2, h2]
        omega
    · simp only [h1, if_false]
      by_cases c : base + (i + 1) ≤ p ∧ p < base + (i + 1) + k ∧ p < a.length
      · have c2 : (base + i ≤ p ∧ p < base + i + (k + 1) ∧ p < a.length) := by omega
        simp [c, c2]
      · have c2 : ¬ (base + i ≤ p ∧ p < base + i + (k + 1) ∧ p < a.length) := by omega
        simp [c, c2]

theorem memcpy_length {α : Type} (dst src : List α) (d s n : Nat) (hd : d + n ≤ dst.length)
    (hs : s + n ≤ src.length) : (memcpy dst d src s n).length = dst.length := by
  simp [memcpy]; omega

theorem memcpy_getElem? {α : Type} (dst src : List α) (d s n p : Nat) (hd : d + n ≤ dst.length)
    (hs : s + n ≤ src.length) :
    (memcpy dst d src s n)[p]? = if d ≤ p ∧ p < d + n then src[s + (p - d)]? else dst[p]? := by
  unfold memcpy
  have hmin : min d dst.length = d := by omega
  have hmin2 : min n (src.length - s) = n := by omega
  by_cases h1 : p < d
  · rw [List.getElem?_append_left (by simp; omega)]
    have c : ¬ (d ≤ p ∧ p < d + n) := by omega
    simp [List.getElem?_take, h1, c]
  · rw [List.getElem?_append_right (by simp; omega)]
    simp only [List.length_take, hmin]
    by_cases h2 : p < d + n
    · rw [List.getElem?_append_left (by simp; omega)]
      have c : (d ≤ p ∧ p < d + n) := by omega
      have c3 : p - d < n := by omega
      simp [List.getElem?_take, List.getElem?_drop, c, c3]
    · rw [List.getElem?_append_right (by simp; omega)]
      have c : ¬ (d ≤ p ∧ p < d + n) := by omega
      simp only [List.length_take, List.length_drop, hmin2, List.getElem?_drop, c, if_false]
      congr 1; omega

theorem resize_row_length {α : Type} (z : α) (cols gw gh : Nat) (old : Option (List α)) (j : Nat)
    (a : List α) (ha : (j + 1) * cols ≤ a.length)
    (hold : ∀ src, old = some src → gw * gh ≤ src.length) :
    (resize_row z cols gw gh old j a).length = a.length := by
  have e : (j + 1) * cols = j * cols + cols := Nat.succ_mul j cols
  unfold resize_row
  cases old with
  | none => simp [zero_loop_length]
  | some src =>
    simp only
    split_ifs with h
    · rw [zero_loop_length, memcpy_length]
      · omega
      · have h1 : (j + 1) * gw ≤ gh * gw := Nat.mul_le_mul_right gw h
        have h2 : (j + 1) * gw = j * gw + gw := Nat.succ_mul j gw
        have h3 := hold src rfl
        rw [Nat.mul_comm gw gh] at h3
        omega
    · simp [zero_loop_length]

theorem resize_row_getElem? {α : Type} (z : α) (cols gw gh : Nat) (old : Option (List α)) (j : Nat)
    (a : List α) (ha : (j + 1) * cols ≤ a.length)
    (hold : ∀ src, old = some src → gw * gh ≤ src.length) (p : Nat) :
    (resize_row z cols gw gh old j a)[p]? =
      if j * cols ≤ p ∧ p < (j + 1) * cols then some (resized_cell z gw gh old j (p - j * cols))
      else a[p]? := by
  have e : (j + 1) * cols = j * cols + cols := Nat.succ_mul j cols
  unfold resize_row
  cases old with
  | none =>
    simp only [zero_loop_getElem?, resized_cell]
    by_cases c : j * cols ≤ p ∧ p < (j + 1) * cols
    · have c2 : j * cols + 0 ≤ p ∧ p < j * cols + 0 + cols ∧ p < a.length := by omega
      rw [if_pos c, if_pos c2]
    · have c2 : ¬ (j * cols + 0 ≤ p ∧ p < j * cols + 0 + cols ∧ p < a.length) := by omega
      rw [if_neg c, if_neg c2]
  | some src =>
    simp only
    by_cases h : j < gh
    · have h1 : (j + 1) * gw ≤ gh * gw := Nat.mul_le_mul_right gw h
      have h2 : (j + 1) * gw = j * gw + gw := Nat.succ_mul j gw
      have h3 := hold src rfl
      rw [Nat.mul_comm gw gh] at h3
      have hd : j * cols + min gw cols ≤ a.length := by omega
      have hs : j * gw + min gw cols ≤ src.length := by omega
      simp only [h, if_true, zero_loop_getElem?, memcpy_length _ _ _ _ _ hd hs,
        memcpy_getElem? _ _ _ _ _ _ hd hs, resized_cell]
      by_cases c : j * cols ≤ p ∧ p < (j + 1) * cols
      · by_cases cx : p - j * cols < gw
        · have c2 : ¬ (j * cols + min gw cols ≤ p ∧
              p < j * cols + min gw cols + (cols - min gw cols) ∧ p < a.length) := by omega
          have c3 : j * cols ≤ p ∧ p < j * cols + min gw cols := by omega
          have c4 : j * gw + (p - j * cols) < src.length := by omega
          rw [if_pos c, if_neg c2, if_pos c3, if_pos ⟨trivial, cx⟩]
          rw [List.getD_eq_getElem?_getD, List.getElem?_eq_getElem c4]
          simp
        · have c2 : (j * cols + min gw cols ≤ p ∧
              p < j * cols + min gw cols + (cols - min gw cols) ∧ p < a.length) := by omega
          rw [if_pos c, if_pos c2, if_neg (fun hh => cx hh.2)]
      · have c2 : ¬ (j * cols + min gw cols ≤ p ∧
            p < j * cols + min gw cols + (cols - min gw cols) ∧ p < a.length) := by omega
        have c3 : ¬ (j * cols ≤ p ∧ p < j * cols + min gw cols) := by omega
        rw [if_neg c, if_neg c2, if_neg c3]
    · simp only [h, if_false, zero_loop_getElem?, resized_cell, false_and]
      by_cases c : j * cols ≤ p ∧ p < (j + 1) * cols
      · have c2 : j * cols + 0 ≤ p ∧ p < j * cols + 0 + cols ∧ p < a.length := by omega
        rw [if_pos c, if_pos c2]
      · have c2 : ¬ (j * cols + 0 ≤ p ∧ p < j * cols + 0 + cols ∧ p < a.length) := by omega
        rw [if_neg c, if_neg c2]

theorem resize_rows_spec {α : Type} (z : α) (cols gw gh : Nat) (old : Option (List α))
    (hold : ∀ src, old = some src → gw * gh ≤ src.length) :
    ∀ (k j : Nat) (a : List α), (j + k) * cols ≤ a.length →
      (resize_rows z cols gw gh old k j a).length = a.length ∧
      (∀ p, p < j * cols → (resize_rows z cols gw gh old k j a)[p]? = a[p]?) ∧
      (∀ y x, j ≤ y → y < j + k → x < cols →
        (resize_rows z cols gw gh old k j a)[y * cols + x]? =
          some (resized_cell z gw gh old y x)) := by
  intro k
  induction k with
  | zero =>
    intro j a _
    refine ⟨rfl, fun p _ => rfl, ?_⟩
    intro y x h1 h2
    omega
  | succ k ih =>
    intro j a ha
    have e : (j + 1) * cols = j * cols + cols := Nat.succ_mul j cols
    have e2 : (j + (k + 1)) * cols = (j + 1 + k) * cols := by congr 1; omega
    have e3 : (j + 1) * cols ≤ (j + 1 + k) * cols := Nat.mul_le_mul_right cols (by omega)
    have hrow : (j + 1) * cols ≤ a.length := by omega
    have hlen := resize_row_length z cols gw gh old j a hrow hold
    obtain ⟨i1, i2, i3⟩ := ih (j + 1) (resize_row z cols gw gh old j a) (by rw [hlen]; omega)
    simp only [resize_rows]
    refine ⟨by rw [i1, hlen], ?_, ?_⟩
    · intro p hp
      rw [i2 p (by omega), resize_row_getElem? z cols gw gh old j a hrow hold]
      have c : ¬ (j * cols ≤ p ∧ p < (j + 1) * cols) := by omega
      simp only [c, if_false]
    · intro y x h1 h2 hx
      by_cases hy : y = j
      · subst hy
        rw [i2 _ (by omega), resize_row_getElem? z cols gw gh old y a hrow hold]
        have c : y * cols ≤ y * cols + x ∧ y * cols + x < (y + 1) * cols := by omega
        simp only [c, and_self, if_true]
        congr 2; omega
      · exact i3 y x (by omega) (by omega) hx

/-! ## ensure_glyph_grid -/

theorem default_layer : (default : glyph_grid_layer) =
    { occupancy := 0, glyph_grid := none, codepoint_attr := none } := rfl

theorem getD_extend_layers (ls : List glyph_grid_layer) (k i : Nat) :
    (extend_layers ls k).getD i default = ls.getD i default := by
  unfold extend_layers
  split_ifs with h
  · by_cases hi : i < ls.length
    · simp [List.getD_eq_getElem?_getD, List.getElem?_append_left hi]
    · rw [List.getD_eq_getElem?_getD, List.getD_eq_getElem?_getD,
        List.getElem?_append_right (by omega)]
      have : ls[i]? = none := by simp; omega
      rw [this]
      by_cases h2 : i - ls.length < k - ls.length
      · simp [List.getElem?_replicate, h2, default_layer]
      · simp [List.getElem?_replicate, h2]
  · rfl

theorem length_extend_layers (ls : List glyph_grid_layer) (k : Nat) :
    (extend_layers ls k).length = max ls.length k := by
  unfold extend_layers
  split_ifs with h
  · simp; omega
  · omega

theorem ensure_layers_multi (env : Env)
    (hmt : env.pdc_threading_mode = ThreadingMode.PDC_GL_MULTI_THREADED_RENDERING)
    (cols lines gw gh : Nat) (ls : List glyph_grid_layer) :
    ensure_layers env cols lines gw gh ls = Res.ok (ls.map fun l =>
      { occupancy := l.occupancy
        glyph_grid := l.glyph_grid
        codepoint_attr := some (resize_rows 0 cols gw gh l.codepoint_attr lines 0
          (List.replicate (lines * cols) 0)) }) := by
  induction ls with
  | nil => rfl
  | cons l ls ih => simp [ensure_layers, ensure_layer, hmt, ih, Res.bind]

theorem holds_le {α : Type} (p : Option (List α)) (n : Nat) (h : holds p n) :
    ∀ src, p = some src → n ≤ src.length := by
  intro src hs
  subst hs
  exact Nat.le_of_eq h.symm

theorem resized_rows_getD {α : Type} (z : α) (cols lines gw gh : Nat) (old : Option (List α))
    (hold : ∀ src, old = some src → gw * gh ≤ src.length) (a : List α)
    (ha : a.length = lines * cols) (x y : Nat)
    (hx : x < cols) (hy : y < lines) :
    (resize_rows z cols gw gh old lines 0 a).getD (x + y * cols) z =
      if x < gw ∧ y < gh then (old.getD []).getD (x + y * gw) z else z := by
  have hspec := resize_rows_spec z cols gw gh old hold lines 0 a (by rw [ha]; simp)
  have h3 := hspec.2.2 y x (Nat.zero_le y) (by omega) hx
  rw [List.getD_eq_getElem?_getD, Nat.add_comm x, h3]
  simp only [Option.getD_some, resized_cell]
  cases old with
  | none => simp
  | some src =>
    simp only [Option.getD_some, Nat.add_comm x]
    by_cases c : y < gh ∧ x < gw
    · rw [if_pos c, if_pos ⟨c.2, c.1⟩]
    · rw [if_neg c, if_neg (fun hh => c ⟨hh.2, hh.1⟩)]

theorem resized_rows_length {α : Type} (z : α) (cols lines gw gh : Nat) (old : Option (List α))
    (hold : ∀ src, old = some src → gw * gh ≤ src.length) (a : List α)
    (ha : a.length = lines * cols) :
    (resize_rows z cols gw gh old lines 0 a).length = lines * cols := by
  have hspec := resize_rows_spec z cols gw gh old hold lines 0 a (by rw [ha]; simp)
  rw [hspec.1, ha]

/-- In two-thread mode `ensure_glyph_grid` always returns; the overlapping
rectangle of the colour grid and of every layer keeps its contents, every other
cell, and every cell of a new layer, is zero. -/
theorem ensure_glyph_grid_multi (env : Env)
    (hmt : env.pdc_threading_mode = ThreadingMode.PDC_GL_MULTI_THREADED_RENDERING)
    (cols lines k : Nat) (g : Grid) (hg : g.sized) :
    ∃ g1, ensure_glyph_grid env cols lines k g = Res.ok g1 ∧
      g1.grid_w = cols ∧ g1.grid_h = lines ∧ g1.grid_layers = max g.grid_layers k ∧
      (∀ x y, x < cols → y < lines →
        g1.color x y = if x < g.grid_w ∧ y < g.grid_h then g.color x y else color_data.mk 0 0) ∧
      (∀ layer x y, layer < g1.grid_layers → x < cols → y < lines →
        g1.pending layer x y =
          if layer < g.grid_layers ∧ x < g.grid_w ∧ y < g.grid_h then g.pending layer x y
          else 0) := by
  unfold ensure_glyph_grid
  split_ifs with hguard
  · rw [ensure_layers_multi env hmt]
    refine ⟨_, rfl, rfl, rfl, ?_, ?_, ?_⟩
    · simp [Grid.grid_layers, length_extend_layers]
    · intro x y hx hy
      simp only [Grid.color, Option.getD_some]
      exact resized_rows_getD _ cols lines g.grid_w g.grid_h g.color_grid
        (holds_le _ _ hg.1) _ (by simp [malloc]) x y hx hy
    · intro layer x y hl hx hy
      simp only [Grid.grid_layers, List.length_map, length_extend_layers] at hl
      have hlt : layer < (extend_layers g.glyph_grid_layers k).length := by
        rw [length_extend_layers]; exact hl
      have hget : (extend_layers g.glyph_grid_layers k)[layer] =
          g.glyph_grid_layers.getD layer default := by
        rw [← getD_extend_layers g.glyph_grid_layers k layer, List.getD_eq_getElem _ _ hlt]
      simp only [Grid.pending, Grid.grid_layers, load]
      rw [List.getD_eq_getElem (List.map _ _) default (by rw [List.length_map]; exact hlt),
        List.getElem_map, hget]
      simp only [Option.getD_some]
      have hsz : ∀ src, (g.glyph_grid_layers.getD layer default).codepoint_attr = some src →
          g.grid_w * g.grid_h ≤ src.length := by
        intro src hsrc
        by_cases hin : layer < g.glyph_grid_layers.length
        · rw [List.getD_eq_getElem _ _ hin] at hsrc
          obtain ⟨ca, hca, hlen⟩ := hg.2 _ (List.getElem_mem hin)
          rw [hca] at hsrc
          cases hsrc
          omega
        · have hd : g.glyph_grid_layers.getD layer default = default :=
            List.getD_eq_default _ _ (by omega)
          rw [hd] at hsrc
          cases hsrc
      rw [resized_rows_getD 0 cols lines g.grid_w g.grid_h _ hsz _ (by simp) x y hx hy]
      by_cases hin : layer < g.glyph_grid_layers.length
      · by_cases c : x < g.grid_w ∧ y < g.grid_h
        · rw [if_pos c, if_pos ⟨hin, c⟩]
        · rw [if_neg c, if_neg (fun hh => c hh.2)]
      · have hd : g.glyph_grid_layers.getD layer default = default :=
          List.getD_eq_default _ _ (by omega)
        rw [hd]
        simp [default_layer, hin]
  · have h1 : cols = g.grid_w := by
      by_contra hne
      exact hguard (Or.inl hne)
    have h2 : lines = g.grid_h := by
      by_contra hne
      exact hguard (Or.inr (Or.inl hne))
    have h3 : ¬ g.grid_layers < k := fun hlt => hguard (Or.inr (Or.inr hlt))
    refine ⟨g, rfl, h1.symm, h2.symm, by omega, ?_, ?_⟩
    · intro x y hx hy
      rw [if_pos ⟨by omega, by omega⟩]
    · intro layer x y hl hx hy
      rw [if_pos ⟨hl, by omega, by omega⟩]

/-- C1, the failing input: in single-threaded mode the first resize of the
empty screen to 2 x 1 cells reaches the `memset` of line 425 with a wrapped
byte count, so `ensure_glyph_grid` does not produce the resized grid. -/
theorem ensure_glyph_grid_single_threaded_grow :
    ensure_glyph_grid demo_env_st 2 1 1 Grid.empty = Res.undef := by
  decide

/-- C2, the failing input: after a combining mark was drawn in cell (1, 0)
and the screen shrank to one column, layer 1 stores occupancy 1 and has no
non-zero cell. -/
theorem occupancy_stale_after_resize :
    ScreenReachable demo_env grid_after_shrink ∧
      (grid_after_shrink.glyph_grid_layers.getD 1 default).occupancy = 1 ∧
      count_nonzero (grid_after_shrink.glyph_grid_layers.getD 1 default) = 0 := by
  refine ⟨?_, by decide, by decide⟩
  refine ScreenReachable.ensure grid_with_mark grid_after_shrink 1 1 1 ?_ (by decide)
  exact ScreenReachable.draw Grid.empty grid_with_mark 2 1 0 1 0 1 0 0x110001 0 0xFFFFFF
    ScreenReachable.empty (by decide)

/-! ## Sizes are kept -/

theorem ensure_glyph_grid_sized (env : Env)
    (hmt : env.pdc_threading_mode = ThreadingMode.PDC_GL_MULTI_THREADED_RENDERING)
    (cols lines k : Nat) (g g1 : Grid) (hg : g.sized)
    (h : ensure_glyph_grid env cols lines k g = Res.ok g1) : g1.sized := by
  unfold ensure_glyph_grid at h
  split_ifs at h with hguard
  · rw [ensure_layers_multi env hmt] at h
    simp only [Res.bind, Res.ok.injEq] at h
    subst h
    constructor
    · show (resize_rows _ _ _ _ _ _ _ _).length = cols * lines
      rw [resized_rows_length _ cols lines g.grid_w g.grid_h g.color_grid (holds_le _ _ hg.1) _
        (by simp [malloc]), Nat.mul_comm]
    · intro l hl
      simp only [List.mem_map] at hl
      obtain ⟨l0, hl0, rfl⟩ := hl
      refine ⟨_, rfl, ?_⟩
      have hsz : ∀ src, l0.codepoint_attr = some src → g.grid_w * g.grid_h ≤ src.length := by
        intro src hsrc
        unfold extend_layers at hl0
        split_ifs at hl0
        · rcases List.mem_append.1 hl0 with hm | hm
          · obtain ⟨ca, hca, hlen⟩ := hg.2 _ hm
            rw [hca] at hsrc
            cases hsrc
            omega
          · rw [List.eq_of_mem_replicate hm] at hsrc
            cases hsrc
        · obtain ⟨ca, hca, hlen⟩ := hg.2 _ hl0
          rw [hca] at hsrc
          cases hsrc
          omega
      rw [resized_rows_length 0 cols lines g.grid_w g.grid_h _ hsz _ (by simp), Nat.mul_comm]
  · cases h
    exact hg

theorem shrink_loop_sublist : ∀ (fuel layer : Nat) (ls ls1 : List glyph_grid_layer),
    shrink_loop fuel layer ls = Res.ok ls1 → ∀ l ∈ ls1, l ∈ ls := by
  intro fuel
  induction fuel with
  | zero =>
    intro layer ls ls1 h l hl
    rw [shrink_loop] at h
    split_ifs at h with h0
    cases h
    exact hl
  | succ fuel ih =>
    intro layer ls ls1 h l hl
    rw [shrink_loop] at h
    split_ifs at h with h0 h1 h2
    · exact ih _ _ _ h l hl
    · exact List.mem_of_mem_take (ih _ _ _ h l hl)
    · cases h
      exact hl

theorem shrink_glyph_grid_sized (g g1 : Grid) (hg : g.sized)
    (h : shrink_glyph_grid g = Res.ok g1) : g1.sized := by
  unfold shrink_glyph_grid at h
  cases hs : shrink_loop g.grid_layers 1 g.glyph_grid_layers with
  | ok ls =>
    rw [hs] at h
    simp only [Res.bind, Res.ok.injEq] at h
    subst h
    exact ⟨hg.1, fun l hl => hg.2 l (shrink_loop_sublist _ _ _ _ hs l hl)⟩
  | undef => rw [hs] at h; cases h
  | fuelOut => rw [hs] at h; cases h

/-! ## The commit -/

theorem malloc_length {α : Type} (junk : Nat → α) (n : Nat) : (malloc junk n).length = n := by
  simp [malloc]

theorem realloc_length {α : Type} (junk : Nat → α) (p : Option (List α)) (n : Nat) :
    (realloc junk p n).length = n := by
  simp [realloc]
  omega

theorem memcpy_all {α : Type} (dst src : List α) (n : Nat) (hd : dst.length = n)
    (hs : src.length = n) : memcpy dst 0 src 0 n = src := by
  simp [memcpy, ← hs, hd]

theorem commit_layer_spec (env : Env) (n : Nat) (resized : Bool) (sub : Option glyph_grid_layer)
    (live : glyph_grid_layer) (hlive : layer_sized n live)
    (hsub : ∀ l, sub = some l → resized = false → layer_sized n l) :
    (commit_layer env n resized sub live).codepoint_attr = live.codepoint_attr ∧
      (commit_layer env n resized sub live).occupancy = live.occupancy := by
  obtain ⟨src, hsrc, hlen⟩ := hlive
  refine ⟨?_, rfl⟩
  unfold commit_layer
  simp only [hsrc, Option.getD_some]
  cases sub with
  | none => simp [memcpy_all _ _ n (malloc_length _ _) hlen]
  | some l =>
    cases resized with
    | true => simp [memcpy_all _ _ n (realloc_length _ _ _) hlen]
    | false =>
      obtain ⟨ca, hca, hcalen⟩ := hsub l rfl rfl
      simp [hca, memcpy_all _ _ n hcalen hlen]

theorem commit_layers_length (env : Env) (n : Nat) (resized : Bool)
    (subs : List glyph_grid_layer) : ∀ (lives : List glyph_grid_layer) (i : Nat),
    (commit_layers env n resized subs i lives).length = lives.length := by
  intro lives
  induction lives with
  | nil => intro i; rfl
  | cons l ls ih => intro i; simp [commit_layers, ih]

theorem commit_layers_getD (env : Env) (n : Nat) (resized : Bool)
    (subs : List glyph_grid_layer) : ∀ (lives : List glyph_grid_layer) (i j : Nat),
    j < lives.length →
    (commit_layers env n resized subs i lives).getD j default =
      commit_layer env n resized (subs.get? (i + j)) (lives.getD j default) := by
  intro lives
  induction lives with
  | nil => intro i j hj; simp at hj
  | cons l ls ih =>
    intro i j hj
    cases j with
    | zero => simp [commit_layers]
    | succ j =>
      simp only [commit_layers, List.getD_cons_succ]
      rw [ih (i + 1) j (by simpa using hj)]
      congr 2
      omega

/-- After the two-thread commit `submitted_state` holds the live state, is
marked updated, keeps its arrays sized, and `locked_state` is untouched. -/
theorem commit_snapshot (env : Env) (sp : Screen) (g : Grid) (w : World) (hg : g.sized)
    (hs : w.submitted_state.sized) :
    snapshot_of (commit env sp g w).submitted_state g ∧
      (commit env sp g w).submitted_state.updated = 1 ∧
      (commit env sp g w).submitted_state.sized ∧
      (commit env sp g w).locked_state = w.locked_state ∧
      (commit env sp g w).pdc_render_mutex = false := by
  have hlay : ∀ i, i < g.glyph_grid_layers.length →
      ((commit env sp g w).submitted_state.glyph_grid_layers.getD i default).codepoint_attr
          = (g.glyph_grid_layers.getD i default).codepoint_attr ∧
        ((commit env sp g w).submitted_state.glyph_grid_layers.getD i default).occupancy
          = (g.glyph_grid_layers.getD i default).occupancy := by
    intro i hi
    simp only [commit]
    rw [commit_layers_getD _ _ _ _ _ _ _ hi]
    apply commit_layer_spec
    · rw [List.getD_eq_getElem _ _ hi]
      exact hg.2 _ (List.getElem_mem hi)
    · intro l hl hres
      have hmem : l ∈ w.submitted_state.glyph_grid_layers := List.get?_mem hl
      have := hs.2 l hmem
      simp only [decide_eq_false_iff_not, ne_eq, not_not] at hres
      rw [hres] at this
      exact this
  have hcol : ((commit env sp g w).submitted_state.color_grid.getD []) = g.color_grid.getD [] ∧
      holds (commit env sp g w).submitted_state.color_grid (g.grid_w * g.grid_h) := by
    have hlive : (g.color_grid.getD []).length = g.grid_w * g.grid_h := by
      have := hg.1
      unfold holds at this
      cases hc : g.color_grid with
      | none => rw [hc] at this; simp [this]
      | some a => rw [hc] at this; simpa using this
    simp only [commit]
    by_cases hn : g.grid_w * g.grid_h = w.submitted_state.grid_w * w.submitted_state.grid_h
    · have hsub := hs.1
      rw [← hn] at hsub
      simp only [hn, ne_eq, not_true_eq_false, if_false]
      rw [← hn]
      unfold holds at hsub
      cases hc : w.submitted_state.color_grid with
      | none =>
        rw [hc] at hsub
        rw [hsub] at hlive
        simp only [Option.map_none', Option.getD_none, holds, hsub, and_true]
        exact (List.length_eq_zero.1 hlive).symm
      | some a =>
        rw [hc] at hsub
        simp only [Option.map_some', Option.getD_some, holds]
        rw [memcpy_all _ _ _ hsub hlive]
        exact ⟨rfl, hlive⟩
    · simp only [ne_eq, hn, not_false_eq_true, if_true, Option.map_some', Option.getD_some, holds]
      rw [memcpy_all _ _ _ (realloc_length _ _ _) hlive]
      exact ⟨rfl, hlive⟩
  have hlen : (commit env sp g w).submitted_state.glyph_grid_layers.length
      = g.glyph_grid_layers.length := by
    simp only [commit]
    exact commit_layers_length _ _ _ _ _ _
  refine ⟨⟨rfl, rfl, hlen, hcol.1, ?_, ?_⟩, rfl, ⟨hcol.2, ?_⟩, rfl, rfl⟩
  · rw [hcol.1]
    have := hg.1
    unfold holds at this
    cases hc : g.color_grid with
    | none => rw [hc] at this; simp [this]
    | some a => rw [hc] at this; simpa using this
  · intro i hi
    have h1 := hlay i hi
    refine ⟨h1.1, ?_, h1.2⟩
    rw [h1.1, List.getD_eq_getElem _ _ hi]
    obtain ⟨ca, hca, hcalen⟩ := hg.2 _ (List.getElem_mem hi)
    rw [hca]
    exact hcalen
  · intro l hl
    obtain ⟨i, hi, rfl⟩ := List.getElem_of_mem hl
    have hi2 : i < g.glyph_grid_layers.length := by rw [← hlen]; exact hi
    have h1 := (hlay i hi2).1
    rw [List.getD_eq_getElem _ _ hi, List.getD_eq_getElem _ _ hi2] at h1
    obtain ⟨ca, hca, hcalen⟩ := hg.2 _ (List.getElem_mem hi2)
    exact ⟨ca, by rw [h1, hca], hcalen⟩

/-! ## The handoff -/

theorem PDC_doupdate_multi (env : Env)
    (hmt : env.pdc_threading_mode = ThreadingMode.PDC_GL_MULTI_THREADED_RENDERING)
    (sp : Screen) (fuel : Nat) (g : Grid) (w : World) :
    PDC_doupdate env sp fuel g w =
      (ensure_glyph_grid env sp.cols sp.lines 1 g).bind fun g1 =>
        (shrink_glyph_grid g1).bind fun g2 => Res.ok (g2, commit env sp g2 w) := by
  simp [PDC_doupdate, hmt]

theorem PDC_doupdate_ok (env : Env)
    (hmt : env.pdc_threading_mode = ThreadingMode.PDC_GL_MULTI_THREADED_RENDERING)
    (sp : Screen) (fuel : Nat) (g g2 : Grid) (w w1 : World) (hg : g.sized)
    (h : PDC_doupdate env sp fuel g w = Res.ok (g2, w1)) :
    g2.sized ∧ w1 = commit env sp g2 w := by
  rw [PDC_doupdate_multi env hmt] at h
  cases he : ensure_glyph_grid env sp.cols sp.lines 1 g with
  | ok g1 =>
    rw [he] at h
    simp only [Res.bind] at h
    cases hsh : shrink_glyph_grid g1 with
    | ok g3 =>
      rw [hsh] at h
      simp only [Res.ok.injEq, Prod.mk.injEq] at h
      obtain ⟨h1, h2⟩ := h
      subst h1
      exact ⟨shrink_glyph_grid_sized _ _ (ensure_glyph_grid_sized env hmt _ _ _ _ _ hg he) hsh,
        h2.symm⟩
    | undef => rw [hsh] at h; cases h
    | fuelOut => rw [hsh] at h; cases h
  | undef => rw [he] at h; cases h
  | fuelOut => rw [he] at h; cases h

/-- C9: in two-thread mode, after `PDC_doupdate` the submitted state has the
live layer count and dimensions, its colour grid and every layer's pending
array hold `W * H` entries equal to the live ones, every layer's occupancy is
the live one, `updated` is 1, and `locked_state` is unchanged. -/
theorem doupdate_submits_live_state (env : Env)
    (hmt : env.pdc_threading_mode = ThreadingMode.PDC_GL_MULTI_THREADED_RENDERING)
    (sp : Screen) (fuel : Nat) (g g1 : Grid) (w w1 : World) (hg : g.sized)
    (hs : w.submitted_state.sized)
    (h : PDC_doupdate env sp fuel g w = Res.ok (g1, w1)) :
    snapshot_of w1.submitted_state g1 ∧ w1.submitted_state.updated = 1 ∧
      w1.locked_state = w.locked_state := by
  obtain ⟨hg1, hw1⟩ := PDC_doupdate_ok env hmt sp fuel g g1 w w1 hg h
  subst hw1
  have hc := commit_snapshot env sp g1 w hg1 hs
  exact ⟨hc.1, hc.2.1, hc.2.2.2.1⟩

theorem grid_empty_sized : Grid.empty.sized :=
  ⟨rfl, fun _ hl => by cases hl⟩

theorem init_state_sized : mt_render_state.init.sized :=
  ⟨rfl, fun _ hl => by cases hl⟩

/-- C9 at a concrete input: the first commit of a blank 2 x 1 screen. -/
theorem doupdate_submits_live_state_witness :
    snapshot_of (commit demo_env (demo_screen 2) blank_line_grid World.init).submitted_state
        blank_line_grid ∧
      (commit demo_env (demo_screen 2) blank_line_grid World.init).submitted_state.updated = 1 ∧
      (commit demo_env (demo_screen 2) blank_line_grid World.init).locked_state
        = World.init.locked_state :=
  doupdate_submits_live_state demo_env rfl (demo_screen 2) 0 Grid.empty blank_line_grid
    World.init (commit demo_env (demo_screen 2) blank_line_grid World.init)
    grid_empty_sized init_state_sized (by decide)

theorem run_commits_last (env : Env)
    (hmt : env.pdc_threading_mode = ThreadingMode.PDC_GL_MULTI_THREADED_RENDERING)
    (fuel : Nat) : ∀ (steps : List (Screen × Grid)) (gw : Grid × World) (g1 : Grid) (w1 : World),
    steps ≠ [] → (∀ st ∈ steps, st.2.sized) → gw.2.submitted_state.sized →
    run_commits env fuel steps gw = Res.ok (g1, w1) →
    snapshot_of w1.submitted_state g1 ∧ w1.submitted_state.updated = 1 ∧
      w1.pdc_render_mutex = false := by
  intro steps
  induction steps with
  | nil => intro gw g1 w1 hne; exact absurd rfl hne
  | cons st rest ih =>
    intro gw g1 w1 _ hsz hs hrun
    simp only [run_commits] at hrun
    cases hd : PDC_doupdate env st.1 fuel st.2 gw.2 with
    | ok gw2 =>
      rw [hd] at hrun
      simp only [Res.bind] at hrun
      obtain ⟨hg2, hw2⟩ := PDC_doupdate_ok env hmt st.1 fuel st.2 gw2.1 gw.2 gw2.2
        (hsz st (List.mem_cons_self _ _)) hd
      have hc := commit_snapshot env st.1 gw2.1 gw.2 hg2 hs
      rw [← hw2] at hc
      cases rest with
      | nil =>
        simp only [run_commits, Res.ok.injEq] at hrun
        rw [hrun] at hc
        exact ⟨hc.1, hc.2.1, hc.2.2.2.2⟩
      | cons st2 rest2 =>
        exact ih gw2 g1 w1 (List.cons_ne_nil _ _)
          (fun s hsm => hsz s (List.mem_cons_of_mem _ hsm)) hc.2.2.1 hrun
    | undef => rw [hd] at hrun; cases hrun
    | fuelOut => rw [hd] at hrun; cases hrun

/-- C8: in two-thread mode, after one or more commits `PDC_render_frame` does
not wait: its handoff swaps, and the locked state the frame then resolves and
draws holds the live state of the last commit (dimensions, layer count, colour
grid, every layer's pending words); `submitted_state.updated` is 0 afterwards
and the mutex is free. -/
theorem render_reads_last_commit (env : Env)
    (hmt : env.pdc_threading_mode = ThreadingMode.PDC_GL_MULTI_THREADED_RENDERING)
    (fuel fuel2 : Nat) (steps : List (Screen × Grid)) (gw : Grid × World) (g1 : Grid)
    (w1 : World) (wake : mt_render_state → mt_render_state)
    (hne : steps ≠ []) (hsz : ∀ st ∈ steps, st.2.sized) (hs : gw.2.submitted_state.sized)
    (hrun : run_commits env fuel steps gw = Res.ok (g1, w1)) :
    (render_handoff wake w1).2 = true ∧
      snapshot_of (render_handoff wake w1).1.locked_state g1 ∧
      (render_handoff wake w1).1.submitted_state.updated = 0 ∧
      (render_handoff wake w1).1.pdc_render_mutex = false ∧
      PDC_render_frame env fuel2 wake w1 =
        (resolve_layers env fuel2 (g1.grid_w * g1.grid_h) g1.grid_layers 0
          ((render_handoff wake w1).1.atlas, (render_handoff wake w1).1.locked_state)).bind
          fun st => Res.ok { (render_handoff wake w1).1 with atlas := st.1, locked_state := st.2 }
    := by
  obtain ⟨h1, h2, _⟩ := run_commits_last env hmt fuel steps gw g1 w1 hne hsz hs hrun
  have hu : w1.submitted_state.updated ≠ 0 := by rw [h2]; decide
  have hr : render_handoff wake w1 =
      ({ atlas := w1.atlas
         submitted_state := { w1.locked_state with updated := 0 }
         locked_state := w1.submitted_state
         pdc_render_mutex := false }, true) := by
    simp only [render_handoff, hu, if_false, false_and]
  refine ⟨by rw [hr], by rw [hr]; exact h1, by rw [hr], by rw [hr], ?_⟩
  obtain ⟨d1, d2, d3, _⟩ := h1
  unfold PDC_render_frame
  simp only [hmt, if_true, hr, Bool.true_eq_false, if_false]
  rw [d1, d2, d3]

theorem grid_with_mark_sized : grid_with_mark.sized :=
  ⟨rfl, fun l hl => by
    simp only [grid_with_mark, List.mem_cons, List.mem_singleton, List.not_mem_nil, or_false] at hl
    rcases hl with rfl | rfl
    · exact ⟨_, rfl, rfl⟩
    · exact ⟨_, rfl, rfl⟩⟩

/-- C8 at a concrete input: a commit of the blank 2 x 1 screen, a commit of the
screen with a combining mark, then the handoff. -/
theorem render_reads_last_commit_witness :
    (render_handoff (fun s => s) two_commits).2 = true ∧
      snapshot_of (render_handoff (fun s => s) two_commits).1.locked_state grid_with_mark ∧
      (render_handoff (fun s => s) two_commits).1.submitted_state.updated = 0 ∧
      (render_handoff (fun s => s) two_commits).1.pdc_render_mutex = false ∧
      PDC_render_frame demo_env 1 (fun s => s) two_commits =
        (resolve_layers demo_env 1 (grid_with_mark.grid_w * grid_with_mark.grid_h)
          grid_with_mark.grid_layers 0
          ((render_handoff (fun s => s) two_commits).1.atlas,
            (render_handoff (fun s => s) two_commits).1.locked_state)).bind
          fun st => Res.ok
            { (render_handoff (fun s => s) two_commits).1 with
              atlas := st.1, locked_state := st.2 } :=
  render_reads_last_commit demo_env rfl 0 1
    [(demo_screen 2, Grid.empty), (demo_screen 2, grid_with_mark)] (Grid.empty, World.init)
    grid_with_mark two_commits (fun s => s) (by simp)
    (fun st hst => by
      simp only [List.mem_cons, List.mem_singleton, List.not_mem_nil, or_false] at hst
      rcases hst with rfl | rfl
      · exact grid_empty_sized
      · exact grid_with_mark_sized)
    init_state_sized (by decide)

/-- C10, the failing input: the renderer is woken with `updated` still 0 (the
quit signal) and `PDC_render_frame` returns with the render mutex held. -/
theorem render_frame_quit_keeps_mutex :
    PDC_render_frame demo_env 0 (fun s => s) World.init =
      Res.ok { World.init with pdc_render_mutex := true } := by
  decide

/-! ## Glyph indices -/

theorem BUILD_GLYPH_INDEX_eq (c r w : Nat) (hc : c < 32768) (hr : r < 32768) (hw : w < 4) :
    BUILD_GLYPH_INDEX c r w = c + r * 32768 + w * 1073741824 := by
  unfold BUILD_GLYPH_INDEX
  rw [Nat.shiftLeft_eq, Nat.shiftLeft_eq]
  have h1 : c % 2 ^ 32 = c := Nat.mod_eq_of_lt (by omega)
  have h2 : r * 2 ^ 15 % 2 ^ 32 = r * 2 ^ 15 := Nat.mod_eq_of_lt (by omega)
  have h3 : w * 2 ^ 30 % 2 ^ 32 = w * 2 ^ 30 := Nat.mod_eq_of_lt (by omega)
  rw [h1, h2, h3]
  have e1 : c ||| r * 2 ^ 15 = 2 ^ 15 * r + c := by
    rw [Nat.lor_comm, Nat.mul_comm r, ← Nat.mul_add_lt_is_or (by omega : c < 2 ^ 15) r]
  rw [e1]
  have e2 : (2 ^ 15 * r + c) ||| w * 2 ^ 30 = 2 ^ 30 * w + (2 ^ 15 * r + c) := by
    rw [Nat.lor_comm, Nat.mul_comm w,
      ← Nat.mul_add_lt_is_or (by omega : 2 ^ 15 * r + c < 2 ^ 30) w]
  rw [e2]
  omega

theorem glyph_fields (v c r w : Nat) (hc : c < 32768) (hr : r < 32768)
    (hv : v = c + r * 32768 + w * 1073741824) :
    glyph_col v = c ∧ glyph_row v = r ∧ glyph_advance v = w := by
  unfold glyph_col glyph_row glyph_advance
  have m : (0x7FFF : Nat) = 2 ^ 15 - 1 := by norm_num
  rw [m, Nat.and_pow_two_sub_one_eq_mod, Nat.and_pow_two_sub_one_eq_mod,
    Nat.shiftRight_eq_div_pow, Nat.shiftRight_eq_div_pow]
  subst hv
  refine ⟨?_, ?_, ?_⟩ <;> omega

/-! ## The allocator -/

theorem first_fit_spec (cap w : Nat) : ∀ (sc : List Nat) (row idx : Nat) (sc1 : List Nat),
    first_fit cap w row sc = some (idx, sc1) →
    ∃ r, r < sc.length ∧ sc.getD r 0 + w ≤ cap ∧
      idx = BUILD_GLYPH_INDEX (sc.getD r 0) (row + r) w ∧ sc1 = sc.set r (sc.getD r 0 + w) := by
  intro sc
  induction sc with
  | nil => intro row idx sc1 h; simp [first_fit] at h
  | cons col rest ih =>
    intro row idx sc1 h
    simp only [first_fit] at h
    split_ifs at h with hfit
    · simp only [Option.some.injEq, Prod.mk.injEq] at h
      exact ⟨0, by simp, by simpa using hfit, by simpa using h.1.symm, by simpa using h.2.symm⟩
    · cases hrec : first_fit cap w (row + 1) rest with
      | none => rw [hrec] at h; cases h
      | some r1 =>
        rw [hrec] at h
        simp only [Option.some.injEq, Prod.mk.injEq] at h
        obtain ⟨r, hr1, hr2, hr3, hr4⟩ := ih (row + 1) r1.1 r1.2 hrec
        refine ⟨r + 1, by simpa using hr1, by simpa using hr2, ?_, ?_⟩
        · rw [← h.1, hr3]
          simp only [List.getD_cons_succ]
          congr 1
          omega
        · rw [← h.2, hr4]
          simp

theorem placed_mono (sc sc1 : List Nat) (cap cap1 e : Nat) (hlen : sc.length ≤ sc1.length)
    (hcur : ∀ r, r < sc.length → sc.getD r 0 ≤ sc1.getD r 0) (hcap : cap ≤ cap1)
    (h : placed sc cap e) : placed sc1 cap1 e := by
  obtain ⟨c, r, w, he, hw, hr, hc, hb⟩ := h
  exact ⟨c, r, w, he, hw, by omega, le_trans hc (hcur r hr), by omega⟩

theorem getD_set_self_add (sc : List Nat) (r r1 w : Nat) :
    sc.getD r1 0 ≤ (sc.set r (sc.getD r 0 + w)).getD r1 0 := by
  rw [List.getD_eq_getElem?_getD, List.getD_eq_getElem?_getD, List.getElem?_set]
  split_ifs with h1 h2
  · subst h1
    rw [List.getElem?_eq_getElem h2, List.getD_eq_getElem _ _ h2]
    simp
  · subst h1
    have : sc[r]? = none := by simp; omega
    simp [this]
  · exact le_refl _

theorem first_fit_fresh (cap w : Nat) (sc : List Nat) (idx : Nat) (sc1 : List Nat)
    (hw : w = 1 ∨ w = 2) (hcap : cap ≤ 32768) (hlen : sc.length ≤ 32768)
    (h : first_fit cap w 0 sc = some (idx, sc1)) :
    placed sc1 cap idx ∧ ¬ placed sc cap idx ∧ sc1.length = sc.length ∧
      (∀ r, sc.getD r 0 ≤ sc1.getD r 0) ∧ idx ≠ 0 := by
  obtain ⟨r, hr, hfit, hidx, hsc1⟩ := first_fit_spec cap w sc 0 idx sc1 h
  rw [Nat.zero_add] at hidx
  have hw4 : w < 4 := by omega
  have hc : sc.getD r 0 < 32768 := by omega
  have hr2 : r < 32768 := by omega
  have hEq := BUILD_GLYPH_INDEX_eq (sc.getD r 0) r w hc hr2 hw4
  refine ⟨?_, ?_, ?_, ?_, ?_⟩
  · refine ⟨sc.getD r 0, r, w, hidx, hw, by rw [hsc1]; simpa using hr, ?_, hfit⟩
    rw [hsc1]
    simp [List.getD_eq_getElem?_getD, List.getElem?_set, hr]
  · rintro ⟨c1, r1, w1, he, hw1, hr1, hc1, hb1⟩
    have hEq1 := BUILD_GLYPH_INDEX_eq c1 r1 w1 (by omega) (by omega) (by omega)
    rw [hidx, hEq, hEq1] at he
    have e1 : r1 = r := by omega
    have e2 : c1 = sc.getD r 0 := by omega
    subst e1
    omega
  · rw [hsc1]; simp
  · intro r1
    rw [hsc1]
    exact getD_set_self_add sc r r1 w
  · rw [hidx, hEq]
    omega

/-! ## The compaction -/

theorem compact_entry_spec (cap n old : Nat) (c : Compaction) (hcap : cap ≤ 32768)
    (hlen : c.start_col.length ≤ 32768) (hadv : old ≠ 0 → old >>> 30 = 1 ∨ old >>> 30 = 2) :
    (compact_entry cap n old c).2.start_col.length = c.start_col.length ∧
      (∀ r, c.start_col.getD r 0 ≤ (compact_entry cap n old c).2.start_col.getD r 0) ∧
      ((compact_entry cap n old c).1 ≠ 0 →
        placed (compact_entry cap n old c).2.start_col cap (compact_entry cap n old c).1 ∧
          ¬ placed c.start_col cap (compact_entry cap n old c).1) ∧
      (old = 0 → (compact_entry cap n old c).1 = 0) := by
  unfold compact_entry
  by_cases h0 : old = 0
  · simp [h0]
  · simp only [h0, if_false]
    by_cases hu : used_in_layers old n c.visited 0 c.layers = true
    · simp only [hu, if_true]
      cases hfit : first_fit cap (old >>> 30) 0 c.start_col with
      | none => simp [h0]
      | some r =>
        obtain ⟨h1, h2, h3, h4, h5⟩ :=
          first_fit_fresh cap (old >>> 30) c.start_col r.1 r.2 (hadv h0) hcap hlen hfit
        exact ⟨h3, h4, fun _ => ⟨h1, h2⟩, fun h => h.elim⟩
    · simp [hu, h0]

theorem compact_cache_spec (cap n : Nat) (hcap : cap ≤ 32768) :
    ∀ (cache : List Nat) (c : Compaction), c.start_col.length ≤ 32768 →
    (∀ i, cache.getD i 0 ≠ 0 → cache.getD i 0 >>> 30 = 1 ∨ cache.getD i 0 >>> 30 = 2) →
    (compact_cache cap n cache c).1.length = cache.length ∧
      (compact_cache cap n cache c).2.start_col.length = c.start_col.length ∧
      (∀ r, c.start_col.getD r 0 ≤ (compact_cache cap n cache c).2.start_col.getD r 0) ∧
      (∀ i, (compact_cache cap n cache c).1.getD i 0 ≠ 0 →
        placed (compact_cache cap n cache c).2.start_col cap
            ((compact_cache cap n cache c).1.getD i 0) ∧
          ¬ placed c.start_col cap ((compact_cache cap n cache c).1.getD i 0)) ∧
      (∀ i j, (compact_cache cap n cache c).1.getD i 0 ≠ 0 →
        (compact_cache cap n cache c).1.getD i 0 = (compact_cache cap n cache c).1.getD j 0 →
        i = j) ∧
      (∀ i, cache.getD i 0 = 0 → (compact_cache cap n cache c).1.getD i 0 = 0) := by
  intro cache
  induction cache with
  | nil =>
    intro c _ _
    simp [compact_cache]
  | cons old rest ih =>
    intro c hlen hadv
    obtain ⟨e1, e2, e3, e4⟩ := compact_entry_spec cap n old c hcap hlen (hadv 0)
    obtain ⟨r1, r2, r3, r4, r5, r6⟩ := ih (compact_entry cap n old c).2 (by rw [e1]; exact hlen)
      (fun i => hadv (i + 1))
    have mono : ∀ e, placed (compact_entry cap n old c).2.start_col cap e →
        placed (compact_cache cap n rest (compact_entry cap n old c).2).2.start_col cap e :=
      fun e he => placed_mono _ _ cap cap e (by rw [r2]) (fun r _ => r3 r) (le_refl _) he
    have mono0 : ∀ e, placed c.start_col cap e →
        placed (compact_entry cap n old c).2.start_col cap e :=
      fun e he => placed_mono _ _ cap cap e (by rw [e1]) (fun r _ => e2 r) (le_refl _) he
    simp only [compact_cache]
    refine ⟨by simp [r1], by rw [r2, e1], fun r => le_trans (e2 r) (r3 r), ?_, ?_, ?_⟩
    · intro i hi
      cases i with
      | zero =>
        simp only [List.getD_cons_zero] at hi ⊢
        exact ⟨mono _ (e3 hi).1, (e3 hi).2⟩
      | succ i =>
        simp only [List.getD_cons_succ] at hi ⊢
        exact ⟨(r4 i hi).1, fun hp => (r4 i hi).2 (mono0 _ hp)⟩
    · intro i j hi hij
      cases i with
      | zero =>
        cases j with
        | zero => rfl
        | succ j =>
          simp only [List.getD_cons_zero, List.getD_cons_succ] at hi hij
          exact absurd (hij ▸ (e3 hi).1) (r4 j (hij ▸ hi)).2
      | succ i =>
        cases j with
        | zero =>
          simp only [List.getD_cons_zero, List.getD_cons_succ] at hi hij
          exact absurd (hij ▸ (e3 (hij ▸ hi)).1) ((r4 i hi).2)
        | succ j =>
          simp only [List.getD_cons_succ] at hi hij
          rw [r5 i j hi hij]
    · intro i hi
      cases i with
      | zero =>
        simp only [List.getD_cons_zero] at hi ⊢
        exact e4 hi
      | succ i =>
        simp only [List.getD_cons_succ] at hi ⊢
        exact r6 i hi

theorem compact_caches_spec (cap n : Nat) (hcap : cap ≤ 32768) :
    ∀ (caches : List (List Nat)) (c : Compaction), c.start_col.length ≤ 32768 →
    (∀ s i, (caches.getD s []).getD i 0 ≠ 0 →
      (caches.getD s []).getD i 0 >>> 30 = 1 ∨ (caches.getD s []).getD i 0 >>> 30 = 2) →
    (compact_caches cap n caches c).1.length = caches.length ∧
      (compact_caches cap n caches c).2.start_col.length = c.start_col.length ∧
      (∀ r, c.start_col.getD r 0 ≤ (compact_caches cap n caches c).2.start_col.getD r 0) ∧
      (∀ s i, ((compact_caches cap n caches c).1.getD s []).getD i 0 ≠ 0 →
        placed (compact_caches cap n caches c).2.start_col cap
          (((compact_caches cap n caches c).1.getD s []).getD i 0)) ∧
      (∀ s i j, ((compact_caches cap n caches c).1.getD s []).getD i 0 ≠ 0 →
        ((compact_caches cap n caches c).1.getD s []).getD i 0 =
          ((compact_caches cap n caches c).1.getD s []).getD j 0 → i = j) ∧
      (∀ s i, (caches.getD s []).getD i 0 = 0 →
        ((compact_caches cap n caches c).1.getD s []).getD i 0 = 0) := by
  intro caches
  induction caches with
  | nil =>
    intro c _ _
    simp [compact_caches]
  | cons cache rest ih =>
    intro c hlen hadv
    obtain ⟨e1, e2, e3, e4, e5, e6⟩ := compact_cache_spec cap n hcap cache c hlen (hadv 0)
    obtain ⟨r1, r2, r3, r4, r5, r6⟩ := ih (compact_cache cap n cache c).2 (by rw [e2]; exact hlen)
      (fun s => hadv (s + 1))
    have mono : ∀ e, placed (compact_cache cap n cache c).2.start_col cap e →
        placed (compact_caches cap n rest (compact_cache cap n cache c).2).2.start_col cap e :=
      fun e he => placed_mono _ _ cap cap e (by rw [r2]) (fun r _ => r3 r) (le_refl _) he
    simp only [compact_caches]
    refine ⟨by simp [r1], by rw [r2, e2], fun r => le_trans (e3 r) (r3 r), ?_, ?_, ?_⟩
    · intro s i hi
      cases s with
      | zero =>
        simp only [List.getD_cons_zero] at hi ⊢
        exact mono _ (e4 i hi).1
      | succ s =>
        simp only [List.getD_cons_succ] at hi ⊢
        exact r4 s i hi
    · intro s i j hi hij
      cases s with
      | zero =>
        simp only [List.getD_cons_zero] at hi hij
        exact e5 i j hi hij
      | succ s =>
        simp only [List.getD_cons_succ] at hi hij
        exact r5 s i j hi hij
    · intro s i hi
      cases s with
      | zero =>
        simp only [List.getD_cons_zero] at hi ⊢
        exact e6 i hi
      | succ s =>
        simp only [List.getD_cons_succ] at hi ⊢
        exact r6 s i hi

/-! ## The atlas invariant -/

theorem placed_fields (sc : List Nat) (cap e : Nat) (hcap : cap ≤ 32768)
    (hlen : sc.length ≤ 32768) (h : placed sc cap e) :
    (e >>> 30 = 1 ∨ e >>> 30 = 2) ∧ glyph_col e + glyph_advance e ≤ cap ∧
      glyph_row e < sc.length ∧ e ≠ 0 := by
  obtain ⟨c, r, w, he, hw, hr, _, hb⟩ := h
  have hEq := BUILD_GLYPH_INDEX_eq c r w (by omega) (by omega) (by omega)
  rw [hEq] at he
  obtain ⟨f1, f2, f3⟩ := glyph_fields e c r w (by omega) (by omega) he
  have f3' : e >>> 30 = w := f3
  refine ⟨by rw [f3']; exact hw, by rw [f1, f3]; exact hb, by rw [f2]; exact hr, by omega⟩

theorem new_glyph_cache_size_spec (env : Env) (a : Atlas)
    (hw : a.pdc_glyph_cache_w ≤ env.max_texture_size)
    (hsq : a.pdc_glyph_cache_h = a.pdc_glyph_cache_w) :
    (new_glyph_cache_size env a).1 ≤ env.max_texture_size ∧
      (new_glyph_cache_size env a).2 = (new_glyph_cache_size env a).1 ∧
      a.pdc_glyph_cache_w ≤ (new_glyph_cache_size env a).1 := by
  unfold new_glyph_cache_size
  simp only [hsq, or_self]
  split_ifs <;> (refine ⟨?_, ?_, ?_⟩ <;> dsimp only <;> omega)

theorem grow_start_col_length (sc : List Nat) (n : Nat) :
    (grow_start_col sc n).length = n := by
  simp [grow_start_col]
  omega

theorem grow_start_col_getD (sc : List Nat) (n r : Nat) (hn : sc.length ≤ n)
    (hr : r < sc.length) : (grow_start_col sc n).getD r 0 = sc.getD r 0 := by
  unfold grow_start_col
  rw [List.take_of_length_le hn, List.getD_eq_getElem?_getD, List.getD_eq_getElem?_getD,
    List.getElem?_append_left hr]

theorem atlas_inv_caps (env : Env) (hM : env.max_texture_size ≤ 32768) (a : Atlas)
    (h : atlas_inv env a) :
    a.pdc_glyph_col_capacity ≤ 32768 ∧ a.pdc_glyph_start_col.length ≤ 32768 := by
  obtain ⟨h1, h2, h3, h4, _⟩ := h
  constructor
  · rw [h3]
    exact le_trans (Nat.div_le_self _ _) (le_trans h1 hM)
  · rw [h4, h2]
    exact le_trans (Nat.div_le_self _ _) (le_trans h1 hM)

theorem enlarge_glyph_cache_inv (env : Env) (hM : env.max_texture_size ≤ 32768) (a : Atlas)
    (l : mt_render_state) (h : atlas_inv env a) :
    atlas_inv env (enlarge_glyph_cache env (a, l)).1 := by
  obtain ⟨hcap, hlen⟩ := atlas_inv_caps env hM a h
  obtain ⟨h1, h2, h3, h4, h5, h6, h7⟩ := h
  obtain ⟨n1, n2, n3⟩ := new_glyph_cache_size_spec env a h1 h2
  unfold enlarge_glyph_cache
  simp only
  split_ifs with hgrow
  · have hrows : a.pdc_glyph_start_col.length ≤
        (new_glyph_cache_size env a).2 / env.pdc_fheight := by
      rw [h4, h2, n2]
      exact Nat.div_le_div_right n3
    refine ⟨n1, n2, rfl, ?_, h5, ?_, h7⟩
    · simp only [grow_start_col_length, n2]
    · intro s i hi
      refine placed_mono _ _ _ _ _ ?_ ?_ ?_ (h6 s i hi)
      · rw [grow_start_col_length]
        exact hrows
      · intro r hr
        rw [grow_start_col_getD _ _ _ hrows hr]
      · rw [h3]
        exact Nat.div_le_div_right n3
  · have hadv : ∀ s i, (a.pdc_glyph_cache.getD s []).getD i 0 ≠ 0 →
        (a.pdc_glyph_cache.getD s []).getD i 0 >>> 30 = 1 ∨
          (a.pdc_glyph_cache.getD s []).getD i 0 >>> 30 = 2 :=
      fun s i hi => (placed_fields _ _ _ hcap hlen (h6 s i hi)).1
    obtain ⟨c1, c2, c3, c4, c5, c6⟩ :=
      compact_caches_spec a.pdc_glyph_col_capacity (l.grid_w * l.grid_h) hcap a.pdc_glyph_cache
        { start_col := List.replicate a.pdc_glyph_row_capacity 0
          layers := l.glyph_grid_layers
          visited := List.replicate (l.grid_w * l.grid_h * l.grid_layers) false }
        (by simpa [Atlas.pdc_glyph_row_capacity] using hlen) hadv
    refine ⟨h1, h2, h3, ?_, ?_, ?_, ?_⟩
    · exact c2.trans (by simpa [Atlas.pdc_glyph_row_capacity] using h4)
    · exact c1.trans h5
    · intro s i hi
      exact c4 s i hi
    · intro s i j hi hij
      exact c5 s i j hi hij

theorem alloc_glyph_cache_inv (env : Env) (hM : env.max_texture_size ≤ 32768) (w : Nat)
    (hw : w = 1 ∨ w = 2) : ∀ (fuel : Nat) (a : Atlas) (l : mt_render_state) (idx : Nat)
    (a2 : Atlas) (l2 : mt_render_state), atlas_inv env a →
    alloc_glyph_cache env fuel w (a, l) = Res.ok (idx, (a2, l2)) →
    ∃ a1, atlas_inv env a1 ∧ a2 = { a1 with pdc_glyph_start_col := a2.pdc_glyph_start_col } ∧
      a2.pdc_glyph_start_col.length = a1.pdc_glyph_start_col.length ∧
      (∀ r, a1.pdc_glyph_start_col.getD r 0 ≤ a2.pdc_glyph_start_col.getD r 0) ∧
      placed a2.pdc_glyph_start_col a1.pdc_glyph_col_capacity idx ∧
      ¬ placed a1.pdc_glyph_start_col a1.pdc_glyph_col_capacity idx := by
  intro fuel
  induction fuel with
  | zero =>
    intro a l idx a2 l2 hinv h
    rw [alloc_glyph_cache] at h
    cases hfit : first_fit a.pdc_glyph_col_capacity w 0 a.pdc_glyph_start_col with
    | none => simp only [hfit] at h; cases h
    | some r =>
      simp only [hfit, Res.ok.injEq, Prod.mk.injEq] at h
      obtain ⟨hcap, hlen⟩ := atlas_inv_caps env hM a hinv
      obtain ⟨f1, f2, f3, f4, _⟩ := first_fit_fresh _ w _ r.1 r.2 hw hcap hlen hfit
      obtain ⟨e1, e2, _⟩ := h
      subst e1 e2
      exact ⟨a, hinv, rfl, f3, f4, f1, f2⟩
  | succ fuel ih =>
    intro a l idx a2 l2 hinv h
    rw [alloc_glyph_cache] at h
    cases hfit : first_fit a.pdc_glyph_col_capacity w 0 a.pdc_glyph_start_col with
    | none =>
      simp only [hfit] at h
      exact ih (enlarge_glyph_cache env (a, l)).1 (enlarge_glyph_cache env (a, l)).2 idx a2 l2
        (enlarge_glyph_cache_inv env hM a l hinv) h
    | some r =>
      simp only [hfit, Res.ok.injEq, Prod.mk.injEq] at h
      obtain ⟨hcap, hlen⟩ := atlas_inv_caps env hM a hinv
      obtain ⟨f1, f2, f3, f4, _⟩ := first_fit_fresh _ w _ r.1 r.2 hw hcap hlen hfit
      obtain ⟨e1, e2, _⟩ := h
      subst e1 e2
      exact ⟨a, hinv, rfl, f3, f4, f1, f2⟩

theorem set_getD_of_agree (grown cache : List Nat) (ch idx : Nat)
    (hag : ∀ i, grown.getD i 0 = cache.getD i 0) (hlt : ch < grown.length) :
    ∀ i, (grown.set ch idx).getD i 0 = if i = ch then idx else cache.getD i 0 := by
  intro i
  by_cases hi : i = ch
  · subst hi
    simp [List.getD_eq_getElem?_getD, List.getElem?_set, hlt]
  · have hne : ¬ ch = i := fun hh => hi hh.symm
    rw [if_neg hi, ← hag i]
    simp only [List.getD_eq_getElem?_getD, List.getElem?_set, hne, if_false]

theorem getD_append_zeros (cache : List Nat) (k i : Nat) :
    (cache ++ List.replicate k 0).getD i 0 = cache.getD i 0 := by
  simp only [List.getD_eq_getElem?_getD]
  by_cases hc : i < cache.length
  · rw [List.getElem?_append_left hc]
  · rw [List.getElem?_append_right (by omega)]
    have : cache[i]? = none := by simp; omega
    rw [this]
    simp only [Option.getD_none, List.getElem?_replicate]
    split_ifs <;> rfl

theorem cache_store_spec (cache : List Nat) (ch idx : Nat) (cache1 : List Nat)
    (h : cache_store cache ch idx = Res.ok cache1) :
    ∀ i, cache1.getD i 0 = if i = ch then idx else cache.getD i 0 := by
  unfold cache_store at h
  simp only at h
  by_cases hge : ch ≥ cache.length
  · rw [if_pos hge] at h
    split_ifs at h with hlt
    simp only [Res.ok.injEq] at h
    subst h
    exact set_getD_of_agree _ cache ch idx (getD_append_zeros cache _) hlt
  · rw [if_neg hge] at h
    split_ifs at h with hlt
    simp only [Res.ok.injEq] at h
    subst h
    exact set_getD_of_agree _ cache ch idx (fun _ => rfl) hlt

theorem entry_set (a : Atlas) (attr : Nat) (cache1 : List Nat)
    (hattr : attr < a.pdc_glyph_cache.length) (s i : Nat) :
    ({ a with pdc_glyph_cache := a.pdc_glyph_cache.set attr cache1 } : Atlas).entry s i =
      if s = attr then cache1.getD i 0 else a.entry s i := by
  unfold Atlas.entry
  simp only
  by_cases hs : s = attr
  · subst hs
    simp [List.getD_eq_getElem?_getD, List.getElem?_set, hattr]
  · have hne : ¬ attr = s := fun hh => hs hh.symm
    simp only [hs, if_false]
    congr 1
    simp only [List.getD_eq_getElem?_getD, List.getElem?_set, hne, if_false]

theorem get_glyph_texture_index_inv (env : Env) (hM : env.max_texture_size ≤ 32768)
    (hadv : advance_one_or_two env) (fuel ch32 attr : Nat) (a : Atlas) (l : mt_render_state)
    (r : Nat × (Atlas × mt_render_state)) (hattr : attr < 4) (hinv : atlas_inv env a)
    (h : get_glyph_texture_index env fuel ch32 attr (a, l) = Res.ok r) :
    atlas_inv env r.2.1 := by
  unfold get_glyph_texture_index at h
  simp only at h
  by_cases h1 : ch32 = 0x110000 ∨ ch32 = 0
  · rw [if_pos h1] at h
    cases h
    exact hinv
  rw [if_neg h1] at h
  generalize (if env.supplementary_planes = false ∧ ch32 > 0xffff then 63 else ch32) = ch at h
  by_cases h2 : ch < (a.pdc_glyph_cache.getD attr []).length ∧
      (a.pdc_glyph_cache.getD attr []).getD ch 0 > 0
  · rw [if_pos h2] at h
    cases h
    exact hinv
  · rw [if_neg h2] at h
    cases hrg : env.render_glyph ch attr with
    | none =>
      rw [hrg] at h
      cases h
      exact hinv
    | some surf_w =>
      rw [hrg] at h
      simp only at h
      have hw := hadv ch attr surf_w hrg
      cases hal : alloc_glyph_cache env fuel
          ((surf_w + env.pdc_fwidth - 1) / env.pdc_fwidth) (a, l) with
      | undef => rw [hal] at h; cases h
      | fuelOut => rw [hal] at h; cases h
      | ok ra =>
        rw [hal] at h
        simp only [Res.bind] at h
        obtain ⟨idx, a2, l2⟩ := ra
        simp only at h
        cases hcs : cache_store (a2.pdc_glyph_cache.getD attr []) ch idx with
        | undef => rw [hcs] at h; cases h
        | fuelOut => rw [hcs] at h; cases h
        | ok cache1 =>
          rw [hcs] at h
          simp only [Res.ok.injEq] at h
          subst h
          obtain ⟨a1, hinv1, ha2, hlen, hmono, hpl, hfresh⟩ :=
            alloc_glyph_cache_inv env hM _ hw fuel a l idx a2 l2 hinv hal
          obtain ⟨hcap1, hlen1⟩ := atlas_inv_caps env hM a1 hinv1
          obtain ⟨i1, i2, i3, i4, i5, i6, i7⟩ := hinv1
          have hcache : a2.pdc_glyph_cache = a1.pdc_glyph_cache := by rw [ha2]
          have hcapeq : a2.pdc_glyph_col_capacity = a1.pdc_glyph_col_capacity := by rw [ha2]
          have hweq : a2.pdc_glyph_cache_w = a1.pdc_glyph_cache_w := by rw [ha2]
          have hheq : a2.pdc_glyph_cache_h = a1.pdc_glyph_cache_h := by rw [ha2]
          have hentry : ∀ s i, a2.entry s i = a1.entry s i := by
            intro s i
            unfold Atlas.entry
            rw [hcache]
          have hstore := cache_store_spec _ ch idx cache1 hcs
          have hE := entry_set a2 attr cache1 (by rw [hcache, i5]; exact hattr)
          have hidx0 : idx ≠ 0 := by
            have := (placed_fields _ _ idx hcap1 (by rw [hlen]; exact hlen1) hpl).2.2.2
            exact this
          have hup : ∀ e, placed a1.pdc_glyph_start_col a1.pdc_glyph_col_capacity e →
              placed a2.pdc_glyph_start_col a2.pdc_glyph_col_capacity e := by
            intro e he
            rw [hcapeq]
            exact placed_mono _ _ _ _ e (by rw [hlen]) (fun r _ => hmono r) (le_refl _) he
          have hval : ∀ s i, ({ a2 with pdc_glyph_cache := a2.pdc_glyph_cache.set attr cache1 }
              : Atlas).entry s i = if s = attr ∧ i = ch then idx else a1.entry s i := by
            intro s i
            rw [hE s i]
            by_cases hs : s = attr
            · subst hs
              rw [hstore i]
              by_cases hi : i = ch
              · simp [hi]
              · simp only [hi, if_false, and_false, if_true]
                exact hentry s i
            · simp only [hs, if_false, false_and]
              exact hentry s i
          refine ⟨by rw [hweq]; exact i1, by rw [hheq, hweq]; exact i2,
            by rw [hcapeq, hweq]; exact i3, by rw [hlen, hheq]; exact i4,
            by simp only [List.length_set]; rw [hcache]; exact i5, ?_, ?_⟩
          · intro s i hi
            rw [hval s i] at hi ⊢
            split_ifs at hi ⊢ with hc
            · show placed a2.pdc_glyph_start_col a2.pdc_glyph_col_capacity idx
              rw [hcapeq]
              exact hpl
            · exact hup _ (i6 s i hi)
          · intro s i j hi hij
            rw [hval s i] at hi hij
            rw [hval s j] at hij
            by_cases hci : s = attr ∧ i = ch
            · by_cases hcj : s = attr ∧ j = ch
              · rw [hci.2, hcj.2]
              · rw [if_pos hci, if_neg hcj] at hij
                have hne : a1.entry s j ≠ 0 := by rw [← hij]; exact hidx0
                exact absurd (hij ▸ i6 s j hne) hfresh
            · rw [if_neg hci] at hi hij
              by_cases hcj : s = attr ∧ j = ch
              · rw [if_pos hcj] at hij
                exact absurd (hij ▸ i6 s i hi) hfresh
              · rw [if_neg hcj] at hij
                exact i7 s i j hi hij

theorem atlas_init_inv (env : Env) : atlas_inv env Atlas.init := by
  refine ⟨Nat.zero_le _, rfl, (Nat.zero_div _).symm, (Nat.zero_div _).symm, rfl, ?_, ?_⟩
  · intro s i hi
    exfalso
    apply hi
    unfold Atlas.entry Atlas.init
    simp only
    match s with
    | 0 | 1 | 2 | 3 => rfl
    | s + 4 => rfl
  · intro s i j hi
    exfalso
    apply hi
    unfold Atlas.entry Atlas.init
    simp only
    match s with
    | 0 | 1 | 2 | 3 => rfl
    | s + 4 => rfl

theorem atlas_reachable_inv (env : Env) (hM : env.max_texture_size ≤ 32768)
    (hadv : advance_one_or_two env) (a : Atlas) (hr : AtlasReachable env a) :
    atlas_inv env a := by
  induction hr with
  | init => exact atlas_init_inv env
  | lookup a l fuel ch32 attr r _ hattr h ih =>
    exact get_glyph_texture_index_inv env hM hadv fuel ch32 attr a l r hattr ih h

/-- C5: in every atlas state reached by lookups whose bitmaps are one or two
cells wide, on a GPU whose texture limit fits the 15-bit coordinate fields, no
style cache holds a non-zero coordinate twice, and every non-zero entry (col,
row, advance) has `col + advance ≤ col_capacity` and `row < row_capacity`. -/
theorem cache_entries_distinct_in_bounds (env : Env) (hM : env.max_texture_size ≤ 32768)
    (hadv : advance_one_or_two env) (a : Atlas) (hr : AtlasReachable env a) (attr : Nat) :
    (∀ i j, i ≠ j → a.entry attr i ≠ 0 → a.entry attr j ≠ 0 →
        a.entry attr i ≠ a.entry attr j) ∧
      (∀ i, a.entry attr i ≠ 0 →
        (glyph_advance (a.entry attr i) = 1 ∨ glyph_advance (a.entry attr i) = 2) ∧
        glyph_col (a.entry attr i) + glyph_advance (a.entry attr i)
            ≤ a.pdc_glyph_col_capacity ∧
          glyph_row (a.entry attr i) < a.pdc_glyph_row_capacity) := by
  have hinv := atlas_reachable_inv env hM hadv a hr
  obtain ⟨hcap, hlen⟩ := atlas_inv_caps env hM a hinv
  obtain ⟨_, _, _, _, _, i6, i7⟩ := hinv
  constructor
  · intro i j hij hi _ heq
    exact hij (i7 attr i j hi heq)
  · intro i hi
    have := placed_fields _ _ _ hcap hlen (i6 attr i hi)
    exact ⟨this.1, this.2.1, this.2.2.1⟩

theorem demo_env_advance : advance_one_or_two demo_env := by
  intro ch attr surf_w h
  simp only [demo_env, Option.some.injEq] at h
  subst h
  left
  decide

theorem demo_atlas_reachable : AtlasReachable demo_env demo_atlas :=
  AtlasReachable.lookup Atlas.init (one_line [65] [0]) 1 65 0
    (BUILD_GLYPH_INDEX 1 0 1, (demo_atlas, one_line [65] [0])) AtlasReachable.init (by decide)
    (by decide)

/-- C5 at a concrete input: the atlas after one lookup of `A`. -/
theorem cache_entries_distinct_in_bounds_witness :
    (∀ i j, i ≠ j → demo_atlas.entry 0 i ≠ 0 → demo_atlas.entry 0 j ≠ 0 →
        demo_atlas.entry 0 i ≠ demo_atlas.entry 0 j) ∧
      (∀ i, demo_atlas.entry 0 i ≠ 0 →
        (glyph_advance (demo_atlas.entry 0 i) = 1 ∨ glyph_advance (demo_atlas.entry 0 i) = 2) ∧
        glyph_col (demo_atlas.entry 0 i) + glyph_advance (demo_atlas.entry 0 i)
            ≤ demo_atlas.pdc_glyph_col_capacity ∧
          glyph_row (demo_atlas.entry 0 i) < demo_atlas.pdc_glyph_row_capacity) :=
  cache_entries_distinct_in_bounds demo_env (by decide) demo_env_advance demo_atlas
    demo_atlas_reachable 0

/-! ## The exhausted atlas -/

theorem full_atlas_reached :
    resolve_cells big_font_env 1 0 2 0 (Atlas.init, one_line [65, 66, 67] [0, 0, 0])
      = Res.ok full_atlas := by
  decide

theorem full_atlas_fixed : enlarge_glyph_cache big_font_env full_atlas = full_atlas := by
  decide

theorem alloc_on_full_atlas : ∀ fuel,
    alloc_glyph_cache big_font_env fuel 1 full_atlas = Res.fuelOut := by
  intro fuel
  induction fuel with
  | zero => decide
  | succ fuel ih =>
    have hfit : first_fit full_atlas.1.pdc_glyph_col_capacity 1 0 full_atlas.1.pdc_glyph_start_col
        = none := by decide
    rw [alloc_glyph_cache, hfit]
    simp only
    rw [full_atlas_fixed, ih]

/-- C3, the failing input: with a 512 x 1024 cell and a 1024 texel GPU limit
the frame that draws `ABC` reaches, after two cells, an atlas whose two slots
are both on screen.  There `enlarge_glyph_cache` neither enlarges the atlas nor
frees a slot (it returns the state it was given), and `alloc_glyph_cache(1)`
returns for no amount of fuel. -/
theorem alloc_glyph_cache_never_returns :
    resolve_cells big_font_env 1 0 2 0 (Atlas.init, one_line [65, 66, 67] [0, 0, 0])
        = Res.ok full_atlas ∧
      enlarge_glyph_cache big_font_env full_atlas = full_atlas ∧
      ¬ ∃ fuel r, alloc_glyph_cache big_font_env fuel 1 full_atlas = Res.ok r := by
  refine ⟨full_atlas_reached, full_atlas_fixed, ?_⟩
  rintro ⟨fuel, r, h⟩
  rw [alloc_on_full_atlas] at h
  cases h

/-- C4, the failing input: on that full atlas, at the GPU limit and with no
room after compaction, the lookup of `C` does not return 0: it does not return
at all, whatever the fuel. -/
theorem lookup_on_full_atlas_never_returns :
    ¬ ∃ fuel r, get_glyph_texture_index big_font_env fuel 67 0 full_atlas = Res.ok r := by
  rintro ⟨fuel, r, h⟩
  have h2 : get_glyph_texture_index big_font_env fuel 67 0 full_atlas =
      (alloc_glyph_cache big_font_env fuel 1 full_atlas).bind fun r =>
        (cache_store (r.2.1.pdc_glyph_cache.getD 0 []) 67 r.1).bind fun cache1 =>
          Res.ok (r.1,
            ({ r.2.1 with pdc_glyph_cache := r.2.1.pdc_glyph_cache.set 0 cache1 }, r.2.2)) := by
    rfl
  rw [h2, alloc_on_full_atlas] at h
  cases h

/-- C7, the failing input: the big-font atlas holds `A`, the screen now shows
only `B`.  The compaction inside the lookup of `B` leaves the cursor of row 0
at 0, and `B` is handed the slot at column 0 of row 0. -/
theorem compaction_hands_out_origin :
    get_glyph_texture_index big_font_env 1 65 0 (Atlas.init, one_line [65] [0])
        = Res.ok (BUILD_GLYPH_INDEX 1 0 1, (atlas_with_A, one_line [65] [0])) ∧
      (enlarge_glyph_cache big_font_env (atlas_with_A, one_line [66] [0])).1.pdc_glyph_start_col
        = [0] ∧
      ∃ st, get_glyph_texture_index big_font_env 1 66 0 (atlas_with_A, one_line [66] [0])
        = Res.ok (BUILD_GLYPH_INDEX 0 0 1, st) := by
  refine ⟨by decide, by decide, ?_⟩
  exact ⟨_, rfl⟩

/-- C6, the failing input: the first lookup of code point 256 allocates the
slot at column 1, grows the empty style cache to 256 slots, not more, and then
stores the coordinate at index 256, past the end of the array.  Slot 256 is
not part of the cache, so a second lookup finds no entry and allocates again:
the next slot is a different coordinate and moves the cursor of row 0. -/
theorem lookup_256_overruns_cache :
    new_cache_size 0 256 = 256 ∧
      get_glyph_texture_index demo_env 1 256 0 (Atlas.init, one_line [256] [0]) = Res.undef ∧
      alloc_glyph_cache demo_env 1 1 (Atlas.init, one_line [256] [0])
        = Res.ok (BUILD_GLYPH_INDEX 1 0 1, (atlas_after_alloc, one_line [256] [0])) ∧
      ∃ st, alloc_glyph_cache demo_env 0 1 (atlas_after_alloc, one_line [256] [0])
        = Res.ok (BUILD_GLYPH_INDEX 2 0 1, st) := by
  refine ⟨by decide, by decide, by decide, ?_⟩
  exact ⟨_, rfl⟩

/-! ## Further facts -/

/-- In single-threaded mode every resize that raises the cell count of a
screen with at least one layer leaves defined behaviour. -/
theorem ensure_glyph_grid_single_undef (env : Env)
    (hst : env.pdc_threading_mode = ThreadingMode.PDC_GL_SINGLE_THREADED_RENDERING)
    (cols lines k : Nat) (g : Grid) (hgrow : g.grid_w * g.grid_h < lines * cols)
    (hl : 0 < g.grid_layers ∨ 0 < k) :
    ensure_glyph_grid env cols lines k g = Res.undef := by
  have hguard : cols ≠ g.grid_w ∨ lines ≠ g.grid_h ∨ g.grid_layers < k := by
    by_cases h1 : cols = g.grid_w
    · by_cases h2 : lines = g.grid_h
      · subst h1 h2
        rw [Nat.mul_comm] at hgrow
        exact absurd hgrow (Nat.lt_irrefl _)
      · exact Or.inr (Or.inl h2)
    · exact Or.inl h1
  unfold ensure_glyph_grid
  rw [if_pos hguard]
  have hne : extend_layers g.glyph_grid_layers k ≠ [] := by
    intro hnil
    have hlen := length_extend_layers g.glyph_grid_layers k
    rw [hnil] at hlen
    simp only [List.length_nil] at hlen
    unfold Grid.grid_layers at hl
    omega
  cases hls : extend_layers g.glyph_grid_layers k with
  | nil => exact absurd hls hne
  | cons l ls => simp [ensure_layers, ensure_layer, hst, hgrow, Res.bind]

/-- A lookup that finds its entry in the style cache returns it and changes
nothing. -/
theorem get_glyph_texture_index_hit (env : Env) (fuel ch32 attr_index : Nat)
    (st : Atlas × mt_render_state) (h0 : ch32 ≠ 0x110000 ∧ ch32 ≠ 0)
    (hbmp : env.supplementary_planes = true ∨ ch32 ≤ 0xffff)
    (hlen : ch32 < (st.1.pdc_glyph_cache.getD attr_index []).length)
    (hent : st.1.entry attr_index ch32 ≠ 0) :
    get_glyph_texture_index env fuel ch32 attr_index st
      = Res.ok (st.1.entry attr_index ch32, st) := by
  unfold get_glyph_texture_index
  have h1 : ¬ (ch32 = 0x110000 ∨ ch32 = 0) := fun h => h.elim h0.1 h0.2
  have h2 : ¬ (env.supplementary_planes = false ∧ ch32 > 0xffff) := by
    rintro ⟨hs, hc⟩
    rcases hbmp with hb | hb
    · rw [hs] at hb; cases hb
    · omega
  have h3 : ch32 < (st.1.pdc_glyph_cache.getD attr_index []).length ∧
      (st.1.pdc_glyph_cache.getD attr_index []).getD ch32 0 > 0 :=
    ⟨hlen, Nat.pos_of_ne_zero hent⟩
  simp only [h1, h2, if_false]
  rw [if_pos h3]
  rfl

/-! ## Reachable screen states -/

theorem shrink_loop_fuel : ∀ (fuel layer : Nat) (ls : List glyph_grid_layer),
    ls.length - layer ≤ fuel → shrink_loop fuel layer ls ≠ Res.fuelOut := by
  intro fuel
  induction fuel with
  | zero =>
    intro layer ls h
    rw [shrink_loop]
    have : ¬ layer < ls.length := by omega
    rw [if_neg this]
    exact fun hh => by cases hh
  | succ fuel ih =>
    intro layer ls h
    rw [shrink_loop]
    split_ifs with h0 h1 h2
    · exact ih _ _ (by omega)
    · exact ih _ _ (by simp)
    · exact fun hh => by cases hh
    · exact fun hh => by cases hh

theorem modify_all {α : Type} (P : α → Prop) (f : α → α) (hf : ∀ a, P a → P (f a)) :
    ∀ (ls : List α) (n : Nat), (∀ a ∈ ls, P a) → ∀ a ∈ ls.modify f n, P a := by
  intro ls
  induction ls with
  | nil => intro n h a ha; cases n <;> simp [List.modify] at ha
  | cons x xs ih =>
    intro n h a ha
    cases n with
    | zero =>
      have : (x :: xs).modify f 0 = f x :: xs := rfl
      rw [this] at ha
      rcases List.mem_cons.1 ha with rfl | hm
      · exact hf _ (h x (List.mem_cons_self _ _))
      · exact h a (List.mem_cons_of_mem _ hm)
    | succ n =>
      rw [List.modify_succ_cons] at ha
      rcases List.mem_cons.1 ha with rfl | hm
      · exact h _ (List.mem_cons_self _ _)
      · exact ih n (fun b hb => h b (List.mem_cons_of_mem _ hb)) a hm

theorem store_sized (n i v : Nat) (l : glyph_grid_layer) (f : Nat → Nat)
    (h : layer_sized n l) :
    layer_sized n
      { occupancy := f l.occupancy
        glyph_grid := l.glyph_grid
        codepoint_attr := store l.codepoint_attr i v } := by
  obtain ⟨ca, hca, hlen⟩ := h
  exact ⟨ca.set i v, by simp [store, hca], by simpa using hlen⟩

theorem set_cell_sized (n : Nat) (layers : List glyph_grid_layer) (layer i v : Nat)
    (f : Nat → Nat) (h : ∀ l ∈ layers, layer_sized n l) :
    ∀ l ∈ set_cell layers layer i v f, layer_sized n l :=
  modify_all (layer_sized n) _ (fun l hl => store_sized n i v l f hl) layers layer h

theorem clear_cell_sized (n i : Nat) (l : glyph_grid_layer) (h : layer_sized n l) :
    layer_sized n (clear_cell i l) := by
  unfold clear_cell
  split_ifs
  · exact store_sized n i 0 l (fun o => (o + (2 ^ 32 - 1)) % 2 ^ 32) h
  · exact h

theorem clear_upper_layers_sized (n i : Nat) (layers : List glyph_grid_layer)
    (h : ∀ l ∈ layers, layer_sized n l) :
    ∀ l ∈ clear_upper_layers i layers, layer_sized n l := by
  cases layers with
  | nil => intro l hl; cases hl
  | cons base upper =>
    intro l hl
    simp only [clear_upper_layers, List.mem_cons, List.mem_map] at hl
    rcases hl with rfl | ⟨l0, hl0, rfl⟩
    · exact h _ (List.mem_cons_self _ _)
    · exact clear_cell_sized n i l0 (h l0 (List.mem_cons_of_mem _ hl0))

theorem combine_loop_sized (env : Env)
    (hmt : env.pdc_threading_mode = ThreadingMode.PDC_GL_MULTI_THREADED_RENDERING)
    (cols lines cache_attr_index i : Nat) : ∀ (fuel layer ch32 : Nat) (g : Grid)
    (r : Nat × Grid), g.sized →
    combine_loop env cols lines cache_attr_index i fuel layer ch32 g = Res.ok r → r.2.sized := by
  intro fuel
  induction fuel with
  | zero =>
    intro layer ch32 g r hg h
    rw [combine_loop] at h
    split_ifs at h
    cases h
    exact hg
  | succ fuel ih =>
    intro layer ch32 g r hg h
    rw [combine_loop] at h
    split_ifs at h with hc
    · simp only at h
      cases he : ensure_glyph_grid env cols lines (layer + 1 + 1) g with
      | ok g1 =>
        rw [he] at h
        simp only [Res.bind] at h
        have hg1 := ensure_glyph_grid_sized env hmt _ _ _ _ _ hg he
        refine ih _ _ _ r ?_ h
        refine ⟨hg1.1, ?_⟩
        show ∀ l ∈ set_cell g1.glyph_grid_layers (layer + 1) i
          (((env.expand_combined ch32).2 ||| (cache_attr_index <<< 30)) % 2 ^ 32)
          (fun o => (o + 1) % 2 ^ 32), layer_sized (g1.grid_w * g1.grid_h) l
        exact set_cell_sized (g1.grid_w * g1.grid_h) g1.glyph_grid_layers (layer + 1) i
          (((env.expand_combined ch32).2 ||| (cache_attr_index <<< 30)) % 2 ^ 32)
          (fun o => (o + 1) % 2 ^ 32) hg1.2
      | undef => rw [he] at h; cases h
      | fuelOut => rw [he] at h; cases h
    · cases h
      exact hg

theorem holds_store {α : Type} (p : Option (List α)) (n i : Nat) (v : α) (h : holds p n) :
    holds (store p i v) n := by
  cases p with
  | none => exact h
  | some a =>
    simp only [store, Option.map_some', holds, List.length_set]
    exact h

theorem draw_glyph_sized (env : Env)
    (hmt : env.pdc_threading_mode = ThreadingMode.PDC_GL_MULTI_THREADED_RENDERING)
    (cols lines cache_attr_index fuel : Nat) (y x : Int)
    (attr ch32 background foreground : Nat) (g g1 : Grid) (hg : g.sized)
    (h : draw_glyph env cols lines cache_attr_index fuel y x attr ch32 background foreground g
      = Res.ok g1) : g1.sized := by
  unfold draw_glyph at h
  split_ifs at h with hb
  · cases h
    exact hg
  · simp only at h
    cases he : ensure_glyph_grid env cols lines 1 g with
    | ok g2 =>
      rw [he] at h
      simp only [Res.bind] at h
      have hg2 := ensure_glyph_grid_sized env hmt _ _ _ _ _ hg he
      generalize hg3 : ({ g2 with
        color_grid := store g2.color_grid (x + y * ↑cols).toNat
          { bg_color := background
            fg_color := (foreground ||| gl_attrs env attr <<< 24) % 2 ^ 32 }
        glyph_grid_layers := clear_upper_layers (x + y * ↑cols).toNat g2.glyph_grid_layers }
        : Grid) = g3 at h
      have hs3 : g3.sized := by
        rw [← hg3]
        exact ⟨holds_store _ _ _ _ hg2.1, clear_upper_layers_sized _ _ _ hg2.2⟩
      cases hc : combine_loop env cols lines cache_attr_index (x + y * ↑cols).toNat fuel 0 ch32
          g3 with
      | ok r =>
        rw [hc] at h
        simp only [Res.ok.injEq] at h
        subst h
        have hr := combine_loop_sized env hmt _ _ _ _ _ _ _ _ r hs3 hc
        refine ⟨hr.1, ?_⟩
        show ∀ l ∈ set_cell r.2.glyph_grid_layers 0 (x + y * ↑cols).toNat
          ((r.1 ||| (cache_attr_index <<< 30)) % 2 ^ 32) (fun o => o),
          layer_sized (r.2.grid_w * r.2.grid_h) l
        exact set_cell_sized (r.2.grid_w * r.2.grid_h) r.2.glyph_grid_layers 0
          (x + y * ↑cols).toNat ((r.1 ||| (cache_attr_index <<< 30)) % 2 ^ 32) (fun o => o) hr.2
      | undef => rw [hc] at h; cases h
      | fuelOut => rw [hc] at h; cases h
    | undef => rw [he] at h; cases h
    | fuelOut => rw [he] at h; cases h

/-- In two-thread mode every screen state reached from the empty screen has
its arrays sized as its dimensions say. -/
theorem screen_reachable_sized (env : Env)
    (hmt : env.pdc_threading_mode = ThreadingMode.PDC_GL_MULTI_THREADED_RENDERING)
    (g : Grid) (h : ScreenReachable env g) : g.sized := by
  induction h with
  | empty => exact grid_empty_sized
  | draw g g1 cols lines cai fuel y x attr ch32 bg fg _ hd ih =>
    exact draw_glyph_sized env hmt _ _ _ _ _ _ _ _ _ _ g g1 ih hd
  | ensure g g1 cols lines k _ he ih => exact ensure_glyph_grid_sized env hmt _ _ _ g g1 ih he
  | shrink g g1 _ hs ih => exact shrink_glyph_grid_sized g g1 ih hs

theorem shrink_glyph_grid_one_layer (g : Grid) (h : g.grid_layers ≤ 1) :
    shrink_glyph_grid g = Res.ok g := by
  unfold Grid.grid_layers at h
  have hno : ¬ 1 < g.glyph_grid_layers.length := by omega
  have hloop : ∀ fuel, shrink_loop fuel 1 g.glyph_grid_layers = Res.ok g.glyph_grid_layers := by
    intro fuel
    cases fuel with
    | zero => rw [shrink_loop, if_neg hno]
    | succ fuel => rw [shrink_loop, if_neg hno]
  unfold shrink_glyph_grid
  rw [hloop]
  rfl

/-- In two-thread mode `PDC_doupdate` returns on every screen without
combining layers. -/
theorem PDC_doupdate_returns (env : Env)
    (hmt : env.pdc_threading_mode = ThreadingMode.PDC_GL_MULTI_THREADED_RENDERING)
    (sp : Screen) (fuel : Nat) (g : Grid) (w : World) (hg : g.sized)
    (hl : g.grid_layers ≤ 1) :
    ∃ g1, PDC_doupdate env sp fuel g w = Res.ok (g1, commit env sp g1 w) := by
  obtain ⟨g1, he, _, _, hlay, _⟩ := ensure_glyph_grid_multi env hmt sp.cols sp.lines 1 g hg
  refine ⟨g1, ?_⟩
  rw [PDC_doupdate_multi env hmt, he]
  simp only [Res.bind]
  rw [shrink_glyph_grid_one_layer g1 (by rw [hlay]; omega)]

/-! ## An atlas wider than the column field -/

theorem wide_cache_length (k : Nat) : (wide_cache k).length = 32768 := by
  rw [wide_cache, List.length_map, List.length_range]

theorem wide_cache_getElem? (k i : Nat) :
    (wide_cache k)[i]? =
      if i < 32768 then
        some (if i = 20000 then BUILD_GLYPH_INDEX 1 0 2
          else if 1 ≤ i ∧ i < k then BUILD_GLYPH_INDEX (1 + 2 * i) 0 2
          else 0)
      else none := by
  rw [wide_cache, List.getElem?_map]
  by_cases hi : i < 32768
  · rw [List.getElem?_range hi, if_pos hi]
    rfl
  · rw [if_neg hi]
    have : (List.range 32768)[i]? = none := by
      rw [List.getElem?_eq_none_iff, List.length_range]
      omega
    rw [this]
    rfl

theorem wide_cache_set (k : Nat) (h1 : 1 ≤ k) (h2 : k < 20000) :
    (wide_cache k).set k (BUILD_GLYPH_INDEX (1 + 2 * k) 0 2) = wide_cache (k + 1) := by
  apply List.ext_getElem?
  intro i
  rw [List.getElem?_set, wide_cache_length, wide_cache_getElem?, wide_cache_getElem?]
  by_cases hk : k = i
  · subst hk
    have c0 : k < 32768 := by omega
    have c1 : ¬ k = 20000 := by omega
    have c2 : 1 ≤ k ∧ k < k + 1 := by omega
    rw [if_pos rfl, if_pos c0, if_pos c0, if_neg c1, if_pos c2]
  · rw [if_neg hk]
    by_cases hi : i < 32768
    · rw [if_pos hi, if_pos hi]
      by_cases c0 : i = 20000
      · rw [if_pos c0, if_pos c0]
      · rw [if_neg c0, if_neg c0]
        by_cases c1 : 1 ≤ i ∧ i < k
        · rw [if_pos c1, if_pos (by omega : 1 ≤ i ∧ i < k + 1)]
        · rw [if_neg c1, if_neg (by omega : ¬ (1 ≤ i ∧ i < k + 1))]
    · rw [if_neg hi, if_neg hi]

theorem wide_cache_first :
    (List.replicate 32768 0).set 20000 (BUILD_GLYPH_INDEX 1 0 2) = wide_cache 1 := by
  apply List.ext_getElem?
  intro i
  rw [List.getElem?_set, List.length_replicate, wide_cache_getElem?, List.getElem?_replicate]
  by_cases c0 : 20000 = i
  · subst c0
    rw [if_pos rfl, if_pos (by omega), if_pos (by omega), if_pos rfl]
  · rw [if_neg c0]
    by_cases hi : i < 32768
    · rw [if_pos hi, if_pos hi, if_neg (fun h => c0 h.symm),
        if_neg (by omega : ¬ (1 ≤ i ∧ i < 1))]
    · rw [if_neg hi, if_neg hi]

theorem get_glyph_texture_index_miss (env : Env) (fuel ch32 attr_index surf_w : Nat)
    (st : Atlas × mt_render_state) (h0 : ch32 ≠ 0x110000 ∧ ch32 ≠ 0)
    (hbmp : env.supplementary_planes = true ∨ ch32 ≤ 0xffff)
    (hmiss : st.1.entry attr_index ch32 = 0)
    (hr : env.render_glyph ch32 attr_index = some surf_w) :
    get_glyph_texture_index env fuel ch32 attr_index st =
      (alloc_glyph_cache env fuel ((surf_w + env.pdc_fwidth - 1) / env.pdc_fwidth) st).bind
        fun r =>
          (cache_store (r.2.1.pdc_glyph_cache.getD attr_index []) ch32 r.1).bind fun cache1 =>
            Res.ok (r.1,
              ({ r.2.1 with pdc_glyph_cache := r.2.1.pdc_glyph_cache.set attr_index cache1 },
               r.2.2)) := by
  unfold get_glyph_texture_index
  have h1 : ¬ (ch32 = 0x110000 ∨ ch32 = 0) := fun h => h.elim h0.1 h0.2
  have h2 : ¬ (env.supplementary_planes = false ∧ ch32 > 0xffff) := by
    rintro ⟨hs, hc⟩
    rcases hbmp with hb | hb
    · rw [hs] at hb; cases hb
    · omega
  have h3 : ¬ (ch32 < (st.1.pdc_glyph_cache.getD attr_index []).length ∧
      (st.1.pdc_glyph_cache.getD attr_index []).getD ch32 0 > 0) := by
    rintro ⟨_, hpos⟩
    unfold Atlas.entry at hmiss
    omega
  simp only [h1, h2, if_false]
  rw [if_neg h3, hr]

theorem cache_store_inside (cache : List Nat) (ch idx : Nat) (h : ch < cache.length) :
    cache_store cache ch idx = Res.ok (cache.set ch idx) := by
  unfold cache_store
  simp only
  rw [if_neg (by omega : ¬ ch ≥ cache.length), if_pos h]

theorem alloc_glyph_cache_fit (env : Env) (fuel w : Nat) (st : Atlas × mt_render_state)
    (r : Nat × List Nat)
    (h : first_fit st.1.pdc_glyph_col_capacity w 0 st.1.pdc_glyph_start_col = some r) :
    alloc_glyph_cache env fuel w st =
      Res.ok (r.1, ({ st.1 with pdc_glyph_start_col := r.2 }, st.2)) := by
  cases fuel with
  | zero => rw [alloc_glyph_cache, h]
  | succ fuel => rw [alloc_glyph_cache, h]

theorem double_until_step (k size ch32 : Nat) (h : size < ch32) :
    double_until (k + 1) size ch32 = double_until k (size * 2) ch32 := by
  rw [double_until, if_pos h]

theorem double_until_stop (k size ch32 : Nat) (h : ¬ size < ch32) :
    double_until k size ch32 = size := by
  cases k with
  | zero => rfl
  | succ k => rw [double_until, if_neg h]

theorem new_cache_size_first : new_cache_size 0 20000 = 32768 := by
  show double_until (19999 + 1) 256 20000 = 32768
  rw [double_until_step _ _ _ (by omega)]
  show double_until (19998 + 1) 512 20000 = 32768
  rw [double_until_step _ _ _ (by omega)]
  show double_until (19997 + 1) 1024 20000 = 32768
  rw [double_until_step _ _ _ (by omega)]
  show double_until (19996 + 1) 2048 20000 = 32768
  rw [double_until_step _ _ _ (by omega)]
  show double_until (19995 + 1) 4096 20000 = 32768
  rw [double_until_step _ _ _ (by omega)]
  show double_until (19994 + 1) 8192 20000 = 32768
  rw [double_until_step _ _ _ (by omega)]
  show double_until (19993 + 1) 16384 20000 = 32768
  rw [double_until_step _ _ _ (by omega)]
  exact double_until_stop _ _ _ (by omega)

theorem get_glyph_texture_index_miss_ok (env : Env) (fuel ch32 attr_index surf_w : Nat)
    (st : Atlas × mt_render_state) (index : Nat) (a1 : Atlas) (m1 : mt_render_state)
    (cache0 cache1 : List Nat) (h0 : ch32 ≠ 0x110000 ∧ ch32 ≠ 0)
    (hbmp : env.supplementary_planes = true ∨ ch32 ≤ 0xffff)
    (hmiss : st.1.entry attr_index ch32 = 0)
    (hr : env.render_glyph ch32 attr_index = some surf_w)
    (ha : alloc_glyph_cache env fuel ((surf_w + env.pdc_fwidth - 1) / env.pdc_fwidth) st
      = Res.ok (index, (a1, m1)))
    (hc : a1.pdc_glyph_cache.getD attr_index [] = cache0)
    (hs : cache_store cache0 ch32 index = Res.ok cache1) :
    get_glyph_texture_index env fuel ch32 attr_index st =
      Res.ok (index,
        ({ a1 with pdc_glyph_cache := a1.pdc_glyph_cache.set attr_index cache1 }, m1)) := by
  rw [get_glyph_texture_index_miss env fuel ch32 attr_index surf_w st h0 hbmp hmiss hr, ha]
  simp only [Res.bind]
  rw [hc, hs]

theorem wide_alloc_first :
    alloc_glyph_cache wide_env 1 ((2 + wide_env.pdc_fwidth - 1) / wide_env.pdc_fwidth)
      (Atlas.init, mt_render_state.init) =
      Res.ok (BUILD_GLYPH_INDEX 1 0 2,
        (Atlas.mk 65536 65536 65536 [3] [[], [], [], []], mt_render_state.init)) := by
  decide

theorem wide_store_first :
    cache_store [] 20000 (BUILD_GLYPH_INDEX 1 0 2) = Res.ok (wide_cache 1) := by
  have hgrown : ([] : List Nat) ++ List.replicate (new_cache_size ([] : List Nat).length 20000
      - ([] : List Nat).length) 0 = List.replicate 32768 0 := by
    rw [List.nil_append, List.length_nil, new_cache_size_first]
  unfold cache_store
  simp only
  rw [if_pos (show 20000 ≥ ([] : List Nat).length from Nat.zero_le _), hgrown,
    List.length_replicate, if_pos (by omega), wide_cache_first]

theorem wide_first :
    get_glyph_texture_index wide_env 1 20000 0 (Atlas.init, mt_render_state.init)
      = Res.ok (BUILD_GLYPH_INDEX 1 0 2, (wide_atlas 1, mt_render_state.init)) :=
  get_glyph_texture_index_miss_ok wide_env 1 20000 0 2 (Atlas.init, mt_render_state.init)
    (BUILD_GLYPH_INDEX 1 0 2) (Atlas.mk 65536 65536 65536 [3] [[], [], [], []])
    mt_render_state.init [] (wide_cache 1) (by decide) (Or.inl rfl) rfl rfl
    wide_alloc_first rfl wide_store_first

theorem wide_step (k : Nat) (h1 : 1 ≤ k) (h2 : k ≤ 16384) :
    get_glyph_texture_index wide_env 0 k 0 (wide_atlas k, mt_render_state.init)
      = Res.ok (BUILD_GLYPH_INDEX (1 + 2 * k) 0 2, (wide_atlas (k + 1), mt_render_state.init))
    := by
  have hmiss : (wide_atlas k).entry 0 k = 0 := by
    show (wide_cache k).getD k 0 = 0
    rw [List.getD_eq_getElem?_getD, wide_cache_getElem?, if_pos (by omega),
      if_neg (by omega), if_neg (by omega)]
    rfl
  have hfit : first_fit (wide_atlas k).pdc_glyph_col_capacity 2 0
      (wide_atlas k).pdc_glyph_start_col
      = some (BUILD_GLYPH_INDEX (1 + 2 * k) 0 2, [1 + 2 * k + 2]) := by
    show first_fit 65536 2 0 [1 + 2 * k] = _
    rw [first_fit, if_pos (by omega)]
  rw [get_glyph_texture_index_miss wide_env 0 k 0 2 (wide_atlas k, mt_render_state.init)
    ⟨by omega, by omega⟩ (Or.inl rfl) hmiss rfl]
  have hw : (2 + wide_env.pdc_fwidth - 1) / wide_env.pdc_fwidth = 2 := by decide
  rw [hw, alloc_glyph_cache_fit wide_env 0 2 _ _ hfit]
  simp only [Res.bind]
  have hg : ([wide_cache k, [], [], []] : List (List Nat)).getD 0 [] = wide_cache k := rfl
  show (cache_store (([wide_cache k, [], [], []] : List (List Nat)).getD 0 []) k
    (BUILD_GLYPH_INDEX (1 + 2 * k) 0 2)).bind _ = _
  rw [hg, cache_store_inside _ _ _ (by rw [wide_cache_length]; omega),
    wide_cache_set k h1 (by omega)]
  simp only [Res.bind]
  have he : 1 + 2 * k + 2 = 1 + 2 * (k + 1) := by omega
  show Res.ok (BUILD_GLYPH_INDEX (1 + 2 * k) 0 2,
    ({ pdc_glyph_cache_w := 65536, pdc_glyph_cache_h := 65536,
       pdc_glyph_col_capacity := 65536, pdc_glyph_start_col := [1 + 2 * k + 2],
       pdc_glyph_cache := [wide_cache (k + 1), [], [], []] } : Atlas),
      mt_render_state.init) = _
  rw [he]
  rfl

theorem wide_reachable : ∀ k, k ≤ 16384 → AtlasReachable wide_env (wide_atlas (k + 1)) := by
  intro k
  induction k with
  | zero =>
    intro _
    exact AtlasReachable.lookup Atlas.init mt_render_state.init 1 20000 0 _
      AtlasReachable.init (by decide) wide_first
  | succ k ih =>
    intro hk
    exact AtlasReachable.lookup (wide_atlas (k + 1)) mt_render_state.init 0 (k + 1) 0 _
      (ih (by omega)) (by decide) (wide_step (k + 1) (by omega) (by omega))

theorem wide_env_advance : advance_one_or_two wide_env := by
  intro ch attr surf_w h
  simp only [wide_env, demo_env, Option.some.injEq] at h
  subst h
  right
  decide

/-- C5, the counterexample: with a 65536 texel GPU limit and a cell of 1 x
65536 texels the atlas has 65536 columns and one row.  After 16385 lookups of
two-cell glyphs the plain style cache holds, for code point 16384, the slot at
column 32769 of row 0; its packed index has row field 1, which is not below
`row_capacity = 1`. -/
theorem cache_entry_row_out_of_bounds :
    advance_one_or_two wide_env ∧ AtlasReachable wide_env (wide_atlas 16385) ∧
      (wide_atlas 16385).entry 0 16384 = BUILD_GLYPH_INDEX 32769 0 2 ∧
      (wide_atlas 16385).entry 0 16384 ≠ 0 ∧
      (wide_atlas 16385).pdc_glyph_row_capacity = 1 ∧
      glyph_row ((wide_atlas 16385).entry 0 16384) = 1 ∧
      ¬ (glyph_row ((wide_atlas 16385).entry 0 16384)
        < (wide_atlas 16385).pdc_glyph_row_capacity) := by
  have hent : (wide_atlas 16385).entry 0 16384 = BUILD_GLYPH_INDEX 32769 0 2 := by
    show (wide_cache 16385).getD 16384 0 = _
    rw [List.getD_eq_getElem?_getD, wide_cache_getElem?, if_pos (by omega),
      if_neg (by omega), if_pos (by omega)]
    rfl
  refine ⟨wide_env_advance, wide_reachable 16384 (le_refl _), hent, ?_, rfl, ?_, ?_⟩
  · rw [hent]; decide
  · rw [hent]; decide
  · rw [hent]; decide

/-! ## draw_glyph on a plain code point -/

theorem load_store (p : Option (List Nat)) (i v j : Nat) :
    load (store p i v) j =
      if j = i ∧ i < (p.getD []).length then v else load p j := by
  cases p with
  | none =>
    have h : ¬ (j = i ∧ i < ((none : Option (List Nat)).getD []).length) := by
      rintro ⟨_, h⟩; exact Nat.not_lt_zero _ h
    rw [if_neg h]; rfl
  | some a =>
    show (a.set i v).getD j 0 = if j = i ∧ i < a.length then v else a.getD j 0
    rw [List.getD_eq_getElem?_getD, List.getD_eq_getElem?_getD, List.getElem?_set]
    by_cases hji : j = i
    · subst hji
      by_cases hlt : j < a.length
      · rw [if_pos rfl, if_pos hlt, if_pos ⟨rfl, hlt⟩]; rfl
      · rw [if_pos rfl, if_neg hlt, if_neg (fun h => hlt h.2),
          List.getElem?_eq_none (by omega)]
    · rw [if_neg (fun h => hji h.symm), if_neg (fun h => hji h.1)]

theorem load_clear_cell (i j : Nat) (l : glyph_grid_layer) :
    load (clear_cell i l).codepoint_attr j = if j = i then 0 else load l.codepoint_attr j := by
  unfold clear_cell
  by_cases h : load l.codepoint_attr i ≠ 0
  · rw [if_pos h]
    show load (store l.codepoint_attr i 0) j = _
    rw [load_store]
    by_cases hji : j = i
    · subst hji
      rw [if_pos rfl]
      by_cases hlt : j < (l.codepoint_attr.getD []).length
      · rw [if_pos ⟨rfl, hlt⟩]
      · exfalso
        apply h
        unfold load
        rw [List.getD_eq_getElem?_getD, List.getElem?_eq_none (by omega)]
        rfl
    · rw [if_neg (fun h => hji h.1), if_neg hji]
  · rw [if_neg h]
    by_cases hji : j = i
    · subst hji
      rw [if_pos rfl]
      exact not_not.mp h
    · rw [if_neg hji]

theorem occupancy_clear_cell (i : Nat) (l : glyph_grid_layer) :
    (clear_cell i l).occupancy =
      if load l.codepoint_attr i ≠ 0 then (l.occupancy + (2 ^ 32 - 1)) % 2 ^ 32
      else l.occupancy := by
  unfold clear_cell
  by_cases h : load l.codepoint_attr i ≠ 0
  · rw [if_pos h, if_pos h]
  · rw [if_neg h, if_neg h]

theorem ensure_glyph_grid_same (env : Env) (cols lines min_layers : Nat) (g : Grid)
    (hw : g.grid_w = cols) (hh : g.grid_h = lines) (hl : min_layers ≤ g.grid_layers) :
    ensure_glyph_grid env cols lines min_layers g = Res.ok g := by
  unfold ensure_glyph_grid
  rw [if_neg]
  rintro (h | h | h)
  · exact h hw.symm
  · exact h hh.symm
  · omega

theorem combine_loop_plain (env : Env) (cols lines cache_attr_index i fuel layer ch32 : Nat)
    (g : Grid) (hch : ch32 ≤ 0x110000) :
    combine_loop env cols lines cache_attr_index i fuel layer ch32 g = Res.ok (ch32, g) := by
  cases fuel with
  | zero => rw [combine_loop, if_neg (by omega)]
  | succ fuel => rw [combine_loop, if_neg (by omega)]

theorem draw_glyph_plain_eq (env : Env) (cols lines cache_attr_index fuel x y : Nat)
    (attr ch32 background foreground : Nat) (g : Grid) (hx : x < cols) (hy : y < lines)
    (hch : ch32 ≤ 0x110000) (hw : g.grid_w = cols) (hh : g.grid_h = lines)
    (hl : 1 ≤ g.grid_layers) :
    draw_glyph env cols lines cache_attr_index fuel y x attr ch32 background foreground g =
      Res.ok
        { color_grid :=
            store g.color_grid (x + y * cols)
              { bg_color := background
                fg_color := (foreground ||| (gl_attrs env attr <<< 24)) % 2 ^ 32 }
          glyph_grid_layers :=
            set_cell (clear_upper_layers (x + y * cols) g.glyph_grid_layers) 0 (x + y * cols)
              ((ch32 ||| (cache_attr_index <<< 30)) % 2 ^ 32) (fun o => o)
          grid_w := g.grid_w
          grid_h := g.grid_h } := by
  unfold draw_glyph
  have hin : ¬ ((y : Int) < 0 ∨ (y : Int) ≥ lines ∨ (x : Int) < 0 ∨ (x : Int) ≥ cols) := by
    omega
  have hi : ((x : Int) + (y : Int) * (cols : Int)).toNat = x + y * cols := by
    have : (x : Int) + (y : Int) * (cols : Int) = ((x + y * cols : Nat) : Int) := by
      push_cast; ring
    rw [this, Int.toNat_ofNat]
  rw [if_neg hin, ensure_glyph_grid_same env cols lines 1 g hw hh hl]
  simp only [Res.bind]
  rw [combine_loop_plain env cols lines cache_attr_index _ fuel 0 ch32 _ hch, hi]

theorem cell_index_inj (cols x y x1 y1 : Nat) (hx : x < cols) (hx1 : x1 < cols)
    (h : x1 + y1 * cols = x + y * cols) : x1 = x ∧ y1 = y := by
  have h1 : (x1 + y1 * cols) % cols = (x + y * cols) % cols := by rw [h]
  rw [Nat.add_mul_mod_self_right, Nat.add_mul_mod_self_right, Nat.mod_eq_of_lt hx1,
    Nat.mod_eq_of_lt hx] at h1
  subst h1
  have h2 : y1 * cols = y * cols := by omega
  exact ⟨rfl, Nat.eq_of_mul_eq_mul_right (by omega) h2⟩

/-- The layers `draw_glyph` leaves for a plain code point: the base layer with
the new word, every other layer with the cell cleared. -/
theorem drawn_layers (i v : Nat) (base : glyph_grid_layer) (upper : List glyph_grid_layer) :
    set_cell (clear_upper_layers i (base :: upper)) 0 i v (fun o => o) =
      { occupancy := base.occupancy
        glyph_grid := base.glyph_grid
        codepoint_attr := store base.codepoint_attr i v } :: upper.map (clear_cell i) := rfl

theorem getD_map_clear_cell (i k : Nat) (upper : List glyph_grid_layer) (hk : k < upper.length) :
    (upper.map (clear_cell i)).getD k default = clear_cell i (upper.getD k default) := by
  rw [List.getD_eq_getElem (upper.map (clear_cell i)) default (by rw [List.length_map]; exact hk),
    List.getElem_map, List.getD_eq_getElem upper default hk]

/-- C11, amended: on a grid that already has the size of the screen and at
least one layer, with arrays of that size, `draw_glyph` at an in-range cell
`(x, y)` with a code point `ch32 ≤ 0x110000` returns; it keeps the dimensions
and the number of layers; on every non-base layer the pending word of the cell
becomes 0 and the occupancy is decremented (in `Uint32`, so by one when it was
at least 1) exactly when that word was non-zero; the base layer's word becomes
`ch32 | (cache_attr_index << 30)` and its occupancy is kept; and the pending
word of every other cell of every layer is unchanged. -/
theorem draw_glyph_plain_code_point (env : Env) (cols lines cache_attr_index fuel x y : Nat)
    (attr ch32 background foreground : Nat) (g : Grid) (hx : x < cols) (hy : y < lines)
    (hch : ch32 ≤ 0x110000) (hw : g.grid_w = cols) (hh : g.grid_h = lines)
    (hl : 1 ≤ g.grid_layers) (hs : g.sized) :
    ∃ g1, draw_glyph env cols lines cache_attr_index fuel y x attr ch32 background foreground g
        = Res.ok g1 ∧
      g1.grid_layers = g.grid_layers ∧ g1.grid_w = g.grid_w ∧ g1.grid_h = g.grid_h ∧
      (∀ layer, 1 ≤ layer → layer < g.grid_layers →
        g1.pending layer x y = 0 ∧
        (g1.glyph_grid_layers.getD layer default).occupancy =
          (if g.pending layer x y ≠ 0 then
            ((g.glyph_grid_layers.getD layer default).occupancy + (2 ^ 32 - 1)) % 2 ^ 32
          else (g.glyph_grid_layers.getD layer default).occupancy) ∧
        (g.pending layer x y ≠ 0 → 1 ≤ (g.glyph_grid_layers.getD layer default).occupancy →
          (g.glyph_grid_layers.getD layer default).occupancy < 2 ^ 32 →
          (g1.glyph_grid_layers.getD layer default).occupancy + 1 =
            (g.glyph_grid_layers.getD layer default).occupancy)) ∧
      g1.pending 0 x y = (ch32 ||| (cache_attr_index <<< 30)) % 2 ^ 32 ∧
      (g1.glyph_grid_layers.getD 0 default).occupancy =
        (g.glyph_grid_layers.getD 0 default).occupancy ∧
      (∀ layer x1 y1, x1 < cols → y1 < lines → (x1, y1) ≠ (x, y) →
        g1.pending layer x1 y1 = g.pending layer x1 y1) := by
  refine ⟨_, draw_glyph_plain_eq env cols lines cache_attr_index fuel x y attr ch32 background
    foreground g hx hy hch hw hh hl, ?_⟩
  obtain ⟨cg, layers, gw, gh⟩ := g
  dsimp only at hw hh
  subst hw hh
  cases layers with
  | nil => exact absurd hl (by show ¬ 1 ≤ 0; decide)
  | cons base upper =>
    have hbase : layer_sized (gw * gh) base := hs.2 base (List.mem_cons_self _ _)
    obtain ⟨ca, hca, hcalen⟩ := hbase
    have hi : x + y * gw < gw * gh := by
      calc x + y * gw < gw + y * gw := by omega
        _ = gw * (y + 1) := by ring
        _ ≤ gw * gh := Nat.mul_le_mul_left _ hy
    rw [drawn_layers]
    refine ⟨?_, rfl, rfl, ?_, ?_, rfl, ?_⟩
    · show (List.map _ upper).length + 1 = upper.length + 1
      rw [List.length_map]
    · intro layer h1 h2
      obtain ⟨k, rfl⟩ : ∃ k, layer = k + 1 := ⟨layer - 1, by omega⟩
      have hk : k < upper.length := by
        have : (base :: upper).length = upper.length + 1 := rfl
        unfold Grid.grid_layers at h2
        dsimp only at h2
        omega
      have e1 : ∀ (b : glyph_grid_layer) (u : List glyph_grid_layer),
          (b :: u).getD (k + 1) default = u.getD k default := fun _ _ => rfl
      have hocc := occupancy_clear_cell (x + y * gw) (upper.getD k default)
      unfold Grid.pending
      dsimp only
      rw [e1, e1, getD_map_clear_cell _ _ _ hk, load_clear_cell, if_pos rfl]
      refine ⟨rfl, hocc, ?_⟩
      intro hne h1o h2o
      rw [hocc, if_pos hne]
      omega
    · unfold Grid.pending
      dsimp only
      show load (store base.codepoint_attr (x + y * gw) _) (x + y * gw) = _
      rw [load_store, if_pos ⟨rfl, by rw [hca]; show x + y * gw < ca.length; omega⟩]
    · intro layer x1 y1 hx1 hy1 hne
      have hij : x1 + y1 * gw ≠ x + y * gw := by
        intro h
        obtain ⟨rfl, rfl⟩ := cell_index_inj gw x y x1 y1 hx hx1 h
        exact hne rfl
      unfold Grid.pending
      dsimp only
      cases layer with
      | zero =>
        show load (store base.codepoint_attr (x + y * gw) _) (x1 + y1 * gw) = _
        rw [load_store, if_neg (fun h => hij h.1)]
        rfl
      | succ k =>
        show load ((List.map (clear_cell (x + y * gw)) upper).getD k default).codepoint_attr _
          = load (upper.getD k default).codepoint_attr _
        by_cases hk : k < upper.length
        · rw [getD_map_clear_cell _ _ _ hk, load_clear_cell, if_neg hij]
        · rw [List.getD_eq_default _ _ (by rw [List.length_map]; omega),
            List.getD_eq_default _ _ (by omega)]

/-- C11 at a concrete input: `f` is written over the cell (1, 0) that holds
`e` with a combining mark on layer 1. -/
theorem draw_glyph_plain_code_point_witness :
    ∃ g1, draw_glyph demo_env 2 1 0 0 ((0 : Nat) : Int) ((1 : Nat) : Int) 0 102 0 0xFFFFFF
        grid_with_mark = Res.ok g1 ∧
      g1.grid_layers = grid_with_mark.grid_layers ∧ g1.grid_w = grid_with_mark.grid_w ∧
      g1.grid_h = grid_with_mark.grid_h ∧
      (∀ layer, 1 ≤ layer → layer < grid_with_mark.grid_layers →
        g1.pending layer 1 0 = 0 ∧
        (g1.glyph_grid_layers.getD layer default).occupancy =
          (if grid_with_mark.pending layer 1 0 ≠ 0 then
            ((grid_with_mark.glyph_grid_layers.getD layer default).occupancy + (2 ^ 32 - 1))
              % 2 ^ 32
          else (grid_with_mark.glyph_grid_layers.getD layer default).occupancy) ∧
        (grid_with_mark.pending layer 1 0 ≠ 0 →
          1 ≤ (grid_with_mark.glyph_grid_layers.getD layer default).occupancy →
          (grid_with_mark.glyph_grid_layers.getD layer default).occupancy < 2 ^ 32 →
          (g1.glyph_grid_layers.getD layer default).occupancy + 1 =
            (grid_with_mark.glyph_grid_layers.getD layer default).occupancy)) ∧
      g1.pending 0 1 0 = (102 ||| (0 <<< 30)) % 2 ^ 32 ∧
      (g1.glyph_grid_layers.getD 0 default).occupancy =
        (grid_with_mark.glyph_grid_layers.getD 0 default).occupancy ∧
      (∀ layer x1 y1, x1 < 2 → y1 < 1 → (x1, y1) ≠ (1, 0) →
        g1.pending layer x1 y1 = grid_with_mark.pending layer x1 y1) :=
  draw_glyph_plain_code_point demo_env 2 1 0 0 1 0 0 102 0 0xFFFFFF grid_with_mark
    (by decide) (by decide) (by decide) rfl rfl (by decide) grid_with_mark_sized

/-- C11, the counterexample: the first `draw_glyph` on the empty screen (no
layers yet) calls `ensure_glyph_grid(1)`, which allocates the base layer, so
the number of layers goes from 0 to 1. -/
theorem draw_glyph_first_call_adds_layer :
    draw_glyph demo_env 2 1 0 0 0 0 0 65 0 0xFFFFFF Grid.empty = Res.ok grid_with_A ∧
      Grid.empty.grid_layers = 0 ∧ grid_with_A.grid_layers = 1 := by
  decide

/-! ## shrink_glyph_grid -/

theorem shrink_loop_stop (fuel layer : Nat) (ls : List glyph_grid_layer)
    (h : ¬ layer < ls.length) : shrink_loop fuel layer ls = Res.ok ls := by
  cases fuel with
  | zero => rw [shrink_loop, if_neg h]
  | succ fuel => rw [shrink_loop, if_neg h]

/-- What a returning run of the loop leaves: a prefix of the layers that
reaches at least to `layer`, in which every layer from `layer` on is occupied;
what it removed is at most the top layer, which was empty. -/
theorem shrink_loop_ok : ∀ (fuel layer : Nat) (ls ls1 : List glyph_grid_layer),
    shrink_loop fuel layer ls = Res.ok ls1 →
    ls1 = ls.take ls1.length ∧ ls1.length ≤ ls.length ∧
      (layer ≤ ls.length → layer ≤ ls1.length) ∧
      (∀ k, layer ≤ k → k < ls1.length → (ls.getD k default).occupancy ≠ 0) ∧
      (∀ k, ls1.length ≤ k → k < ls.length →
        (ls.getD k default).occupancy = 0 ∧ k + 1 = ls.length) := by
  intro fuel
  induction fuel with
  | zero =>
    intro layer ls ls1 h
    rw [shrink_loop] at h
    split_ifs at h with h0
    cases h
    exact ⟨(List.take_length ls).symm, le_refl _, fun h => by omega, fun k h1 h2 => by omega,
      fun k h1 h2 => by omega⟩
  | succ fuel ih =>
    intro layer ls ls1 h
    rw [shrink_loop] at h
    split_ifs at h with h0 h1 h2
    · obtain ⟨i1, i2, i3, i4, i5⟩ := ih _ _ _ h
      refine ⟨i1, i2, fun _ => by omega, ?_, i5⟩
      intro k hk1 hk2
      by_cases hkl : k = layer
      · subst hkl; exact h1
      · exact i4 k (by omega) hk2
    · rw [shrink_loop_stop fuel layer (ls.take layer)
        (by rw [List.length_take]; omega)] at h
      cases h
      have hlen : (ls.take layer).length = layer := by rw [List.length_take]; omega
      refine ⟨by rw [hlen], by omega, fun _ => by omega, fun k hk1 hk2 => by omega, ?_⟩
      intro k hk1 hk2
      have hk : k = layer := by omega
      subst hk
      exact ⟨not_not.mp h1, by omega⟩
    · cases h
      exact ⟨(List.take_length ls).symm, le_refl _, fun h => by omega, fun k h1 h2 => by omega,
        fun k h1 h2 => by omega⟩

/-- The loop passes over layers that are all occupied and changes nothing. -/
theorem shrink_loop_pass : ∀ (fuel layer : Nat) (ls : List glyph_grid_layer),
    ls.length - layer ≤ fuel →
    (∀ k, layer ≤ k → k < ls.length → (ls.getD k default).occupancy ≠ 0) →
    shrink_loop fuel layer ls = Res.ok ls := by
  intro fuel
  induction fuel with
  | zero =>
    intro layer ls h _
    exact shrink_loop_stop 0 layer ls (by omega)
  | succ fuel ih =>
    intro layer ls h hocc
    by_cases h0 : layer < ls.length
    · rw [shrink_loop, if_pos h0]
      show (if (ls.getD layer default).occupancy ≠ 0 then shrink_loop fuel (layer + 1) ls
        else _) = _
      rw [if_pos (hocc layer (le_refl _) h0)]
      exact ih (layer + 1) ls (by omega) (fun k hk1 hk2 => hocc k (by omega) hk2)
    · exact shrink_loop_stop _ layer ls h0

/-- The loop removes an empty top layer above occupied layers. -/
theorem shrink_loop_top : ∀ (fuel layer : Nat) (ls : List glyph_grid_layer),
    ls.length - layer ≤ fuel → layer < ls.length →
    (∀ k, layer ≤ k → k + 1 < ls.length → (ls.getD k default).occupancy ≠ 0) →
    (ls.getD (ls.length - 1) default).occupancy = 0 →
    shrink_loop fuel layer ls = Res.ok (ls.take (ls.length - 1)) := by
  intro fuel
  induction fuel with
  | zero => intro layer ls h h0 _ _; omega
  | succ fuel ih =>
    intro layer ls h h0 hocc htop
    rw [shrink_loop, if_pos h0]
    show (if (ls.getD layer default).occupancy ≠ 0 then shrink_loop fuel (layer + 1) ls
      else if ls.length - layer - 1 = 0 then shrink_loop fuel layer (ls.take layer)
      else Res.undef) = _
    by_cases hl : layer + 1 < ls.length
    · rw [if_pos (hocc layer (le_refl _) hl)]
      exact ih (layer + 1) ls (by omega) hl (fun k hk1 hk2 => hocc k (by omega) hk2) htop
    · have hlast : ls.length - 1 = layer := by omega
      rw [hlast] at htop
      rw [if_neg (by rw [htop]; exact fun h => h rfl), if_pos (by omega), hlast]
      exact shrink_loop_stop fuel layer (ls.take layer) (by rw [List.length_take]; omega)

/-- Whenever `shrink_glyph_grid` returns, it did what is asked of it: the
layers left are a prefix of the old ones with layer 0 among them, colours and
dimensions are kept, every non-base layer left is occupied, and what was
removed is an empty top layer. -/
theorem shrink_glyph_grid_ok (g g1 : Grid) (hl : 1 ≤ g.grid_layers)
    (h : shrink_glyph_grid g = Res.ok g1) :
    g1.color_grid = g.color_grid ∧ g1.grid_w = g.grid_w ∧ g1.grid_h = g.grid_h ∧
      g1.glyph_grid_layers = g.glyph_grid_layers.take g1.grid_layers ∧
      1 ≤ g1.grid_layers ∧ g1.grid_layers ≤ g.grid_layers ∧
      (∀ k, 1 ≤ k → k < g1.grid_layers →
        (g1.glyph_grid_layers.getD k default).occupancy ≠ 0) ∧
      (∀ k, g1.grid_layers ≤ k → k < g.grid_layers →
        (g.glyph_grid_layers.getD k default).occupancy = 0 ∧ k + 1 = g.grid_layers) := by
  unfold shrink_glyph_grid at h
  cases hs : shrink_loop g.grid_layers 1 g.glyph_grid_layers with
  | ok ls =>
    rw [hs] at h
    simp only [Res.bind, Res.ok.injEq] at h
    subst h
    obtain ⟨i1, i2, i3, i4, i5⟩ := shrink_loop_ok _ _ _ _ hs
    refine ⟨rfl, rfl, rfl, i1, i3 hl, i2, ?_, i5⟩
    intro k hk1 hk2
    have hk : (ls.getD k default) = (g.glyph_grid_layers.getD k default) := by
      show ls.getD k default = _
      have hk3 : k < ls.length := hk2
      rw [List.getD_eq_getElem?_getD, List.getD_eq_getElem?_getD]
      conv_lhs => rw [i1]
      rw [List.getElem?_take_of_lt hk3]
    show (ls.getD k default).occupancy ≠ 0
    rw [hk]
    exact i4 k hk1 hk2
  | undef => rw [hs] at h; cases h
  | fuelOut => rw [hs] at h; cases h

/-- The call returns on every stack in which no layer between the base and the
top is empty: an empty top layer is removed, nothing else changes. -/
theorem shrink_glyph_grid_top_only (g : Grid) (hl : 2 ≤ g.grid_layers)
    (hocc : ∀ k, 1 ≤ k → k + 1 < g.grid_layers →
      (g.glyph_grid_layers.getD k default).occupancy ≠ 0) :
    shrink_glyph_grid g =
      Res.ok
        (if (g.glyph_grid_layers.getD (g.grid_layers - 1) default).occupancy = 0 then
          { g with glyph_grid_layers := g.glyph_grid_layers.take (g.grid_layers - 1) }
        else g) := by
  unfold shrink_glyph_grid
  unfold Grid.grid_layers at *
  by_cases htop : (g.glyph_grid_layers.getD (g.glyph_grid_layers.length - 1) default).occupancy
      = 0
  · rw [if_pos htop, shrink_loop_top _ 1 _ (by omega) (by omega) hocc htop]
    rfl
  · rw [if_neg htop, shrink_loop_pass _ 1 _ (by omega)]
    · rfl
    · intro k hk1 hk2
      by_cases hk : k + 1 < g.glyph_grid_layers.length
      · exact hocc k hk1 hk
      · have : k = g.glyph_grid_layers.length - 1 := by omega
        rw [this]
        exact htop

/-- C12, the failing input: a cell with two combining marks is overwritten
with a plain letter, which leaves layers 1 and 2 empty.  `shrink_glyph_grid`
frees the arrays of layer 1 and moves `grid_layers - layer - 1 = 1` byte, not
one struct, so the slot of layer 1 keeps its freed pointers and its occupancy
0, and the next round of the loop frees them a second time. -/
theorem shrink_glyph_grid_two_empty_layers :
    draw_glyph stacked_env 1 1 0 2 0 0 0 0x110002 0 0xFFFFFF Grid.empty
        = Res.ok grid_two_marks ∧
      draw_glyph stacked_env 1 1 0 2 0 0 0 102 0 0xFFFFFF grid_two_marks
        = Res.ok grid_marks_cleared ∧
      (grid_marks_cleared.glyph_grid_layers.map fun l => l.occupancy) = [0, 0, 0] ∧
      shrink_glyph_grid grid_marks_cleared = Res.undef := by
  decide

/-- On the list of layers: whenever a call of `shrink_glyph_grid` returns, a
second call returns as well and leaves the same grid. -/
theorem shrink_glyph_grid_idempotent (g g1 : Grid) (h : shrink_glyph_grid g = Res.ok g1) :
    shrink_glyph_grid g1 = Res.ok g1 := by
  by_cases hl : 1 ≤ g.grid_layers
  · obtain ⟨_, _, _, _, _, _, i7, _⟩ := shrink_glyph_grid_ok g g1 hl h
    unfold shrink_glyph_grid
    rw [shrink_loop_pass _ 1 _ (by unfold Grid.grid_layers; omega) i7]
    rfl
  · rw [shrink_glyph_grid_one_layer g (by omega)] at h
    cases h
    exact shrink_glyph_grid_one_layer g (by omega)

/-- The screen whose layer 1 was emptied loses that layer in the first call
and keeps its one layer in the second. -/
theorem shrink_glyph_grid_idempotent_witness :
    shrink_glyph_grid grid_mark_cleared =
        Res.ok { grid_mark_cleared with
          glyph_grid_layers := grid_mark_cleared.glyph_grid_layers.take 1 } ∧
      shrink_glyph_grid { grid_mark_cleared with
          glyph_grid_layers := grid_mark_cleared.glyph_grid_layers.take 1 } =
        Res.ok { grid_mark_cleared with
          glyph_grid_layers := grid_mark_cleared.glyph_grid_layers.take 1 } :=
  ⟨by decide, shrink_glyph_grid_idempotent grid_mark_cleared _ (by decide)⟩

/-! ## shrink_glyph_grid on the memory of the layer array -/

theorem memmove_zero {α : Type} (a : List α) (d s : Nat) : memmove a d s 0 = a := by
  unfold memmove memcpy
  simp

theorem free_keeps (heap heap1 : List (Nat × List Nat)) (p q : Nat) (c : List Nat)
    (h : free heap p = Res.ok heap1) (hq : q ≠ p) (hin : (q, c) ∈ heap) : (q, c) ∈ heap1 := by
  unfold free at h
  split_ifs at h with h0 h1
  · cases h; exact hin
  · cases h
    rw [List.mem_filter]
    exact ⟨hin, by simpa using hq⟩

theorem free_live (heap : List (Nat × List Nat)) (p : Nat) (a : Option (List Nat))
    (h : points_to heap p a) : ∃ heap1, free heap p = Res.ok heap1 := by
  unfold free
  by_cases h0 : p = 0
  · rw [if_pos h0]; exact ⟨_, rfl⟩
  · rw [if_neg h0]
    cases a with
    | none => exact absurd h h0
    | some c =>
      have hin : (p, c) ∈ heap := h.2
      have : heap.any (fun b => decide (b.1 = p)) = true := by
        rw [List.any_eq_true]
        exact ⟨(p, c), hin, by simp⟩
      rw [if_pos this]
      exact ⟨_, rfl⟩

theorem points_to_keeps (heap heap1 : List (Nat × List Nat)) (p q : Nat)
    (a : Option (List Nat)) (h : free heap p = Res.ok heap1) (hq : q ≠ 0 → q ≠ p)
    (hp : points_to heap q a) : points_to heap1 q a := by
  cases a with
  | none => exact hp
  | some c =>
    have hp1 : q ≠ 0 ∧ (q, c) ∈ heap := hp
    exact ⟨hp1.1, free_keeps heap heap1 p q c h (hq hp1.1) hp1.2⟩

theorem getD_take_layers (ls : List glyph_grid_layer) (n k : Nat) (hk : k < n) :
    (ls.take n).getD k default = ls.getD k default := by
  rw [List.getD_eq_getElem?_getD, List.getD_eq_getElem?_getD, List.getElem?_take_of_lt hk]

/-- Wherever the loop on the layer list returns, the loop on the memory that
holds the list returns the memory that holds its result, with the bytes of the
array unchanged. -/
theorem shrink_memory_loop_represents : ∀ (fuel layer : Nat) (m : LayerMemory)
    (ls ls1 : List glyph_grid_layer), m.represents ls →
    shrink_loop fuel layer ls = Res.ok ls1 →
    ∃ m1, shrink_memory_loop fuel layer m = Res.ok m1 ∧ m1.represents ls1 ∧
      m1.bytes = m.bytes := by
  intro fuel
  induction fuel with
  | zero =>
    intro layer m ls ls1 hr h
    rw [shrink_loop] at h
    by_cases c : layer < ls.length
    · rw [if_pos c] at h; cases h
    · rw [if_neg c] at h
      cases h
      refine ⟨m, ?_, hr, rfl⟩
      rw [shrink_memory_loop, if_neg (by rw [hr.1]; exact c)]
  | succ fuel ih =>
    intro layer m ls ls1 hr h
    rw [shrink_loop] at h
    obtain ⟨r1, r2, r3, r4⟩ := hr
    by_cases c : layer < ls.length
    · rw [if_pos c] at h
      obtain ⟨o1, o2, o3⟩ := r3 layer c
      have hb : ¬ m.bytes.length < sizeof_glyph_grid_layer * (layer + 1) := by
        have : sizeof_glyph_grid_layer * (layer + 1) ≤ sizeof_glyph_grid_layer * ls.length :=
          Nat.mul_le_mul_left _ c
        omega
      rw [shrink_memory_loop, if_pos (by rw [r1]; exact c), if_neg hb]
      by_cases co : (ls.getD layer default).occupancy ≠ 0
      · rw [if_pos co] at h
        rw [if_pos (by rw [o1]; exact co)]
        exact ih (layer + 1) m ls ls1 ⟨r1, r2, r3, r4⟩ h
      · rw [if_neg co] at h
        rw [if_neg (by rw [o1]; exact co)]
        by_cases ct : ls.length - layer - 1 = 0
        · rw [if_pos ct] at h
          obtain ⟨heap1, hf1⟩ := free_live m.heap _ _ o2
          have o3a : points_to heap1 (member_pointer m.bytes layer true)
              (ls.getD layer default).codepoint_attr :=
            points_to_keeps m.heap heap1 _ _ _ hf1
              (fun hne => r4 layer layer true false c c (Or.inr (by decide)) hne) o3
          obtain ⟨heap2, hf2⟩ := free_live heap1 _ _ o3a
          have e8 : read_member m.bytes (sizeof_glyph_grid_layer * layer + 8) 8 =
              member_pointer m.bytes layer false := rfl
          have e16 : read_member m.bytes (sizeof_glyph_grid_layer * layer + 16) 8 =
              member_pointer m.bytes layer true := rfl
          rw [e8, hf1]
          simp only [Res.bind]
          rw [e16, hf2]
          simp only [Res.bind]
          rw [r1, ct, memmove_zero, if_neg (by omega)]
          have hrep : LayerMemory.represents
              { bytes := m.bytes, grid_layers := ls.length - 1, heap := heap2 }
              (ls.take layer) := by
            have hlen : (ls.take layer).length = layer := by
              rw [List.length_take]; omega
            refine ⟨?_, ?_, ?_, ?_⟩
            · show ls.length - 1 = (ls.take layer).length
              rw [hlen]; omega
            · rw [hlen]
              have : sizeof_glyph_grid_layer * layer ≤ sizeof_glyph_grid_layer * ls.length :=
                Nat.mul_le_mul_left _ (by omega)
              exact le_trans this r2
            · intro k hk
              rw [hlen] at hk
              obtain ⟨q1, q2, q3⟩ := r3 k (by omega)
              rw [getD_take_layers ls layer k hk]
              refine ⟨q1, ?_, ?_⟩
              · exact points_to_keeps heap1 heap2 _ _ _ hf2
                  (fun hne => r4 k layer false true (by omega) c (Or.inl (by omega)) hne)
                  (points_to_keeps m.heap heap1 _ _ _ hf1
                    (fun hne => r4 k layer false false (by omega) c (Or.inl (by omega)) hne) q2)
              · exact points_to_keeps heap1 heap2 _ _ _ hf2
                  (fun hne => r4 k layer true true (by omega) c (Or.inl (by omega)) hne)
                  (points_to_keeps m.heap heap1 _ _ _ hf1
                    (fun hne => r4 k layer true false (by omega) c (Or.inl (by omega)) hne) q3)
            · intro k k1 s s1 hk hk1
              rw [hlen] at hk hk1
              exact r4 k k1 s s1 (by omega) (by omega)
          obtain ⟨m1, i1, i2, i3⟩ := ih layer _ (ls.take layer) ls1 hrep h
          exact ⟨m1, i1, i2, i3⟩
        · rw [if_neg ct] at h
          cases h
    · rw [if_neg c] at h
      cases h
      refine ⟨m, ?_, ⟨r1, r2, r3, r4⟩, rfl⟩
      rw [shrink_memory_loop, if_neg (by rw [r1]; exact c)]

/-- Wherever `shrink_glyph_grid` on the layer list returns, the call on the
memory that holds the list returns the memory that holds its result. -/
theorem shrink_glyph_grid_memory_represents (m : LayerMemory) (g g1 : Grid)
    (hr : m.represents g.glyph_grid_layers) (h : shrink_glyph_grid g = Res.ok g1) :
    ∃ m1, shrink_glyph_grid_memory m = Res.ok m1 ∧ m1.represents g1.glyph_grid_layers ∧
      m1.bytes = m.bytes := by
  unfold shrink_glyph_grid at h
  cases hs : shrink_loop g.grid_layers 1 g.glyph_grid_layers with
  | undef => rw [hs] at h; cases h
  | fuelOut => rw [hs] at h; cases h
  | ok ls1 =>
    rw [hs] at h
    simp only [Res.bind, Res.ok.injEq] at h
    subst h
    unfold shrink_glyph_grid_memory
    rw [hr.1]
    exact shrink_memory_loop_represents _ 1 m _ ls1 hr hs

/-- What the list of layers cannot hold: after the call on (base, empty,
occupied) layer 1 lies below `grid_layers` with occupancy 1 and a
`codepoint_attr` that points to the block at 0x2000, which is no longer
live. -/
theorem shrink_glyph_grid_memory_freed_pointer :
    read_member memory_after_shrink.bytes (sizeof_glyph_grid_layer * 1) 4 = 1 ∧
      member_pointer memory_after_shrink.bytes 1 true = 0x2000 ∧
      memory_after_shrink.heap.map Prod.fst = [0x1000, 0x3000] := by
  decide

/-- On the layer stack (base, empty, empty) the byte moved is 0: the slot of
layer 1 keeps occupancy 0 and its freed pointers, and the next round frees the
array at 0x2000 a second time. -/
theorem shrink_glyph_grid_memory_double_free :
    shrink_glyph_grid_memory memory_marks_cleared = Res.undef := by
  decide

theorem layer_memory_represents (bytes : List Nat) (heap : List (Nat × List Nat))
    (l0 l1 : glyph_grid_layer)
    (hlen : sizeof_glyph_grid_layer * 2 ≤ bytes.length)
    (h0 : read_member bytes 0 4 = l0.occupancy ∧
      points_to heap (member_pointer bytes 0 false) l0.glyph_grid ∧
      points_to heap (member_pointer bytes 0 true) l0.codepoint_attr)
    (h1 : read_member bytes (sizeof_glyph_grid_layer * 1) 4 = l1.occupancy ∧
      points_to heap (member_pointer bytes 1 false) l1.glyph_grid ∧
      points_to heap (member_pointer bytes 1 true) l1.codepoint_attr)
    (hd : ∀ k k1 s s1, k < 2 → k1 < 2 → (k ≠ k1 ∨ s ≠ s1) →
      member_pointer bytes k s ≠ 0 → member_pointer bytes k s ≠ member_pointer bytes k1 s1) :
    LayerMemory.represents { bytes := bytes, grid_layers := 2, heap := heap } [l0, l1] := by
  refine ⟨rfl, hlen, ?_, hd⟩
  intro k hk
  have hk2 : k < 2 := hk
  interval_cases k
  · exact h0
  · exact h1

/-- The memory `memory_mark_cleared` holds the layers of `grid_mark_cleared`;
`shrink_glyph_grid` removes the empty top layer of the list, and on the memory
it frees the array at 0x2000 and leaves `grid_layers = 1`. -/
theorem shrink_glyph_grid_memory_top_layer :
    memory_mark_cleared.represents grid_mark_cleared.glyph_grid_layers ∧
      shrink_glyph_grid_memory memory_mark_cleared =
        Res.ok { memory_mark_cleared with grid_layers := 1, heap := [(0x1000, [0, 102])] } := by
  refine ⟨?_, by decide⟩
  refine layer_memory_represents _ _ _ _ (by decide) ⟨by decide, ?_, ?_⟩
    ⟨by decide, ?_, ?_⟩ ?_
  · show member_pointer _ 0 false = 0
    decide
  · exact ⟨by decide, by decide⟩
  · show member_pointer _ 1 false = 0
    decide
  · exact ⟨by decide, by decide⟩
  · intro k k1 s s1 hk hk1
    interval_cases k <;> interval_cases k1 <;> cases s <;> cases s1 <;> decide

/-! ## Calls that change nothing -/

/-- C14: for a cell `(x, y)` outside the screen (`y < 0`, `y ≥ SP->lines`,
`x < 0` or `x ≥ SP->cols`) `draw_glyph` and `draw_cursor` return the state
they were given: colour grid, layers with their pending grids and occupancy,
layer count and dimensions. -/
theorem draw_out_of_range_ignored (env : Env) (cols lines cache_attr_index fuel : Nat)
    (y x visibility : Int) (attr ch32 background foreground : Nat) (g : Grid)
    (h : y < 0 ∨ y ≥ lines ∨ x < 0 ∨ x ≥ cols) :
    draw_glyph env cols lines cache_attr_index fuel y x attr ch32 background foreground g
        = Res.ok g ∧
      draw_cursor env cols lines y x visibility g = Res.ok g := by
  constructor
  · unfold draw_glyph
    rw [if_pos h]
  · unfold draw_cursor
    rw [if_pos h]

/-- C14 at a concrete input: column 2 of a screen of two columns. -/
theorem draw_out_of_range_ignored_witness :
    draw_glyph demo_env 2 1 0 1 0 2 0 0x110001 0 0xFFFFFF grid_with_mark
        = Res.ok grid_with_mark ∧
      draw_cursor demo_env 2 1 0 2 1 grid_with_mark = Res.ok grid_with_mark :=
  draw_out_of_range_ignored demo_env 2 1 0 1 0 2 1 0 0x110001 0 0xFFFFFF grid_with_mark
    (by decide)

/-- C15: when the rasterizer gives no surface for the code point the lookup
asks it for (the code point itself, or `?` in a build without the
supplementary planes), `get_glyph_texture_index` returns with the atlas and
the locked state exactly as they were: caches, cache sizes, row cursors and
dimensions.  The value returned is what the cache holds for the code point,
and the rasterizer is asked only when that is 0: then the lookup returns 0. -/
theorem lookup_without_surface (env : Env) (fuel ch32 attr_index : Nat)
    (st : Atlas × mt_render_state)
    (hr : env.render_glyph
      (if env.supplementary_planes = false ∧ ch32 > 0xffff then 63 else ch32) attr_index
        = none) :
    ∃ index, get_glyph_texture_index env fuel ch32 attr_index st = Res.ok (index, st) ∧
      (st.1.entry attr_index
        (if env.supplementary_planes = false ∧ ch32 > 0xffff then 63 else ch32) = 0 →
        index = 0) := by
  unfold get_glyph_texture_index
  by_cases h0 : ch32 = 0x110000 ∨ ch32 = 0
  · rw [if_pos h0]
    exact ⟨0, rfl, fun _ => rfl⟩
  · rw [if_neg h0]
    dsimp only
    generalize (if env.supplementary_planes = false ∧ ch32 > 0xffff then 63 else ch32) = ch
      at hr ⊢
    by_cases hhit : ch < (st.1.pdc_glyph_cache.getD attr_index []).length ∧
        (st.1.pdc_glyph_cache.getD attr_index []).getD ch 0 > 0
    · rw [if_pos hhit]
      refine ⟨_, rfl, ?_⟩
      intro hz
      unfold Atlas.entry at hz
      omega
    · rw [if_neg hhit, hr]
      exact ⟨0, rfl, fun _ => rfl⟩

/-- C15 at a concrete input: a rasterizer without glyphs, asked for `B`, which
the cache does not hold. -/
theorem lookup_without_surface_witness :
    ∃ index, get_glyph_texture_index no_glyph_env 0 66 0 (demo_atlas, one_line [66] [0])
        = Res.ok (index, (demo_atlas, one_line [66] [0])) ∧
      ((demo_atlas, one_line [66] [0]).1.entry 0
        (if no_glyph_env.supplementary_planes = false ∧ 66 > 0xffff then 63 else 66) = 0 →
        index = 0) :=
  lookup_without_surface no_glyph_env 0 66 0 (demo_atlas, one_line [66] [0]) rfl

/-- C16: for every style index the lookups of code point 0 and of the
full-width filler 0x110000 return 0 and leave the atlas and the locked state
as they were; the rasterizer and the allocator are not reached. -/
theorem lookup_of_empty_code_points (env : Env) (fuel attr_index : Nat)
    (st : Atlas × mt_render_state) :
    get_glyph_texture_index env fuel 0 attr_index st = Res.ok (0, st) ∧
      get_glyph_texture_index env fuel 0x110000 attr_index st = Res.ok (0, st) := by
  constructor
  · unfold get_glyph_texture_index
    rw [if_pos (Or.inr rfl)]
  · unfold get_glyph_texture_index
    rw [if_pos (Or.inl rfl)]

/-! ## The dimensions of the atlas -/

theorem first_fit_length (cap w row : Nat) (sc : List Nat) (r : Nat × List Nat)
    (h : first_fit cap w row sc = some r) : r.2.length = sc.length := by
  obtain ⟨idx, sc1⟩ := r
  obtain ⟨_, _, _, _, h4⟩ := first_fit_spec cap w sc row idx sc1 h
  show sc1.length = sc.length
  rw [h4, List.length_set]

theorem compact_entry_length (cap n old : Nat) (c : Compaction) :
    (compact_entry cap n old c).2.start_col.length = c.start_col.length := by
  unfold compact_entry
  split_ifs with h1 h2
  · rfl
  · dsimp only
    cases hf : first_fit cap (old >>> 30) 0 c.start_col with
    | none => rfl
    | some r => exact first_fit_length _ _ _ _ r hf
  · rfl

theorem compact_cache_length (cap n : Nat) : ∀ (cache : List Nat) (c : Compaction),
    (compact_cache cap n cache c).2.start_col.length = c.start_col.length := by
  intro cache
  induction cache with
  | nil => intro c; rfl
  | cons old rest ih =>
    intro c
    show (compact_cache cap n rest (compact_entry cap n old c).2).2.start_col.length = _
    rw [ih, compact_entry_length]

theorem compact_caches_length (cap n : Nat) : ∀ (caches : List (List Nat)) (c : Compaction),
    (compact_caches cap n caches c).2.start_col.length = c.start_col.length := by
  intro caches
  induction caches with
  | nil => intro c; rfl
  | cons cache rest ih =>
    intro c
    show (compact_caches cap n rest (compact_cache cap n cache c).2).2.start_col.length = _
    rw [ih, compact_cache_length]

theorem atlas_dims_init (env : Env) : atlas_dims env Atlas.init :=
  ⟨Nat.zero_le _, rfl, (Nat.zero_div _).symm, (Nat.zero_div _).symm⟩

theorem enlarge_glyph_cache_dims (env : Env) (a : Atlas) (l : mt_render_state)
    (h : atlas_dims env a) : atlas_dims env (enlarge_glyph_cache env (a, l)).1 := by
  obtain ⟨h1, h2, h3, h4⟩ := h
  obtain ⟨n1, n2, n3⟩ := new_glyph_cache_size_spec env a h1 h2
  unfold enlarge_glyph_cache
  simp only
  split_ifs with hgrow
  · refine ⟨n1, n2, rfl, ?_⟩
    show (grow_start_col _ _).length = _
    rw [grow_start_col_length]
  · refine ⟨h1, h2, h3, ?_⟩
    show (compact_caches _ _ _ _).2.start_col.length = _
    rw [compact_caches_length]
    show (List.replicate a.pdc_glyph_row_capacity 0).length = _
    rw [List.length_replicate]
    exact h4

/-- The slot `alloc_glyph_cache` returns lies inside the capacities of the
atlas it leaves. -/
theorem alloc_glyph_cache_dims (env : Env) (w : Nat) : ∀ (fuel : Nat) (a : Atlas)
    (l : mt_render_state) (idx : Nat) (a2 : Atlas) (l2 : mt_render_state), atlas_dims env a →
    alloc_glyph_cache env fuel w (a, l) = Res.ok (idx, (a2, l2)) →
    atlas_dims env a2 ∧
      ∃ c r, idx = BUILD_GLYPH_INDEX c r w ∧ c + w ≤ a2.pdc_glyph_col_capacity ∧
        r < a2.pdc_glyph_row_capacity := by
  intro fuel
  induction fuel with
  | zero =>
    intro a l idx a2 l2 hd h
    rw [alloc_glyph_cache] at h
    cases hf : first_fit a.pdc_glyph_col_capacity w 0 a.pdc_glyph_start_col with
    | none => rw [show (a, l).1 = a from rfl, hf] at h; cases h
    | some r =>
      rw [show (a, l).1 = a from rfl, hf] at h
      simp only [Res.ok.injEq, Prod.mk.injEq] at h
      obtain ⟨rfl, rfl, rfl⟩ := h
      obtain ⟨idx, sc1⟩ := r
      obtain ⟨row, f1, f2, f3, f4⟩ := first_fit_spec _ _ _ _ _ _ hf
      obtain ⟨h1, h2, h3, h4⟩ := hd
      refine ⟨⟨h1, h2, h3, ?_⟩, _, _, by rw [f3, Nat.zero_add], f2, ?_⟩
      · show sc1.length = _
        rw [f4, List.length_set]
        exact h4
      · show row < sc1.length
        rw [f4, List.length_set]
        exact f1
  | succ fuel ih =>
    intro a l idx a2 l2 hd h
    rw [alloc_glyph_cache] at h
    cases hf : first_fit a.pdc_glyph_col_capacity w 0 a.pdc_glyph_start_col with
    | none =>
      rw [show (a, l).1 = a from rfl, hf] at h
      exact ih _ _ idx a2 l2 (enlarge_glyph_cache_dims env a l hd) h
    | some r =>
      rw [show (a, l).1 = a from rfl, hf] at h
      simp only [Res.ok.injEq, Prod.mk.injEq] at h
      obtain ⟨rfl, rfl, rfl⟩ := h
      obtain ⟨idx, sc1⟩ := r
      obtain ⟨row, f1, f2, f3, f4⟩ := first_fit_spec _ _ _ _ _ _ hf
      obtain ⟨h1, h2, h3, h4⟩ := hd
      refine ⟨⟨h1, h2, h3, ?_⟩, _, _, by rw [f3, Nat.zero_add], f2, ?_⟩
      · show sc1.length = _
        rw [f4, List.length_set]
        exact h4
      · show row < sc1.length
        rw [f4, List.length_set]
        exact f1

theorem get_glyph_texture_index_dims (env : Env) (fuel ch32 attr_index : Nat) (a : Atlas)
    (l : mt_render_state) (r : Nat × (Atlas × mt_render_state)) (hd : atlas_dims env a)
    (h : get_glyph_texture_index env fuel ch32 attr_index (a, l) = Res.ok r) :
    atlas_dims env r.2.1 := by
  unfold get_glyph_texture_index at h
  by_cases h0 : ch32 = 0x110000 ∨ ch32 = 0
  · rw [if_pos h0] at h
    cases h; exact hd
  · rw [if_neg h0] at h
    dsimp only at h
    generalize (if env.supplementary_planes = false ∧ ch32 > 0xffff then 63 else ch32) = ch
      at h
    by_cases hhit : ch < (a.pdc_glyph_cache.getD attr_index []).length ∧
        (a.pdc_glyph_cache.getD attr_index []).getD ch 0 > 0
    · rw [if_pos hhit] at h
      cases h; exact hd
    · rw [if_neg hhit] at h
      cases hrg : env.render_glyph ch attr_index with
      | none => rw [hrg] at h; cases h; exact hd
      | some sw =>
        rw [hrg] at h
        dsimp only at h
        cases ha : alloc_glyph_cache env fuel ((sw + env.pdc_fwidth - 1) / env.pdc_fwidth)
          (a, l) with
        | undef => rw [ha] at h; cases h
        | fuelOut => rw [ha] at h; cases h
        | ok p =>
          obtain ⟨idx, a2, l2⟩ := p
          rw [ha] at h
          simp only [Res.bind] at h
          cases hc : cache_store (a2.pdc_glyph_cache.getD attr_index []) ch idx with
          | undef => rw [hc] at h; cases h
          | fuelOut => rw [hc] at h; cases h
          | ok cache1 =>
            rw [hc] at h
            cases h
            exact (alloc_glyph_cache_dims env _ fuel a l idx a2 l2 hd ha).1

theorem atlas_reachable_dims (env : Env) (a : Atlas) (hr : AtlasReachable env a) :
    atlas_dims env a := by
  induction hr with
  | init => exact atlas_dims_init env
  | lookup a l fuel ch32 attr r _ _ h ih =>
    exact get_glyph_texture_index_dims env fuel ch32 attr a l r ih h

theorem grow_start_col_new (sc : List Nat) (n r : Nat) (hn : sc.length ≤ n)
    (h1 : sc.length ≤ r) (h2 : r < n) :
    (grow_start_col sc n).getD r 0 = if r = 0 then 1 else 0 := by
  unfold grow_start_col
  rw [List.take_of_length_le hn, List.getD_eq_getElem?_getD, List.getElem?_append_right h1,
    List.getElem?_map, List.getElem?_range' _ _ (by omega)]
  have : sc.length + 1 * (r - sc.length) = r := by omega
  rw [this]
  rfl

/-- C17: in every atlas state the lookups reach, when `enlarge_glyph_cache`
takes the branch of a changed texture size, the cursor of every row that
existed is kept, the cursor of every new row is 0 (1 for row 0), the column
and row capacities do not decrease, the four caches and the locked state with
its cell coordinates are untouched, and hence every coordinate with
`col + advance ≤ col_capacity` and `row < row_capacity` before the call
satisfies the same after it. -/
theorem enlarge_growth_keeps_coordinates (env : Env) (a : Atlas) (locked : mt_render_state)
    (hr : AtlasReachable env a)
    (hgrow : (new_glyph_cache_size env a).1 ≠ a.pdc_glyph_cache_w ∨
      (new_glyph_cache_size env a).2 ≠ a.pdc_glyph_cache_h) :
    (∀ row, row < a.pdc_glyph_row_capacity →
        (enlarge_glyph_cache env (a, locked)).1.pdc_glyph_start_col.getD row 0
          = a.pdc_glyph_start_col.getD row 0) ∧
      (∀ row, a.pdc_glyph_row_capacity ≤ row →
        row < (enlarge_glyph_cache env (a, locked)).1.pdc_glyph_row_capacity →
        (enlarge_glyph_cache env (a, locked)).1.pdc_glyph_start_col.getD row 0
          = if row = 0 then 1 else 0) ∧
      a.pdc_glyph_col_capacity ≤ (enlarge_glyph_cache env (a, locked)).1.pdc_glyph_col_capacity ∧
      a.pdc_glyph_row_capacity ≤ (enlarge_glyph_cache env (a, locked)).1.pdc_glyph_row_capacity ∧
      (enlarge_glyph_cache env (a, locked)).1.pdc_glyph_cache = a.pdc_glyph_cache ∧
      (enlarge_glyph_cache env (a, locked)).2 = locked ∧
      (∀ col row advance, col + advance ≤ a.pdc_glyph_col_capacity →
        row < a.pdc_glyph_row_capacity →
        col + advance ≤ (enlarge_glyph_cache env (a, locked)).1.pdc_glyph_col_capacity ∧
          row < (enlarge_glyph_cache env (a, locked)).1.pdc_glyph_row_capacity) := by
  obtain ⟨h1, h2, h3, h4⟩ := atlas_reachable_dims env a hr
  obtain ⟨n1, n2, n3⟩ := new_glyph_cache_size_spec env a h1 h2
  have he : enlarge_glyph_cache env (a, locked) =
      ({ pdc_glyph_cache_w := (new_glyph_cache_size env a).1
         pdc_glyph_cache_h := (new_glyph_cache_size env a).2
         pdc_glyph_col_capacity := (new_glyph_cache_size env a).1 / env.pdc_fwidth
         pdc_glyph_start_col :=
           grow_start_col a.pdc_glyph_start_col
             ((new_glyph_cache_size env a).2 / env.pdc_fheight)
         pdc_glyph_cache := a.pdc_glyph_cache }, locked) := by
    unfold enlarge_glyph_cache
    simp only
    rw [if_pos hgrow]
  have hrows : a.pdc_glyph_start_col.length ≤
      (new_glyph_cache_size env a).2 / env.pdc_fheight := by
    have : a.pdc_glyph_start_col.length = a.pdc_glyph_cache_h / env.pdc_fheight := h4
    rw [this, h2, n2]
    exact Nat.div_le_div_right n3
  have hcols : a.pdc_glyph_col_capacity ≤ (new_glyph_cache_size env a).1 / env.pdc_fwidth := by
    rw [h3]
    exact Nat.div_le_div_right n3
  rw [he]
  unfold Atlas.pdc_glyph_row_capacity
  dsimp only
  rw [grow_start_col_length]
  refine ⟨?_, ?_, hcols, hrows, rfl, rfl, ?_⟩
  · intro row hrow
    exact grow_start_col_getD _ _ _ hrows hrow
  · intro row hrow1 hrow2
    exact grow_start_col_new _ _ _ hrows hrow1 hrow2
  · intro col row advance hc hrow
    exact ⟨le_trans hc hcols, lt_of_lt_of_le hrow hrows⟩

/-- C17 at a concrete input: the 256 x 256 atlas holding `A` grows to 512 x
512. -/
theorem enlarge_growth_keeps_coordinates_witness :
    (∀ row, row < demo_atlas.pdc_glyph_row_capacity →
        (enlarge_glyph_cache demo_env (demo_atlas, one_line [65] [0])).1.pdc_glyph_start_col.getD
            row 0
          = demo_atlas.pdc_glyph_start_col.getD row 0) ∧
      (∀ row, demo_atlas.pdc_glyph_row_capacity ≤ row →
        row < (enlarge_glyph_cache demo_env
          (demo_atlas, one_line [65] [0])).1.pdc_glyph_row_capacity →
        (enlarge_glyph_cache demo_env (demo_atlas, one_line [65] [0])).1.pdc_glyph_start_col.getD
            row 0
          = if row = 0 then 1 else 0) ∧
      demo_atlas.pdc_glyph_col_capacity ≤
        (enlarge_glyph_cache demo_env (demo_atlas, one_line [65] [0])).1.pdc_glyph_col_capacity ∧
      demo_atlas.pdc_glyph_row_capacity ≤
        (enlarge_glyph_cache demo_env (demo_atlas, one_line [65] [0])).1.pdc_glyph_row_capacity ∧
      (enlarge_glyph_cache demo_env (demo_atlas, one_line [65] [0])).1.pdc_glyph_cache
        = demo_atlas.pdc_glyph_cache ∧
      (enlarge_glyph_cache demo_env (demo_atlas, one_line [65] [0])).2 = one_line [65] [0] ∧
      (∀ col row advance, col + advance ≤ demo_atlas.pdc_glyph_col_capacity →
        row < demo_atlas.pdc_glyph_row_capacity →
        col + advance ≤
          (enlarge_glyph_cache demo_env (demo_atlas, one_line [65] [0])).1.pdc_glyph_col_capacity ∧
          row < (enlarge_glyph_cache demo_env
            (demo_atlas, one_line [65] [0])).1.pdc_glyph_row_capacity) :=
  enlarge_growth_keeps_coordinates demo_env demo_atlas (one_line [65] [0]) demo_atlas_reachable
    (by decide)

/-! ## The advance of a new glyph -/

/-- On a miss with a bitmap from the rasterizer, the index a returning lookup
gives is the one `alloc_glyph_cache` handed out for `ceil(surf->w /
pdc_fwidth)` columns. -/
theorem lookup_miss_alloc (env : Env) (fuel ch32 attr_index sw : Nat) (a : Atlas)
    (l : mt_render_state) (r : Nat × (Atlas × mt_render_state))
    (h0 : ch32 ≠ 0x110000 ∧ ch32 ≠ 0)
    (hmiss : a.entry attr_index
      (if env.supplementary_planes = false ∧ ch32 > 0xffff then 63 else ch32) = 0)
    (hrg : env.render_glyph
      (if env.supplementary_planes = false ∧ ch32 > 0xffff then 63 else ch32) attr_index
        = some sw)
    (h : get_glyph_texture_index env fuel ch32 attr_index (a, l) = Res.ok r) :
    ∃ a2 l2, alloc_glyph_cache env fuel ((sw + env.pdc_fwidth - 1) / env.pdc_fwidth) (a, l)
      = Res.ok (r.1, (a2, l2)) := by
  unfold get_glyph_texture_index at h
  rw [if_neg (fun h => h.elim h0.1 h0.2)] at h
  dsimp only at h
  generalize (if env.supplementary_planes = false ∧ ch32 > 0xffff then 63 else ch32) = ch
    at h hmiss hrg
  have hhit : ¬ (ch < (a.pdc_glyph_cache.getD attr_index []).length ∧
      (a.pdc_glyph_cache.getD attr_index []).getD ch 0 > 0) := by
    rintro ⟨_, hpos⟩
    unfold Atlas.entry at hmiss
    omega
  rw [if_neg hhit, hrg] at h
  dsimp only at h
  cases ha : alloc_glyph_cache env fuel ((sw + env.pdc_fwidth - 1) / env.pdc_fwidth) (a, l) with
  | undef => rw [ha] at h; cases h
  | fuelOut => rw [ha] at h; cases h
  | ok p =>
    obtain ⟨idx, a2, l2⟩ := p
    rw [ha] at h
    simp only [Res.bind] at h
    cases hc : cache_store (a2.pdc_glyph_cache.getD attr_index []) ch idx with
    | undef => rw [hc] at h; cases h
    | fuelOut => rw [hc] at h; cases h
    | ok cache1 =>
      rw [hc] at h
      cases h
      exact ⟨a2, l2, rfl⟩

theorem ceil_one_or_two (sw fw : Nat) (hsw : 1 ≤ sw) (hsw2 : sw ≤ 2 * fw) :
    ((sw + fw - 1) / fw = 1 ∨ (sw + fw - 1) / fw = 2) ∧
      sw ≤ (sw + fw - 1) / fw * fw ∧ ((sw + fw - 1) / fw - 1) * fw < sw := by
  by_cases h : sw ≤ fw
  · have e : (sw + fw - 1) / fw = 1 := by
      apply Nat.div_eq_of_lt_le
      · omega
      · omega
    rw [e]
    omega
  · have e : (sw + fw - 1) / fw = 2 := by
      apply Nat.div_eq_of_lt_le
      · omega
      · omega
    rw [e]
    omega

/-- C18, amended: with a GPU texture limit of at most 32768 and an atlas state
the lookups reach, when the rasterizer is asked (a miss) and gives a bitmap of
width `sw` with `1 ≤ sw ≤ 2 * pdc_fwidth` (so the cell width is at least 1), the
coordinate a returning `get_glyph_texture_index` gives has in its advance
field (`coordinate >> 30`) the value `(sw + pdc_fwidth - 1) / pdc_fwidth`,
which is 1 or 2 and is the rounded-up quotient of `sw` by `pdc_fwidth`. -/
theorem lookup_advance_one_or_two (env : Env) (fuel ch32 attr_index sw : Nat) (a : Atlas)
    (locked : mt_render_state) (r : Nat × (Atlas × mt_render_state))
    (hsw : 1 ≤ sw) (hsw2 : sw ≤ 2 * env.pdc_fwidth)
    (hM : env.max_texture_size ≤ 32768) (hreach : AtlasReachable env a)
    (h0 : ch32 ≠ 0x110000 ∧ ch32 ≠ 0)
    (hmiss : a.entry attr_index
      (if env.supplementary_planes = false ∧ ch32 > 0xffff then 63 else ch32) = 0)
    (hrg : env.render_glyph
      (if env.supplementary_planes = false ∧ ch32 > 0xffff then 63 else ch32) attr_index
        = some sw)
    (h : get_glyph_texture_index env fuel ch32 attr_index (a, locked) = Res.ok r) :
    glyph_advance r.1 = (sw + env.pdc_fwidth - 1) / env.pdc_fwidth ∧
      (glyph_advance r.1 = 1 ∨ glyph_advance r.1 = 2) ∧
      sw ≤ glyph_advance r.1 * env.pdc_fwidth ∧
      (glyph_advance r.1 - 1) * env.pdc_fwidth < sw := by
  obtain ⟨a2, l2, ha⟩ := lookup_miss_alloc env fuel ch32 attr_index sw a locked r h0 hmiss hrg h
  obtain ⟨⟨d1, d2, d3, d4⟩, c, row, hidx, hc, hrow⟩ :=
    alloc_glyph_cache_dims env _ fuel a locked r.1 a2 l2 (atlas_reachable_dims env a hreach) ha
  obtain ⟨w12, wle, wlt⟩ := ceil_one_or_two sw env.pdc_fwidth hsw hsw2
  have hcap : a2.pdc_glyph_col_capacity ≤ 32768 := by
    rw [d3]
    exact le_trans (Nat.div_le_self _ _) (le_trans d1 hM)
  have hrows : a2.pdc_glyph_row_capacity ≤ 32768 := by
    rw [d4, d2]
    exact le_trans (Nat.div_le_self _ _) (le_trans d1 hM)
  have hadv : glyph_advance r.1 = (sw + env.pdc_fwidth - 1) / env.pdc_fwidth := by
    have hw4 : (sw + env.pdc_fwidth - 1) / env.pdc_fwidth < 4 := by omega
    have hc15 : c < 32768 := by omega
    have hr15 : row < 32768 := by omega
    exact (glyph_fields r.1 c row _ hc15 hr15
      (hidx.trans (BUILD_GLYPH_INDEX_eq c row _ hc15 hr15 hw4))).2.2
  rw [hadv]
  exact ⟨rfl, w12, wle, wlt⟩

/-- C18 at a concrete input: the first lookup of `A`, a bitmap of 8 texels
with a cell of 8 texels. -/
theorem lookup_advance_one_or_two_witness :
    glyph_advance (BUILD_GLYPH_INDEX 1 0 1, (demo_atlas, one_line [65] [0])).1
        = (8 + demo_env.pdc_fwidth - 1) / demo_env.pdc_fwidth ∧
      (glyph_advance (BUILD_GLYPH_INDEX 1 0 1, (demo_atlas, one_line [65] [0])).1 = 1 ∨
        glyph_advance (BUILD_GLYPH_INDEX 1 0 1, (demo_atlas, one_line [65] [0])).1 = 2) ∧
      8 ≤ glyph_advance (BUILD_GLYPH_INDEX 1 0 1, (demo_atlas, one_line [65] [0])).1
        * demo_env.pdc_fwidth ∧
      (glyph_advance (BUILD_GLYPH_INDEX 1 0 1, (demo_atlas, one_line [65] [0])).1 - 1)
        * demo_env.pdc_fwidth < 8 :=
  lookup_advance_one_or_two demo_env 1 65 0 8 Atlas.init (one_line [65] [0])
    (BUILD_GLYPH_INDEX 1 0 1, (demo_atlas, one_line [65] [0])) (by decide) (by decide)
    (by decide) AtlasReachable.init (by decide) rfl rfl (by decide)

/-- C18, the counterexample: a bitmap of 32 texels with a cell of 8 texels
takes four columns.  `BUILD_GLYPH_INDEX` keeps the low two bits of the
advance, so the coordinate returned for `A` is 1: its advance field is 0, not
the rounded-up quotient 4 and neither 1 nor 2. -/
theorem lookup_advance_of_four_cells :
    get_glyph_texture_index broad_env 1 65 0 (Atlas.init, mt_render_state.init)
        = Res.ok (1, (broad_atlas, mt_render_state.init)) ∧
      broad_env.render_glyph 65 0 = some 32 ∧
      (32 + broad_env.pdc_fwidth - 1) / broad_env.pdc_fwidth = 4 ∧
      glyph_advance 1 = 0 := by
  decide

/-! ## The packed coordinate -/

/-- C19: for `col < 2^15`, `row < 2^15` and `w < 4` the value
`v = BUILD_GLYPH_INDEX(col, row, w)` fits 32 bits and decodes to the triple
again, `v & 0x7FFF = col`, `(v >> 15) & 0x7FFF = row`, `v >> 30 = w`, and `v`
is 0 exactly when `col`, `row` and `w` are all 0. -/
theorem BUILD_GLYPH_INDEX_decodes (col row w : Nat) (hc : col < 2 ^ 15) (hr : row < 2 ^ 15)
    (hw : w < 4) :
    BUILD_GLYPH_INDEX col row w < 2 ^ 32 ∧
      BUILD_GLYPH_INDEX col row w &&& 0x7FFF = col ∧
      (BUILD_GLYPH_INDEX col row w >>> 15) &&& 0x7FFF = row ∧
      BUILD_GLYPH_INDEX col row w >>> 30 = w ∧
      (BUILD_GLYPH_INDEX col row w = 0 ↔ col = 0 ∧ row = 0 ∧ w = 0) := by
  have hc1 : col < 32768 := hc
  have hr1 : row < 32768 := hr
  have he := BUILD_GLYPH_INDEX_eq col row w hc1 hr1 hw
  obtain ⟨f1, f2, f3⟩ := glyph_fields _ col row w hc1 hr1 he
  refine ⟨?_, f1, f2, f3, ?_⟩
  · rw [he]
    show col + row * 32768 + w * 1073741824 < 4294967296
    omega
  · rw [he]
    omega

/-- C19 at a concrete input: the last column and row with advance 3, the
largest value of each field. -/
theorem BUILD_GLYPH_INDEX_decodes_witness :
    BUILD_GLYPH_INDEX 32767 32767 3 < 2 ^ 32 ∧
      BUILD_GLYPH_INDEX 32767 32767 3 &&& 0x7FFF = 32767 ∧
      (BUILD_GLYPH_INDEX 32767 32767 3 >>> 15) &&& 0x7FFF = 32767 ∧
      BUILD_GLYPH_INDEX 32767 32767 3 >>> 30 = 3 ∧
      (BUILD_GLYPH_INDEX 32767 32767 3 = 0 ↔ 32767 = 0 ∧ 32767 = 0 ∧ 3 = 0) :=
  BUILD_GLYPH_INDEX_decodes 32767 32767 3 (by decide) (by decide) (by decide)

/-! ## PDC_transform_line -/

theorem transform_loop_spec (mask : Nat) (lineno : Int) : ∀ (k i old_attr : Nat) (x : Int)
    (srcp : List Nat), 1 ≤ i → i + k ≤ srcp.length →
    (∀ j, j < i → srcp.getD j 0 &&& mask = old_attr) →
    consecutive x srcp (transform_loop mask lineno k i old_attr x srcp) ∧
      ((transform_loop mask lineno k i old_attr x srcp).map Packet.len).sum = i + k ∧
      (∀ p ∈ transform_loop mask lineno k i old_attr x srcp,
        p.lineno = lineno ∧ p.len ≤ p.srcp.length ∧
          ∀ j, j < p.len → p.srcp.getD j 0 &&& mask = p.attr) ∧
      List.Chain' (fun p q => p.attr ≠ q.attr) (transform_loop mask lineno k i old_attr x srcp) ∧
      ∃ p rest, transform_loop mask lineno k i old_attr x srcp = p :: rest ∧
        p.attr = old_attr := by
  intro k
  induction k with
  | zero =>
    intro i old_attr x srcp hi hb hrun
    rw [transform_loop]
    refine ⟨⟨rfl, rfl, hi, trivial⟩, by simp, ?_, List.chain'_singleton _, _, _, rfl, rfl⟩
    intro p hp
    rw [List.mem_singleton] at hp
    subst hp
    exact ⟨rfl, by show i ≤ srcp.length; omega, hrun⟩
  | succ k ih =>
    intro i old_attr x srcp hi hb hrun
    rw [transform_loop]
    by_cases hne : srcp.getD i 0 &&& mask ≠ old_attr
    · rw [if_pos hne]
      have hfirst : ∀ j, j < 0 + 1 → (srcp.drop i).getD j 0 &&& mask = srcp.getD i 0 &&& mask := by
        intro j hj
        have : j = 0 := by omega
        subst this
        rw [List.getD_eq_getElem?_getD, List.getD_eq_getElem?_getD, List.getElem?_drop]
        rfl
      obtain ⟨c1, c2, c3, c4, p1, rest, c5, c6⟩ :=
        ih (0 + 1) (srcp.getD i 0 &&& mask) (x + i) (srcp.drop i) (by omega)
          (by rw [List.length_drop]; omega) hfirst
      refine ⟨⟨rfl, rfl, hi, c1⟩, ?_, ?_, ?_, _, _, rfl, rfl⟩
      · rw [List.map_cons, List.sum_cons, c2]
        show i + (0 + 1 + k) = i + (k + 1)
        omega
      · intro p hp
        rw [List.mem_cons] at hp
        rcases hp with hp | hp
        · subst hp
          exact ⟨rfl, by show i ≤ srcp.length; omega, hrun⟩
        · exact c3 p hp
      · rw [c5]
        rw [c5] at c4
        refine List.Chain'.cons ?_ c4
        show old_attr ≠ p1.attr
        rw [c6]
        exact fun h => hne h.symm
    · rw [if_neg hne]
      have hrun1 : ∀ j, j < i + 1 → srcp.getD j 0 &&& mask = old_attr := by
        intro j hj
        by_cases hji : j = i
        · subst hji
          exact not_not.mp hne
        · exact hrun j (by omega)
      obtain ⟨c1, c2, c3, c4, c5⟩ := ih (i + 1) old_attr x srcp (by omega) (by omega) hrun1
      exact ⟨c1, by rw [c2]; omega, c3, c4, c5⟩

/-- C20: for `len ≥ 1` and an array of at least `len` cells,
`PDC_transform_line` calls `_new_packet` at least once, all calls on line
`lineno`; the segments follow one another without gap or overlap from column
`x` and from `srcp` on, each at least one cell long and inside the array;
their lengths add up to `len`; every cell of a packet has the packet's
attribute word (the cell masked with `A_ATTRIBUTES ^ A_ALTCHARSET`); and two
packets in a row have different attribute words, so the packets are the
maximal runs. -/
theorem transform_line_maximal_runs (mask : Nat) (lineno x : Int) (len : Nat) (srcp : List Nat)
    (hlen : 1 ≤ len) (hsrc : len ≤ srcp.length) :
    PDC_transform_line mask lineno x len srcp ≠ [] ∧
      consecutive x srcp (PDC_transform_line mask lineno x len srcp) ∧
      ((PDC_transform_line mask lineno x len srcp).map Packet.len).sum = len ∧
      (∀ p ∈ PDC_transform_line mask lineno x len srcp,
        p.lineno = lineno ∧ p.len ≤ p.srcp.length ∧
          ∀ j, j < p.len → p.srcp.getD j 0 &&& mask = p.attr) ∧
      List.Chain' (fun p q => p.attr ≠ q.attr) (PDC_transform_line mask lineno x len srcp) := by
  unfold PDC_transform_line
  obtain ⟨c1, c2, c3, c4, p, rest, c5, _⟩ :=
    transform_loop_spec mask lineno (len - 1) 1 (srcp.getD 0 0 &&& mask) x srcp (le_refl _)
      (by omega)
      (by
        intro j hj
        have : j = 0 := by omega
        subst this
        rfl)
  refine ⟨by rw [c5]; exact List.cons_ne_nil _ _, c1, ?_, c3, c4⟩
  rw [c2]
  omega

/-- C20 at a concrete input: four cells, two runs of two, written from
column 3 of line 0. -/
theorem transform_line_maximal_runs_witness :
    PDC_transform_line 0xFFFF0000 0 3 4 demo_cells ≠ [] ∧
      consecutive 3 demo_cells (PDC_transform_line 0xFFFF0000 0 3 4 demo_cells) ∧
      ((PDC_transform_line 0xFFFF0000 0 3 4 demo_cells).map Packet.len).sum = 4 ∧
      (∀ p ∈ PDC_transform_line 0xFFFF0000 0 3 4 demo_cells,
        p.lineno = 0 ∧ p.len ≤ p.srcp.length ∧
          ∀ j, j < p.len → p.srcp.getD j 0 &&& 0xFFFF0000 = p.attr) ∧
      List.Chain' (fun p q => p.attr ≠ q.attr)
        (PDC_transform_line 0xFFFF0000 0 3 4 demo_cells) :=
  transform_line_maximal_runs 0xFFFF0000 0 3 4 demo_cells (by decide) (by decide)

/-- The two calls `PDC_transform_line` makes for the four cells of
`demo_cells`. -/
theorem transform_line_demo :
    PDC_transform_line 0xFFFF0000 0 3 4 demo_cells =
      [{ attr := 0x10000, lineno := 0, x := 3, len := 2, srcp := demo_cells },
       { attr := 0x20000, lineno := 0, x := 5, len := 2, srcp := [0x20043, 0x20044] }] := by
  decide

/-! ## Runs of cells: _new_packet -/

theorem getD_store {α : Type} (p : Option (List α)) (i j : Nat) (v d : α) :
    ((store p i v).getD []).getD j d =
      if j = i ∧ i < (p.getD []).length then v else (p.getD []).getD j d := by
  cases p with
  | none =>
    have h : ¬ (j = i ∧ i < ((none : Option (List α)).getD []).length) := by
      rintro ⟨_, h⟩; exact Nat.not_lt_zero _ h
    rw [if_neg h]; rfl
  | some a =>
    show (a.set i v).getD j d = if j = i ∧ i < a.length then v else a.getD j d
    rw [List.getD_eq_getElem?_getD, List.getD_eq_getElem?_getD, List.getElem?_set]
    by_cases hji : j = i
    · subst hji
      by_cases hlt : j < a.length
      · rw [if_pos rfl, if_pos hlt, if_pos ⟨rfl, hlt⟩]; rfl
      · rw [if_pos rfl, if_neg hlt, if_neg (fun h => hlt h.2),
          List.getElem?_eq_none (by omega)]
    · rw [if_neg (fun h => hji h.symm), if_neg (fun h => hji h.1)]

theorem cell_index_lt (cols lines x y : Nat) (hx : x < cols) (hy : y < lines) :
    x + y * cols < cols * lines := by
  calc x + y * cols < cols + y * cols := by omega
    _ = cols * (y + 1) := by ring
    _ ≤ cols * lines := Nat.mul_le_mul_left _ hy

theorem packet_char_blink (cu : Curses) (ch : Nat) (h1 : cu.is_altcharset 32 = false)
    (h2 : 32 &&& cu.A_CHARTEXT = 32) : packet_char cu true ch = 32 := by
  unfold packet_char
  simp only [if_true, h1, Bool.false_eq_true, if_false, h2]
  rfl

/-- The two results of `_new_packet` for the blinking cells `Z` and `Y`: the
base words are two spaces with `blinked_off` set and `Z`, `Y` with it clear,
and the colour records are the same. -/
theorem new_packet_blink_demo :
    _new_packet demo_env demo_curses 2 1 0 true 0x700020000000 0 0 2 blink_cells
        (Pen.mk (-2) (-2) 0, blank_line_grid)
      = Res.ok (Pen.mk 7 0 0,
          { color_grid := some [color_data.mk 0 0x070707, color_data.mk 0 0x070707]
            glyph_grid_layers :=
              [{ occupancy := 0, glyph_grid := none, codepoint_attr := some [32, 32] }]
            grid_w := 2
            grid_h := 1 }) ∧
    _new_packet demo_env demo_curses 2 1 0 false 0x700020000000 0 0 2 blink_cells
        (Pen.mk (-2) (-2) 0, blank_line_grid)
      = Res.ok (Pen.mk 7 0 0,
          { color_grid := some [color_data.mk 0 0x070707, color_data.mk 0 0x070707]
            glyph_grid_layers :=
              [{ occupancy := 0, glyph_grid := none, codepoint_attr := some [90, 89] }]
            grid_w := 2
            grid_h := 1 }) := by
  decide

/-- The same two calls in single-threaded mode, on the same grid with the
`glyph_grid` array of that mode: the base words are two spaces and `Z`, `Y`,
the colour records are the same. -/
theorem new_packet_blink_single_threaded :
    _new_packet demo_env_st demo_curses 2 1 0 true 0x700020000000 0 0 2 blink_cells
        (Pen.mk (-2) (-2) 0,
          { color_grid := some [color_data.mk 0 0, color_data.mk 0 0]
            glyph_grid_layers :=
              [{ occupancy := 0, glyph_grid := some [0, 0], codepoint_attr := some [0, 0] }]
            grid_w := 2
            grid_h := 1 })
      = Res.ok (Pen.mk 7 0 0,
          { color_grid := some [color_data.mk 0 0x070707, color_data.mk 0 0x070707]
            glyph_grid_layers :=
              [{ occupancy := 0, glyph_grid := some [0, 0], codepoint_attr := some [32, 32] }]
            grid_w := 2
            grid_h := 1 }) ∧
    _new_packet demo_env_st demo_curses 2 1 0 false 0x700020000000 0 0 2 blink_cells
        (Pen.mk (-2) (-2) 0,
          { color_grid := some [color_data.mk 0 0, color_data.mk 0 0]
            glyph_grid_layers :=
              [{ occupancy := 0, glyph_grid := some [0, 0], codepoint_attr := some [0, 0] }]
            grid_w := 2
            grid_h := 1 })
      = Res.ok (Pen.mk 7 0 0,
          { color_grid := some [color_data.mk 0 0x070707, color_data.mk 0 0x070707]
            glyph_grid_layers :=
              [{ occupancy := 0, glyph_grid := some [0, 0], codepoint_attr := some [90, 89] }]
            grid_w := 2
            grid_h := 1 }) := by
  decide

/-- A blinking run with a combined code in single-threaded mode, on a grid of
the size of the screen: with `blinked_off` clear the base word is the base
character `e` (101) and the mark goes to layer 1; with `blinked_off` set the
base word is the space and layer 1 stays empty.  The colour records are the
same. -/
theorem new_packet_blink_combined :
    _new_packet demo_env_st demo_curses 1 1 1 false 0x700020000000 0 0 1 [0x700020110001]
        (Pen.mk (-2) (-2) 0,
          { color_grid := some [color_data.mk 0 0]
            glyph_grid_layers :=
              [{ occupancy := 0, glyph_grid := some [0], codepoint_attr := some [0] }]
            grid_w := 1
            grid_h := 1 })
      = Res.ok (Pen.mk 7 0 0,
          { color_grid := some [color_data.mk 0 0x070707]
            glyph_grid_layers :=
              [{ occupancy := 0, glyph_grid := some [0], codepoint_attr := some [101] },
               { occupancy := 1, glyph_grid := some [0xA5A50000], codepoint_attr := some [769] }]
            grid_w := 1
            grid_h := 1 }) ∧
    _new_packet demo_env_st demo_curses 1 1 1 true 0x700020000000 0 0 1 [0x700020110001]
        (Pen.mk (-2) (-2) 0,
          { color_grid := some [color_data.mk 0 0]
            glyph_grid_layers :=
              [{ occupancy := 0, glyph_grid := some [0], codepoint_attr := some [0] }]
            grid_w := 1
            grid_h := 1 })
      = Res.ok (Pen.mk 7 0 0,
          { color_grid := some [color_data.mk 0 0x070707]
            glyph_grid_layers :=
              [{ occupancy := 0, glyph_grid := some [0], codepoint_attr := some [32] }]
            grid_w := 1
            grid_h := 1 }) := by
  decide

/-! ## The colour grid under draw_glyph and draw_cursor -/

theorem ensure_layers_length (env : Env) (cols lines gw gh : Nat) :
    ∀ (ls ls1 : List glyph_grid_layer), ensure_layers env cols lines gw gh ls = Res.ok ls1 →
      ls1.length = ls.length := by
  intro ls
  induction ls with
  | nil => intro ls1 h; cases h; rfl
  | cons l rest ih =>
    intro ls1 h
    rw [ensure_layers] at h
    cases h1 : ensure_layer env cols lines gw gh l with
    | undef => rw [h1] at h; cases h
    | fuelOut => rw [h1] at h; cases h
    | ok l1 =>
      rw [h1] at h
      simp only [Res.bind] at h
      cases h2 : ensure_layers env cols lines gw gh rest with
      | undef => rw [h2] at h; cases h
      | fuelOut => rw [h2] at h; cases h
      | ok rest1 =>
        rw [h2] at h
        cases h
        show rest1.length + 1 = rest.length + 1
        rw [ih rest1 h2]

theorem extend_layers_length (ls : List glyph_grid_layer) (k : Nat) :
    k ≤ (extend_layers ls k).length ∧ ls.length ≤ (extend_layers ls k).length := by
  unfold extend_layers
  split_ifs with h
  · rw [List.length_append, List.length_replicate]
    omega
  · omega

/-- Whatever the threading mode, a returning `ensure_glyph_grid` leaves a grid
of the size of the screen with at least `min_layers` layers, whose colour grid
has that size and holds the old record of every cell that existed. -/
theorem ensure_glyph_grid_colors (env : Env) (cols lines min_layers : Nat) (g g1 : Grid)
    (hc : holds g.color_grid (g.grid_w * g.grid_h))
    (h : ensure_glyph_grid env cols lines min_layers g = Res.ok g1) :
    g1.grid_w = cols ∧ g1.grid_h = lines ∧ min_layers ≤ g1.grid_layers ∧
      holds g1.color_grid (g1.grid_w * g1.grid_h) ∧
      (∀ x y, x < cols → y < lines →
        g1.color x y = if x < g.grid_w ∧ y < g.grid_h then g.color x y else color_data.mk 0 0) := by
  unfold ensure_glyph_grid at h
  by_cases hguard : cols ≠ g.grid_w ∨ lines ≠ g.grid_h ∨ g.grid_layers < min_layers
  · rw [if_pos hguard] at h
    dsimp only at h
    cases hl : ensure_layers env cols lines g.grid_w g.grid_h
        (extend_layers g.glyph_grid_layers min_layers) with
    | undef => rw [hl] at h; cases h
    | fuelOut => rw [hl] at h; cases h
    | ok layers =>
      rw [hl] at h
      simp only [Res.bind, Res.ok.injEq] at h
      subst h
      have hlen := ensure_layers_length env cols lines g.grid_w g.grid_h _ _ hl
      refine ⟨rfl, rfl, ?_, ?_, ?_⟩
      · show min_layers ≤ layers.length
        rw [hlen]
        exact (extend_layers_length _ _).1
      · show (resize_rows _ _ _ _ _ _ _ _).length = cols * lines
        rw [resized_rows_length _ cols lines g.grid_w g.grid_h g.color_grid (holds_le _ _ hc) _
          (malloc_length _ _), Nat.mul_comm]
      · intro x y hx hy
        show (resize_rows _ _ _ _ _ _ _ _).getD (x + y * cols) (color_data.mk 0 0) = _
        rw [resized_rows_getD _ cols lines g.grid_w g.grid_h g.color_grid (holds_le _ _ hc) _
          (malloc_length _ _) x y hx hy]
        rfl
  · rw [if_neg hguard] at h
    cases h
    have h1 : cols = g.grid_w := by
      by_contra hne; exact hguard (Or.inl hne)
    have h2 : lines = g.grid_h := by
      by_contra hne; exact hguard (Or.inr (Or.inl hne))
    refine ⟨h1.symm, h2.symm, by omega, hc, ?_⟩
    intro x y hx hy
    rw [if_pos ⟨by omega, by omega⟩]

theorem set_cell_length (layers : List glyph_grid_layer) (layer i v : Nat) (f : Nat → Nat) :
    (set_cell layers layer i v f).length = layers.length := by
  unfold set_cell
  rw [List.length_modify]

theorem clear_upper_layers_length (i : Nat) (layers : List glyph_grid_layer) :
    (clear_upper_layers i layers).length = layers.length := by
  cases layers with
  | nil => rfl
  | cons base upper =>
    show (List.map _ upper).length + 1 = upper.length + 1
    rw [List.length_map]

/-- The loop over the combining characters leaves size and colour grid alone
and removes no layer. -/
theorem combine_loop_colors (env : Env) (cols lines cache_attr_index i : Nat) :
    ∀ (fuel layer ch32 : Nat) (g : Grid) (r : Nat × Grid),
    g.grid_w = cols → g.grid_h = lines → holds g.color_grid (g.grid_w * g.grid_h) →
    combine_loop env cols lines cache_attr_index i fuel layer ch32 g = Res.ok r →
    r.2.grid_w = cols ∧ r.2.grid_h = lines ∧ g.grid_layers ≤ r.2.grid_layers ∧
      holds r.2.color_grid (r.2.grid_w * r.2.grid_h) ∧
      (∀ x y, x < cols → y < lines → r.2.color x y = g.color x y) := by
  intro fuel
  induction fuel with
  | zero =>
    intro layer ch32 g r hw hh hc h
    rw [combine_loop] at h
    split_ifs at h with h0
    cases h
    exact ⟨hw, hh, le_refl _, hc, fun _ _ _ _ => rfl⟩
  | succ fuel ih =>
    intro layer ch32 g r hw hh hc h
    rw [combine_loop] at h
    by_cases h0 : ch32 > 0x110000
    · rw [if_pos h0] at h
      dsimp only at h
      cases he : ensure_glyph_grid env cols lines (layer + 1 + 1) g with
      | undef => rw [he] at h; cases h
      | fuelOut => rw [he] at h; cases h
      | ok g1 =>
        rw [he] at h
        simp only [Res.bind] at h
        obtain ⟨e1, e2, e3, e4, e5⟩ := ensure_glyph_grid_colors env cols lines _ g g1 hc he
        have hge : g.grid_layers ≤ g1.grid_layers := by
          unfold ensure_glyph_grid at he
          by_cases hguard : cols ≠ g.grid_w ∨ lines ≠ g.grid_h ∨ g.grid_layers < layer + 1 + 1
          · rcases hguard with hg | hg | hg
            · exact absurd hw.symm hg
            · exact absurd hh.symm hg
            · omega
          · rw [if_neg hguard] at he
            cases he
            exact le_refl _
        obtain ⟨i1, i2, i3, i4, i5⟩ :=
          ih (layer + 1) (env.expand_combined ch32).1
            { color_grid := g1.color_grid
              glyph_grid_layers :=
                set_cell g1.glyph_grid_layers (layer + 1) i
                  (((env.expand_combined ch32).2 ||| cache_attr_index <<< 30) % 2 ^ 32)
                  fun o => (o + 1) % 2 ^ 32
              grid_w := g1.grid_w
              grid_h := g1.grid_h } r e1 e2 e4 h
        refine ⟨i1, i2, ?_, i4, ?_⟩
        · have : g1.grid_layers ≤ r.2.grid_layers := by
            refine le_trans (le_of_eq ?_) i3
            exact (set_cell_length g1.glyph_grid_layers (layer + 1) i
              (((env.expand_combined ch32).2 ||| cache_attr_index <<< 30) % 2 ^ 32)
              fun o => (o + 1) % 2 ^ 32).symm
          omega
        · intro x y hx hy
          rw [i5 x y hx hy]
          show g1.color x y = g.color x y
          rw [e5 x y hx hy, if_pos ⟨by omega, by omega⟩]
    · rw [if_neg h0] at h
      cases h
      exact ⟨hw, hh, le_refl _, hc, fun _ _ _ _ => rfl⟩

/-- The colour grid a returning `draw_glyph` leaves, for every code point and
threading mode: the grid has the size of the screen and at least one layer,
the cell drawn holds the new record, and every other cell the record it had,
zero if it did not exist. -/
theorem draw_glyph_colors (env : Env) (cols lines cache_attr_index fuel x y : Nat)
    (attr ch32 background foreground : Nat) (g g1 : Grid) (hx : x < cols) (hy : y < lines)
    (hc : holds g.color_grid (g.grid_w * g.grid_h))
    (h : draw_glyph env cols lines cache_attr_index fuel y x attr ch32 background foreground g
      = Res.ok g1) :
    g1.grid_w = cols ∧ g1.grid_h = lines ∧ 1 ≤ g1.grid_layers ∧
      holds g1.color_grid (g1.grid_w * g1.grid_h) ∧
      (∀ x1 y1, x1 < cols → y1 < lines →
        g1.color x1 y1 =
          if x1 = x ∧ y1 = y then
            { bg_color := background
              fg_color := (foreground ||| (gl_attrs env attr <<< 24)) % 2 ^ 32 }
          else if x1 < g.grid_w ∧ y1 < g.grid_h then g.color x1 y1 else color_data.mk 0 0) := by
  unfold draw_glyph at h
  have hin : ¬ ((y : Int) < 0 ∨ (y : Int) ≥ lines ∨ (x : Int) < 0 ∨ (x : Int) ≥ cols) := by
    omega
  have hi : ((x : Int) + (y : Int) * (cols : Int)).toNat = x + y * cols := by
    have : (x : Int) + (y : Int) * (cols : Int) = ((x + y * cols : Nat) : Int) := by
      push_cast; ring
    rw [this, Int.toNat_ofNat]
  rw [if_neg hin, hi] at h
  dsimp only at h
  cases he : ensure_glyph_grid env cols lines 1 g with
  | undef => rw [he] at h; cases h
  | fuelOut => rw [he] at h; cases h
  | ok ga =>
    rw [he] at h
    simp only [Res.bind] at h
    obtain ⟨e1, e2, e3, e4, e5⟩ := ensure_glyph_grid_colors env cols lines 1 g ga hc he
    cases hcl : combine_loop env cols lines cache_attr_index (x + y * cols) fuel 0 ch32
        { color_grid := store ga.color_grid (x + y * cols)
            { bg_color := background
              fg_color := (foreground ||| (gl_attrs env attr <<< 24)) % 2 ^ 32 }
          glyph_grid_layers := clear_upper_layers (x + y * cols) ga.glyph_grid_layers
          grid_w := ga.grid_w
          grid_h := ga.grid_h } with
    | undef => rw [hcl] at h; cases h
    | fuelOut => rw [hcl] at h; cases h
    | ok r =>
      rw [hcl] at h
      simp only [Res.ok.injEq] at h
      subst h
      obtain ⟨c1, c2, c3, c4, c5⟩ :=
        combine_loop_colors env cols lines cache_attr_index (x + y * cols) fuel 0 ch32
          { color_grid := store ga.color_grid (x + y * cols)
              { bg_color := background
                fg_color := (foreground ||| (gl_attrs env attr <<< 24)) % 2 ^ 32 }
            glyph_grid_layers := clear_upper_layers (x + y * cols) ga.glyph_grid_layers
            grid_w := ga.grid_w
            grid_h := ga.grid_h } r e1 e2 (holds_store _ _ _ _ e4) hcl
      have hga : (ga.color_grid.getD []).length = cols * lines := by
        have := e4
        rw [e1, e2] at this
        cases hcg : ga.color_grid with
        | none =>
          rw [hcg] at this
          have h0 : cols * lines = 0 := this
          show (0 : Nat) = cols * lines
          omega
        | some a =>
          rw [hcg] at this
          exact this
      refine ⟨c1, c2, ?_, c4, ?_⟩
      · show 1 ≤ (set_cell r.2.glyph_grid_layers 0 (x + y * cols)
          ((r.1 ||| cache_attr_index <<< 30) % 2 ^ 32) fun o => o).length
        rw [set_cell_length]
        have : 1 ≤ (clear_upper_layers (x + y * cols) ga.glyph_grid_layers).length := by
          rw [clear_upper_layers_length]
          exact e3
        exact le_trans this c3
      · intro x1 y1 hx1 hy1
        show r.2.color x1 y1 = _
        rw [c5 x1 y1 hx1 hy1]
        unfold Grid.color
        rw [getD_store, e1]
        by_cases hcell : x1 = x ∧ y1 = y
        · obtain ⟨rfl, rfl⟩ := hcell
          rw [if_pos ⟨rfl, by rw [hga]; exact cell_index_lt cols lines x1 y1 hx hy⟩,
            if_pos ⟨rfl, rfl⟩]
        · rw [if_neg hcell, if_neg]
          · have := e5 x1 y1 hx1 hy1
            unfold Grid.color at this
            rw [e1] at this
            exact this
          · rintro ⟨hidx, _⟩
            exact hcell (cell_index_inj cols x y x1 y1 hx hx1 hidx)

/-! ## The cursor bits -/

theorem getD_modify {α : Type} (a : List α) (f : α → α) (i j : Nat) (d : α) :
    (a.modify f i).getD j d = if j = i ∧ i < a.length then f (a.getD i d) else a.getD j d := by
  rw [List.getD_eq_getElem?_getD, List.getElem?_modify]
  by_cases hji : j = i
  · subst hji
    by_cases hlt : j < a.length
    · rw [if_pos ⟨rfl, hlt⟩, List.getElem?_eq_getElem hlt, List.getD_eq_getElem a d hlt]
      simp
    · rw [if_neg (fun h => hlt h.2), List.getElem?_eq_none (by omega),
        List.getD_eq_default _ _ (by omega)]
      rfl
  · rw [if_neg (fun h => hji h.1), List.getD_eq_getElem?_getD]
    cases a[j]? with
    | none => rfl
    | some v =>
      show (if i = j then f v else v) = v
      rw [if_neg (fun h => hji h.symm)]

theorem gl_attrs_bits (env : Env) (attr : Nat) :
    gl_attrs env attr < 128 ∧ gl_attrs env attr % 4 = 0 := by
  unfold gl_attrs
  split_ifs <;> decide

theorem attr_byte_cases :
    ∀ a, a < 128 → ∀ v, v < 3 → a % 4 = 0 →
      a &&& 3 = 0 ∧ (a + v) &&& 3 = v ∧ a &&& 0x7C = a ∧ (a + v) &&& 0x7C = a := by
  decide

/-- The foreground word `draw_glyph` writes and the word `draw_cursor` makes
of it, as sums: colour in bits 0-23, attribute byte from bit 24 on. -/
theorem fg_words (fg a v : Nat) (hfg : fg < 2 ^ 24) (ha : a < 128) (ha4 : a % 4 = 0)
    (hv : v ≤ 2) :
    (fg ||| (a <<< 24)) % 2 ^ 32 = 2 ^ 24 * a + fg ∧
      ((fg ||| (a <<< 24)) % 2 ^ 32 ||| (v <<< 24)) % 2 ^ 32 = 2 ^ 24 * (a + v) + fg := by
  have e1 : fg ||| (a <<< 24) = 2 ^ 24 * a + fg := by
    rw [Nat.shiftLeft_eq, Nat.lor_comm, Nat.mul_comm a, ← Nat.mul_add_lt_is_or hfg a]
  have e2 : (2 ^ 24 * a + fg) % 2 ^ 32 = 2 ^ 24 * a + fg := Nat.mod_eq_of_lt (by omega)
  rw [e1, e2]
  refine ⟨rfl, ?_⟩
  obtain ⟨b, rfl⟩ : ∃ b, a = 4 * b := ⟨a / 4, by omega⟩
  have e3 : 2 ^ 24 * (4 * b) + fg = 2 ^ 26 * b + fg := by ring
  have e4 : (2 ^ 26 * b + fg) ||| (v <<< 24) = 2 ^ 26 * b + (fg + 2 ^ 24 * v) := by
    rw [Nat.mul_add_lt_is_or (by omega : fg < 2 ^ 26) b, Nat.lor_assoc,
      Nat.shiftLeft_eq, Nat.mul_comm v, Nat.lor_comm fg, ← Nat.mul_add_lt_is_or hfg v,
      ← Nat.mul_add_lt_is_or (by omega : 2 ^ 24 * v + fg < 2 ^ 26) b]
    omega
  rw [e3, e4, Nat.mod_eq_of_lt (by omega)]
  ring

/-- C22: for an in-range cell `(x, y)`, a foreground colour below `2^24` and a
visibility `v` of 0, 1 or 2, on a screen whose colour grid has the size its
dimensions say: after a returning `draw_glyph` bits 24-25 of the cell's
`fg_color` are 0; the following `draw_cursor(y, x, v)` returns and makes those
two bits `v`, while the 24-bit foreground colour, the line-attribute bits 2-6
of the attribute byte, the background colour, the colour record of every other
cell, every layer and the dimensions stay as `draw_glyph` left them. -/
theorem draw_cursor_sets_visibility_bits (env : Env) (cols lines cache_attr_index fuel : Nat)
    (x y attr ch32 background foreground v : Nat) (g g1 : Grid)
    (hx : x < cols) (hy : y < lines) (hfg : foreground < 2 ^ 24) (hv : v ≤ 2)
    (hc : holds g.color_grid (g.grid_w * g.grid_h))
    (h : draw_glyph env cols lines cache_attr_index fuel y x attr ch32 background foreground g
      = Res.ok g1) :
    ((g1.color x y).fg_color >>> 24) &&& 3 = 0 ∧
      (g1.color x y).fg_color &&& 0xFFFFFF = foreground ∧
      ∃ g2, draw_cursor env cols lines y x v g1 = Res.ok g2 ∧
        ((g2.color x y).fg_color >>> 24) &&& 3 = v ∧
        (g2.color x y).fg_color &&& 0xFFFFFF = foreground ∧
        ((g2.color x y).fg_color >>> 24) &&& 0x7C = ((g1.color x y).fg_color >>> 24) &&& 0x7C ∧
        (g2.color x y).bg_color = (g1.color x y).bg_color ∧
        (∀ x1 y1, x1 < cols → y1 < lines → (x1, y1) ≠ (x, y) →
          g2.color x1 y1 = g1.color x1 y1) ∧
        g2.glyph_grid_layers = g1.glyph_grid_layers ∧
        g2.grid_w = g1.grid_w ∧ g2.grid_h = g1.grid_h := by
  obtain ⟨d1, d2, d3, d4, d5⟩ :=
    draw_glyph_colors env cols lines cache_attr_index fuel x y attr ch32 background foreground
      g g1 hx hy hc h
  obtain ⟨ha, ha4⟩ := gl_attrs_bits env attr
  obtain ⟨w1, w2⟩ := fg_words foreground (gl_attrs env attr) v hfg ha ha4 hv
  obtain ⟨b1, b2, b3, b4⟩ := attr_byte_cases (gl_attrs env attr) ha v (by omega) ha4
  have hcell := d5 x y hx hy
  rw [if_pos ⟨rfl, rfl⟩] at hcell
  have m24 : (0xFFFFFF : Nat) = 2 ^ 24 - 1 := by norm_num
  have s1 : (2 ^ 24 * gl_attrs env attr + foreground) >>> 24 = gl_attrs env attr := by
    rw [Nat.shiftRight_eq_div_pow]
    omega
  have s2 : (2 ^ 24 * (gl_attrs env attr + v) + foreground) >>> 24 = gl_attrs env attr + v := by
    rw [Nat.shiftRight_eq_div_pow]
    omega
  have hfg1 : (g1.color x y).fg_color = 2 ^ 24 * gl_attrs env attr + foreground := by
    rw [hcell]
    exact w1
  have hcur : draw_cursor env cols lines y x v g1 =
      Res.ok
        { g1 with
          color_grid :=
            g1.color_grid.map fun a =>
              a.modify (fun cd => { cd with fg_color := (cd.fg_color ||| (v <<< 24)) % 2 ^ 32 })
                (x + y * cols) } := by
    unfold draw_cursor
    have hin : ¬ ((y : Int) < 0 ∨ (y : Int) ≥ lines ∨ (x : Int) < 0 ∨ (x : Int) ≥ cols) := by
      omega
    have hi : ((x : Int) + (y : Int) * (cols : Int)).toNat = x + y * cols := by
      have : (x : Int) + (y : Int) * (cols : Int) = ((x + y * cols : Nat) : Int) := by
        push_cast; ring
      rw [this, Int.toNat_ofNat]
    have hvis : (if ((v : Nat) : Int) ≥ 0 ∧ ((v : Nat) : Int) ≤ 2 then ((v : Nat) : Int).toNat
        else 0) = v := by
      rw [if_pos ⟨by omega, by omega⟩, Int.toNat_ofNat]
    rw [if_neg hin, ensure_glyph_grid_same env cols lines 1 g1 d1 d2 d3, hi]
    simp only [Res.bind]
    rw [hvis]
  have hlen : (g1.color_grid.getD []).length = cols * lines := by
    have := d4
    rw [d1, d2] at this
    cases hcg : g1.color_grid with
    | none =>
      rw [hcg] at this
      have h0 : cols * lines = 0 := this
      show (0 : Nat) = cols * lines
      omega
    | some a =>
      rw [hcg] at this
      exact this
  have hcol2 : ∀ x1 y1, x1 < cols → y1 < lines →
      ({ g1 with
          color_grid :=
            g1.color_grid.map fun a =>
              a.modify (fun cd => { cd with fg_color := (cd.fg_color ||| (v <<< 24)) % 2 ^ 32 })
                (x + y * cols) } : Grid).color x1 y1 =
        if x1 = x ∧ y1 = y then
          { (g1.color x y) with
            fg_color := ((g1.color x y).fg_color ||| (v <<< 24)) % 2 ^ 32 }
        else g1.color x1 y1 := by
    intro x1 y1 hx1 hy1
    unfold Grid.color
    dsimp only
    rw [d1]
    cases hcg : g1.color_grid with
    | none =>
      rw [hcg] at hlen
      have h0 : cols * lines = 0 := by
        have : (0 : Nat) = cols * lines := hlen
        omega
      have := cell_index_lt cols lines x y hx hy
      omega
    | some a =>
      rw [hcg] at hlen
      have hal : a.length = cols * lines := hlen
      show (a.modify _ (x + y * cols)).getD (x1 + y1 * cols) _ = _
      rw [getD_modify]
      by_cases hcell1 : x1 = x ∧ y1 = y
      · obtain ⟨rfl, rfl⟩ := hcell1
        rw [if_pos ⟨rfl, by rw [hal]; exact cell_index_lt cols lines x1 y1 hx hy⟩,
          if_pos ⟨rfl, rfl⟩]
        rfl
      · rw [if_neg hcell1, if_neg]
        · rfl
        · rintro ⟨hidx, _⟩
          exact hcell1 (cell_index_inj cols x y x1 y1 hx hx1 hidx)
  have hfg2 := hcol2 x y hx hy
  rw [if_pos ⟨rfl, rfl⟩] at hfg2
  have w2b : ((2 ^ 24 * gl_attrs env attr + foreground) ||| (v <<< 24)) % 2 ^ 32 =
      2 ^ 24 * (gl_attrs env attr + v) + foreground := by
    rw [← w1]
    exact w2
  have hfg3 : (({ g1 with
          color_grid :=
            g1.color_grid.map fun a =>
              a.modify (fun cd => { cd with fg_color := (cd.fg_color ||| (v <<< 24)) % 2 ^ 32 })
                (x + y * cols) } : Grid).color x y).fg_color =
      2 ^ 24 * (gl_attrs env attr + v) + foreground := by
    rw [hfg2]
    show ((g1.color x y).fg_color ||| (v <<< 24)) % 2 ^ 32 = _
    rw [hfg1]
    exact w2b
  refine ⟨?_, ?_, _, hcur, ?_, ?_, ?_, ?_, ?_, rfl, rfl, rfl⟩
  · rw [hfg1, s1]
    exact b1
  · rw [hfg1, m24, Nat.and_pow_two_sub_one_eq_mod]
    omega
  · rw [hfg3, s2]
    exact b2
  · rw [hfg3, m24, Nat.and_pow_two_sub_one_eq_mod]
    omega
  · rw [hfg3, hfg1, s1, s2, b4, b3]
  · rw [hfg2]
  · intro x1 y1 hx1 hy1 hne
    rw [hcol2 x1 y1 hx1 hy1, if_neg]
    rintro ⟨rfl, rfl⟩
    exact hne rfl

/-- C22 at a concrete input: `A` is drawn underlined in white at cell (1, 0)
of the screen with the combining mark, then the cursor with visibility 2. -/
theorem draw_cursor_sets_visibility_bits_witness :
    ((grid_underlined.color 1 0).fg_color >>> 24) &&& 3 = 0 ∧
      (grid_underlined.color 1 0).fg_color &&& 0xFFFFFF = 0xFFFFFF ∧
      ∃ g2, draw_cursor demo_env 2 1 ((0 : Nat) : Int) ((1 : Nat) : Int) ((2 : Nat) : Int)
          grid_underlined = Res.ok g2 ∧
        ((g2.color 1 0).fg_color >>> 24) &&& 3 = 2 ∧
        (g2.color 1 0).fg_color &&& 0xFFFFFF = 0xFFFFFF ∧
        ((g2.color 1 0).fg_color >>> 24) &&& 0x7C
          = ((grid_underlined.color 1 0).fg_color >>> 24) &&& 0x7C ∧
        (g2.color 1 0).bg_color = (grid_underlined.color 1 0).bg_color ∧
        (∀ x1 y1, x1 < 2 → y1 < 1 → (x1, y1) ≠ (1, 0) →
          g2.color x1 y1 = grid_underlined.color x1 y1) ∧
        g2.glyph_grid_layers = grid_underlined.glyph_grid_layers ∧
        g2.grid_w = grid_underlined.grid_w ∧ g2.grid_h = grid_underlined.grid_h :=
  draw_cursor_sets_visibility_bits demo_env 2 1 0 0 1 0 0x100000 65 0x202020 0xFFFFFF 2
    grid_with_mark grid_underlined (by decide) (by decide) (by decide) (by decide) rfl
    (by decide)

/-! ## The first row with room -/

/-- C23, the failing input: with three columns and two rows the frame that
draws the codes 200, 65, 201, 66 fills all six slots.  In the next frame, which
shows `A`, `B`, 200, 201 and `C`, the first four cells are cache hits and the
lookup of `C` compacts.  The cache is re-packed in code point order, one-cell
glyphs first: `A` and `B` go to row 0, code 200 to row 1, and for code 201,
whose old coordinate cell 3 holds, neither row has two columns left.  Its
cache entry is left 0 and cell 3 is rewritten to 0, although the glyph is on
screen. -/
theorem compaction_drops_glyph_on_screen :
    resolve_cells odd_env 1 0 4 0 (Atlas.init, one_line [200, 65, 201, 66] [0, 0, 0, 0])
        = Res.ok (packed_atlas,
            one_line [200, 65, 201, 66]
              [BUILD_GLYPH_INDEX 1 0 2, BUILD_GLYPH_INDEX 0 0 1, BUILD_GLYPH_INDEX 0 1 2,
               BUILD_GLYPH_INDEX 2 1 1]) ∧
      resolve_cells odd_env 1 0 4 0 (packed_atlas, one_line [65, 66, 200, 201, 67] [0, 0, 0, 0, 0])
        = Res.ok (packed_atlas, packed_screen) ∧
      (new_glyph_cache_size odd_env packed_atlas).1 = packed_atlas.pdc_glyph_cache_w ∧
      (new_glyph_cache_size odd_env packed_atlas).2 = packed_atlas.pdc_glyph_cache_h ∧
      packed_atlas.entry 0 201 = BUILD_GLYPH_INDEX 0 1 2 ∧
      load (packed_screen.glyph_grid_layers.getD 0 default).glyph_grid 3
        = BUILD_GLYPH_INDEX 0 1 2 ∧
      BUILD_GLYPH_INDEX 0 1 2 ≠ 0 ∧
      (enlarge_glyph_cache odd_env (packed_atlas, packed_screen)).1.entry 0 201 = 0 ∧
      load ((enlarge_glyph_cache odd_env (packed_atlas, packed_screen)).2.glyph_grid_layers.getD
        0 default).glyph_grid 3 = 0 ∧
      (enlarge_glyph_cache odd_env (packed_atlas, packed_screen)).1.pdc_glyph_start_col
        = [2, 2] := by
  refine ⟨by decide, by decide, by decide, by decide, by decide, by decide, by decide,
    by decide, by decide, by decide⟩

/-! ## The growth of a style cache -/

theorem double_until_ge : ∀ (k size ch32 : Nat), ch32 ≤ size * 2 ^ k →
    ch32 ≤ double_until k size ch32 := by
  intro k
  induction k with
  | zero => intro size ch32 h; rw [double_until]; omega
  | succ k ih =>
    intro size ch32 h
    rw [double_until]
    by_cases hlt : size < ch32
    · rw [if_pos hlt]
      exact ih (size * 2) ch32 (by rw [Nat.pow_succ] at h; nlinarith)
    · rw [if_neg hlt]
      omega

/-- The new size of a style cache is never below the code point. -/
theorem new_cache_size_ge (cache_size ch32 : Nat) : ch32 ≤ new_cache_size cache_size ch32 := by
  unfold new_cache_size
  apply double_until_ge
  have h1 : ch32 < 2 ^ ch32 := Nat.lt_two_pow ch32
  have h2 : 1 ≤ (if cache_size = 0 then 256 else cache_size) := by
    split_ifs <;> omega
  nlinarith

/-- The store after the growth is outside the array exactly when the loop
stopped with the new size equal to the code point. -/
theorem cache_store_undef_iff (cache : List Nat) (ch32 index : Nat)
    (hge : ch32 ≥ cache.length) :
    cache_store cache ch32 index = Res.undef ↔ new_cache_size cache.length ch32 = ch32 := by
  have hn := new_cache_size_ge cache.length ch32
  unfold cache_store
  simp only
  rw [if_pos hge, List.length_append, List.length_replicate]
  constructor
  · intro h
    by_cases hlt : ch32 < cache.length + (new_cache_size cache.length ch32 - cache.length)
    · rw [if_pos hlt] at h
      cases h
    · omega
  · intro h
    rw [if_neg (by omega)]

/-- C26, the failing input: the plain style cache has 256 slots after `A` was
looked up.  On the miss for code point 512 the loop `while(new_cache_size <
ch32)` stops at 512 slots, so 512 is not an index of the grown array, and the
store of line 553 writes one slot past its end. -/
theorem lookup_512_overruns_cache :
    (demo_atlas.pdc_glyph_cache.getD 0 []).length = 256 ∧
      demo_atlas.entry 0 512 = 0 ∧
      new_cache_size 256 512 = 512 ∧
      ¬ 512 < new_cache_size 256 512 ∧
      (∀ index, cache_store (demo_atlas.pdc_glyph_cache.getD 0 []) 512 index = Res.undef) ∧
      get_glyph_texture_index demo_env 0 512 0 (demo_atlas, one_line [512] [0]) = Res.undef := by
  have hs : new_cache_size 256 512 = 512 := by decide
  refine ⟨by decide, by decide, hs, by rw [hs]; decide, ?_, by decide⟩
  intro index
  exact (cache_store_undef_iff _ 512 index (by decide)).mpr hs

/-! ## The highlight colour -/

/-- The highlight colour a commit leaves for the renderer: the palette entry
for an index above 0, the sentinel for an index below 0, and for index 0 the
colour of an earlier commit. -/
theorem commit_line_color (env : Env) (sp : Screen) (g : Grid) (w : World) :
    u_line_color (commit env sp g w).submitted_state =
      if sp.line_color > 0 then some (sp.palette sp.line_color.toNat)
      else if sp.line_color = 0 then some w.submitted_state.hcol_rgb
      else none := by
  unfold u_line_color commit
  dsimp only
  by_cases h1 : sp.line_color > 0
  · rw [if_pos h1, if_pos h1, if_pos (by omega)]
  · rw [if_neg h1, if_neg h1]
    by_cases h0 : sp.line_color = 0
    · rw [if_pos h0, if_pos (by omega)]
    · rw [if_neg h0, if_neg (by omega)]

/-- C27, the failing input: an update with `SP->line_color = 1` (red), then an
update with `SP->line_color = 0`, whose palette colour is black, then the
frame.  `hcol` is 0, so the frame passes `hcol_rgb`, which the second update
did not write: the foreground program is given red. -/
theorem line_color_zero_keeps_old_colour :
    ((PDC_doupdate demo_env (line_color_screen 1) 1 blank_line_grid World.init).bind fun s1 =>
      (PDC_doupdate demo_env (line_color_screen 0) 1 s1.1 s1.2).bind fun s2 =>
        (PDC_render_frame demo_env 1 (fun s => s) s2.2).bind fun w =>
          Res.ok (w.locked_state.hcol, u_line_color w.locked_state))
      = Res.ok (0, some 0x0000FF) ∧
      (line_color_screen 0).palette 0 = 0 ∧ (line_color_screen 0).palette 1 = 0x0000FF := by
  decide

/-! ## next_pow_2 and the side of the new texture -/

theorem smear_step (s m a : Nat)
    (h : ∀ i, s.testBit i = true ↔ ∃ j, j < a ∧ m.testBit (i + j) = true) :
    ∀ i, (s ||| s >>> a).testBit i = true ↔ ∃ j, j < 2 * a ∧ m.testBit (i + j) = true := by
  intro i
  rw [Nat.testBit_or, Nat.testBit_shiftRight, Bool.or_eq_true, h, h]
  constructor
  · rintro (⟨j, hj, hb⟩ | ⟨j, hj, hb⟩)
    · exact ⟨j, by omega, hb⟩
    · refine ⟨a + j, by omega, ?_⟩
      rw [← hb]
      congr 1
      omega
  · rintro ⟨j, hj, hb⟩
    by_cases hja : j < a
    · exact Or.inl ⟨j, hja, hb⟩
    · refine Or.inr ⟨j - a, by omega, ?_⟩
      rw [← hb]
      congr 1
      omega

theorem top_bit (m : Nat) (hm : m ≠ 0) : m.testBit (m.size - 1) = true := by
  by_contra hne
  have hfalse : m.testBit (m.size - 1) = false := by
    cases hb : m.testBit (m.size - 1) with
    | true => exact absurd hb hne
    | false => rfl
  have hlt : m < 2 ^ (m.size - 1) := by
    apply Nat.lt_pow_two_of_testBit
    intro i hi
    by_cases hi1 : i = m.size - 1
    · rw [hi1]; exact hfalse
    · apply Nat.testBit_lt_two_pow
      exact lt_of_lt_of_le (Nat.lt_size_self m) (Nat.pow_le_pow_right (by decide) (by omega))
  have hsz : m.size ≤ m.size - 1 := Nat.size_le.mpr hlt
  have hpos : 0 < m.size := Nat.size_pos.mpr (Nat.pos_of_ne_zero hm)
  omega

/-- The five shift-and-or steps of `next_pow_2` set every bit below the top
bit of a 32-bit value. -/
theorem smear_eq (m : Nat) (hm : m < 2 ^ 32) :
    ((((m ||| m >>> 1) ||| (m ||| m >>> 1) >>> 2) |||
        ((m ||| m >>> 1) ||| (m ||| m >>> 1) >>> 2) >>> 4) |||
      (((m ||| m >>> 1) ||| (m ||| m >>> 1) >>> 2) |||
        ((m ||| m >>> 1) ||| (m ||| m >>> 1) >>> 2) >>> 4) >>> 8) |||
    ((((m ||| m >>> 1) ||| (m ||| m >>> 1) >>> 2) |||
        ((m ||| m >>> 1) ||| (m ||| m >>> 1) >>> 2) >>> 4) |||
      (((m ||| m >>> 1) ||| (m ||| m >>> 1) >>> 2) |||
        ((m ||| m >>> 1) ||| (m ||| m >>> 1) >>> 2) >>> 4) >>> 8) >>> 16 = 2 ^ m.size - 1 := by
  have h0 : ∀ i, m.testBit i = true ↔ ∃ j, j < 1 ∧ m.testBit (i + j) = true := by
    intro i
    constructor
    · intro h; exact ⟨0, by omega, h⟩
    · rintro ⟨j, hj, hb⟩
      have : j = 0 := by omega
      subst this
      exact hb
  have h1 := smear_step m m 1 h0
  have h2 := smear_step _ m 2 h1
  have h3 := smear_step _ m 4 h2
  have h4 := smear_step _ m 8 h3
  have h5 := smear_step _ m 16 h4
  have hsz : m.size ≤ 32 := Nat.size_le.mpr hm
  apply Nat.eq_of_testBit_eq
  intro i
  rw [Nat.testBit_two_pow_sub_one]
  by_cases hi : i < m.size
  · rw [decide_eq_true hi, h5]
    have hm0 : m ≠ 0 := by
      rintro rfl
      simp at hi
    refine ⟨m.size - 1 - i, by omega, ?_⟩
    have : i + (m.size - 1 - i) = m.size - 1 := by omega
    rw [this]
    exact top_bit m hm0
  · rw [decide_eq_false hi]
    cases hb : Nat.testBit _ i with
    | false => rfl
    | true =>
      exfalso
      obtain ⟨j, _, hbit⟩ := (h5 i).mp hb
      have hge := Nat.testBit_implies_ge hbit
      have hlt : m < 2 ^ (i + j) :=
        lt_of_lt_of_le (Nat.lt_size_self m) (Nat.pow_le_pow_right (by decide) (by omega))
      omega

/-- For `1 ≤ n ≤ 2^32` the C `next_pow_2(n)` is the least power of two that
is at least `n`. -/
theorem next_pow_2_spec (n : Nat) (h1 : 1 ≤ n) (h2 : n ≤ 2 ^ 32) :
    next_pow_2 n = 2 ^ (n - 1).size ∧ n ≤ 2 ^ (n - 1).size ∧
      ∀ j, n ≤ 2 ^ j → 2 ^ (n - 1).size ≤ 2 ^ j := by
  have hm : n - 1 < 2 ^ 32 := by omega
  have hpos : 0 < 2 ^ (n - 1).size := Nat.two_pow_pos _
  refine ⟨?_, ?_, ?_⟩
  · unfold next_pow_2
    rw [if_neg (by omega)]
    dsimp only
    rw [smear_eq (n - 1) hm]
    omega
  · have := Nat.lt_size_self (n - 1)
    omega
  · intro j hj
    apply Nat.pow_le_pow_right (by decide)
    exact Nat.size_le.mpr (by omega)

/-- C25: for a cell of at least 1 x 1 texels with `16 * max(fw, fh) ≤ 2^30`
and a square texture of side `s`, the side `enlarge_glyph_cache` chooses is
`M` when the wanted side exceeds `M`, else the wanted side, for every `M`;
the wanted side is `next_pow_2(max(fw, fh) * 16)` when `s = 0`, which is the
least power of two that is at least `16 * max(fw, fh)`, and `2 * s` otherwise.
When the side differs from `s` the texture is given that width and height. -/
theorem enlarge_side_length (env : Env) (a : Atlas) (l : mt_render_state)
    (hsq : a.pdc_glyph_cache_h = a.pdc_glyph_cache_w)
    (hcell : 1 ≤ env.pdc_fwidth ∧ 1 ≤ env.pdc_fheight)
    (hb : 16 * max env.pdc_fwidth env.pdc_fheight ≤ 2 ^ 30) :
    ∃ k, next_pow_2 (max env.pdc_fwidth env.pdc_fheight * 16) = 2 ^ k ∧
      16 * max env.pdc_fwidth env.pdc_fheight ≤ 2 ^ k ∧
      (∀ j, 16 * max env.pdc_fwidth env.pdc_fheight ≤ 2 ^ j → 2 ^ k ≤ 2 ^ j) ∧
      ∃ side,
        side =
          (if (if a.pdc_glyph_cache_w = 0 then 2 ^ k else 2 * a.pdc_glyph_cache_w)
              > env.max_texture_size then env.max_texture_size
            else (if a.pdc_glyph_cache_w = 0 then 2 ^ k else 2 * a.pdc_glyph_cache_w)) ∧
        new_glyph_cache_size env a = (side, side) ∧
        (side ≠ a.pdc_glyph_cache_w →
          (enlarge_glyph_cache env (a, l)).1.pdc_glyph_cache_w = side ∧
            (enlarge_glyph_cache env (a, l)).1.pdc_glyph_cache_h = side) := by
  have hmax : (if env.pdc_fwidth > env.pdc_fheight then env.pdc_fwidth else env.pdc_fheight)
      = max env.pdc_fwidth env.pdc_fheight := by
    by_cases h : env.pdc_fwidth > env.pdc_fheight
    · rw [if_pos h, max_eq_left (by omega)]
    · rw [if_neg h, max_eq_right (by omega)]
  have hm1 : 1 ≤ max env.pdc_fwidth env.pdc_fheight := le_trans hcell.1 (le_max_left _ _)
  obtain ⟨p1, p2, p3⟩ :=
    next_pow_2_spec (max env.pdc_fwidth env.pdc_fheight * 16) (by omega) (by omega)
  have hsize : new_glyph_cache_size env a =
      ((if (if a.pdc_glyph_cache_w = 0 then 2 ^ (max env.pdc_fwidth env.pdc_fheight * 16 - 1).size
            else 2 * a.pdc_glyph_cache_w) > env.max_texture_size then env.max_texture_size
          else (if a.pdc_glyph_cache_w = 0
            then 2 ^ (max env.pdc_fwidth env.pdc_fheight * 16 - 1).size
            else 2 * a.pdc_glyph_cache_w)),
        (if (if a.pdc_glyph_cache_w = 0 then 2 ^ (max env.pdc_fwidth env.pdc_fheight * 16 - 1).size
            else 2 * a.pdc_glyph_cache_w) > env.max_texture_size then env.max_texture_size
          else (if a.pdc_glyph_cache_w = 0
            then 2 ^ (max env.pdc_fwidth env.pdc_fheight * 16 - 1).size
            else 2 * a.pdc_glyph_cache_w))) := by
    unfold new_glyph_cache_size
    dsimp only
    rw [hmax, hsq, p1]
    by_cases hz : a.pdc_glyph_cache_w = 0
    · rw [hz]
      simp only [Nat.mul_zero, or_self, if_true]
      by_cases hM : 2 ^ (max env.pdc_fwidth env.pdc_fheight * 16 - 1).size
          > env.max_texture_size
      · rw [if_pos hM, if_pos hM]
      · rw [if_neg hM, if_neg hM]
    · have hz2 : ¬ (2 * a.pdc_glyph_cache_w = 0 ∨ 2 * a.pdc_glyph_cache_w = 0) := by omega
      rw [if_neg hz2, if_neg hz]
      by_cases hM : 2 * a.pdc_glyph_cache_w > env.max_texture_size
      · rw [if_pos hM, if_pos (Or.inl hM)]
      · rw [if_neg hM, if_neg (by omega)]
  refine ⟨_, p1, by omega, fun j hj => p3 j (by omega), _, rfl, hsize, ?_⟩
  intro hne
  unfold enlarge_glyph_cache
  dsimp only
  rw [hsize]
  dsimp only
  rw [if_pos (Or.inl hne)]
  exact ⟨rfl, rfl⟩

/-- C25 at a concrete input: the first texture of an 8 x 16 cell has side 256,
the least power of two that is at least 16 * 16. -/
theorem enlarge_side_length_witness :
    ∃ k, next_pow_2 (max demo_env.pdc_fwidth demo_env.pdc_fheight * 16) = 2 ^ k ∧
      16 * max demo_env.pdc_fwidth demo_env.pdc_fheight ≤ 2 ^ k ∧
      (∀ j, 16 * max demo_env.pdc_fwidth demo_env.pdc_fheight ≤ 2 ^ j → 2 ^ k ≤ 2 ^ j) ∧
      ∃ side,
        side =
          (if (if Atlas.init.pdc_glyph_cache_w = 0 then 2 ^ k
                else 2 * Atlas.init.pdc_glyph_cache_w)
              > demo_env.max_texture_size then demo_env.max_texture_size
            else (if Atlas.init.pdc_glyph_cache_w = 0 then 2 ^ k
              else 2 * Atlas.init.pdc_glyph_cache_w)) ∧
        new_glyph_cache_size demo_env Atlas.init = (side, side) ∧
        (side ≠ Atlas.init.pdc_glyph_cache_w →
          (enlarge_glyph_cache demo_env (Atlas.init, mt_render_state.init)).1.pdc_glyph_cache_w
              = side ∧
            (enlarge_glyph_cache demo_env (Atlas.init, mt_render_state.init)).1.pdc_glyph_cache_h
              = side) :=
  enlarge_side_length demo_env Atlas.init mt_render_state.init rfl (by decide) (by decide)

/-- The first texture of `demo_env` has side 256. -/
theorem first_texture_side : new_glyph_cache_size demo_env Atlas.init = (256, 256) := by
  decide

/-! ## ensure_glyph_grid in either threading mode -/

/-- The layers a returning `ensure_layers` leaves, in either threading mode:
as many as before, each with its occupancy and with the resized pending array. -/
theorem ensure_layers_spec (env : Env) (cols lines gw gh : Nat) :
    ∀ (ls ls1 : List glyph_grid_layer), ensure_layers env cols lines gw gh ls = Res.ok ls1 →
      ls1.length = ls.length ∧
      ∀ i, i < ls.length →
        (ls1.getD i default).occupancy = (ls.getD i default).occupancy ∧
        (ls1.getD i default).codepoint_attr =
          some (resize_rows 0 cols gw gh (ls.getD i default).codepoint_attr lines 0
            (List.replicate (lines * cols) 0)) := by
  intro ls
  induction ls with
  | nil =>
    intro ls1 h
    cases h
    exact ⟨rfl, fun i hi => absurd hi (Nat.not_lt_zero _)⟩
  | cons l rest ih =>
    intro ls1 h
    rw [ensure_layers] at h
    cases h1 : ensure_layer env cols lines gw gh l with
    | undef => rw [h1] at h; cases h
    | fuelOut => rw [h1] at h; cases h
    | ok l1 =>
      rw [h1] at h
      simp only [Res.bind] at h
      cases h2 : ensure_layers env cols lines gw gh rest with
      | undef => rw [h2] at h; cases h
      | fuelOut => rw [h2] at h; cases h
      | ok rest1 =>
        rw [h2] at h
        cases h
        obtain ⟨il, ig⟩ := ih rest1 h2
        refine ⟨by show rest1.length + 1 = rest.length + 1; rw [il], ?_⟩
        intro i hi
        cases i with
        | zero =>
          show l1.occupancy = l.occupancy ∧ l1.codepoint_attr = _
          unfold ensure_layer at h1
          split_ifs at h1
          · cases h1; exact ⟨rfl, rfl⟩
          · cases h1; exact ⟨rfl, rfl⟩
        | succ i =>
          exact ig i (by
            have : i + 1 < rest.length + 1 := hi
            omega)

/-- In two-thread mode, and in single-threaded mode when the screen has no
more cells than the grid, `ensure_layers` returns. -/
theorem ensure_layers_returns (env : Env) (cols lines gw gh : Nat)
    (h : env.pdc_threading_mode = ThreadingMode.PDC_GL_MULTI_THREADED_RENDERING ∨
      lines * cols ≤ gw * gh) :
    ∀ ls : List glyph_grid_layer, ∃ ls1, ensure_layers env cols lines gw gh ls = Res.ok ls1 := by
  intro ls
  induction ls with
  | nil => exact ⟨[], rfl⟩
  | cons l rest ih =>
    obtain ⟨rest1, hr⟩ := ih
    have h1 : ∃ l1, ensure_layer env cols lines gw gh l = Res.ok l1 := by
      unfold ensure_layer
      by_cases hm : env.pdc_threading_mode = ThreadingMode.PDC_GL_SINGLE_THREADED_RENDERING
      · rw [if_pos hm]
        rcases h with h | h
        · rw [hm] at h; cases h
        · rw [if_neg (by omega)]
          exact ⟨_, rfl⟩
      · rw [if_neg hm]
        exact ⟨_, rfl⟩
    obtain ⟨l1, hl1⟩ := h1
    refine ⟨l1 :: rest1, ?_⟩
    rw [ensure_layers, hl1]
    simp only [Res.bind]
    rw [hr]

/-- In two-thread mode, and in single-threaded mode when the screen has no
more cells than the grid, `ensure_glyph_grid` returns. -/
theorem ensure_glyph_grid_returns (env : Env) (cols lines min_layers : Nat) (g : Grid)
    (h : env.pdc_threading_mode = ThreadingMode.PDC_GL_MULTI_THREADED_RENDERING ∨
      lines * cols ≤ g.grid_w * g.grid_h) :
    ∃ g1, ensure_glyph_grid env cols lines min_layers g = Res.ok g1 := by
  unfold ensure_glyph_grid
  by_cases hguard : cols ≠ g.grid_w ∨ lines ≠ g.grid_h ∨ g.grid_layers < min_layers
  · rw [if_pos hguard]
    obtain ⟨ls1, hl⟩ := ensure_layers_returns env cols lines g.grid_w g.grid_h h
      (extend_layers g.glyph_grid_layers min_layers)
    simp only
    rw [hl]
    exact ⟨_, rfl⟩
  · rw [if_neg hguard]
    exact ⟨g, rfl⟩

/-- What a returning `ensure_glyph_grid` leaves, in either threading mode: a
grid of the size of the screen with arrays of that size and no layer removed,
and on every layer the old pending word of every cell that existed, zero
elsewhere. -/
theorem ensure_glyph_grid_pending (env : Env) (cols lines min_layers : Nat) (g g1 : Grid)
    (hg : g.sized) (h : ensure_glyph_grid env cols lines min_layers g = Res.ok g1) :
    g1.sized ∧ g.grid_layers ≤ g1.grid_layers ∧
      (∀ layer x y, x < cols → y < lines →
        g1.pending layer x y =
          if layer < g.grid_layers ∧ x < g.grid_w ∧ y < g.grid_h then g.pending layer x y
          else 0) := by
  unfold ensure_glyph_grid at h
  by_cases hguard : cols ≠ g.grid_w ∨ lines ≠ g.grid_h ∨ g.grid_layers < min_layers
  · rw [if_pos hguard] at h
    dsimp only at h
    cases hl : ensure_layers env cols lines g.grid_w g.grid_h
        (extend_layers g.glyph_grid_layers min_layers) with
    | undef => rw [hl] at h; cases h
    | fuelOut => rw [hl] at h; cases h
    | ok layers =>
      rw [hl] at h
      simp only [Res.bind, Res.ok.injEq] at h
      subst h
      obtain ⟨hlen, hget⟩ := ensure_layers_spec env cols lines g.grid_w g.grid_h _ _ hl
      have hsz : ∀ i, ∀ src, (g.glyph_grid_layers.getD i default).codepoint_attr = some src →
          g.grid_w * g.grid_h ≤ src.length := by
        intro i src hsrc
        by_cases hin : i < g.glyph_grid_layers.length
        · rw [List.getD_eq_getElem _ _ hin] at hsrc
          obtain ⟨ca, hca, hlen⟩ := hg.2 _ (List.getElem_mem hin)
          rw [hca] at hsrc
          cases hsrc
          omega
        · have hd : g.glyph_grid_layers.getD i default = default :=
            List.getD_eq_default _ _ (by omega)
          rw [hd] at hsrc
          cases hsrc
      refine ⟨⟨?_, ?_⟩, ?_, ?_⟩
      · show (resize_rows _ _ _ _ _ _ _ _).length = cols * lines
        rw [resized_rows_length _ cols lines g.grid_w g.grid_h g.color_grid (holds_le _ _ hg.1) _
          (malloc_length _ _), Nat.mul_comm]
      · intro l hl1
        obtain ⟨i, hi, rfl⟩ := List.getElem_of_mem hl1
        have hi2 : i < (extend_layers g.glyph_grid_layers min_layers).length := by
          rw [← hlen]; exact hi
        have := (hget i hi2).2
        rw [List.getD_eq_getElem _ _ hi, getD_extend_layers] at this
        refine ⟨_, this, ?_⟩
        rw [resized_rows_length 0 cols lines g.grid_w g.grid_h _ (hsz i) _ (by simp),
          Nat.mul_comm]
      · show g.glyph_grid_layers.length ≤ layers.length
        rw [hlen]
        exact (extend_layers_length _ _).2
      · intro layer x y hx hy
        unfold Grid.pending
        show load (layers.getD layer default).codepoint_attr (x + y * cols) = _
        by_cases hin : layer < layers.length
        · have hi2 : layer < (extend_layers g.glyph_grid_layers min_layers).length := by
            rw [← hlen]; exact hin
          rw [(hget layer hi2).2, getD_extend_layers]
          unfold load
          simp only [Option.getD_some]
          rw [resized_rows_getD 0 cols lines g.grid_w g.grid_h _ (hsz layer) _ (by simp) x y hx hy]
          by_cases hin2 : layer < g.glyph_grid_layers.length
          · by_cases c : x < g.grid_w ∧ y < g.grid_h
            · rw [if_pos c, if_pos ⟨hin2, c⟩]
            · rw [if_neg c, if_neg (fun hh => c hh.2)]
          · have hd : g.glyph_grid_layers.getD layer default = default :=
              List.getD_eq_default _ _ (by omega)
            rw [hd]
            simp [default_layer, Grid.grid_layers, hin2]
        · have hd : layers.getD layer default = default := List.getD_eq_default _ _ (by omega)
          rw [hd, if_neg]
          · rfl
          · intro hh
            have : g.glyph_grid_layers.length ≤ layers.length := by
              rw [hlen]; exact (extend_layers_length _ _).2
            exact hin (by have := hh.1; unfold Grid.grid_layers at this; omega)
  · rw [if_neg hguard] at h
    cases h
    have h1 : cols = g.grid_w := by
      by_contra hne; exact hguard (Or.inl hne)
    have h2 : lines = g.grid_h := by
      by_contra hne; exact hguard (Or.inr (Or.inl hne))
    refine ⟨hg, le_refl _, ?_⟩
    intro layer x y hx hy
    by_cases hin : layer < g.grid_layers
    · rw [if_pos ⟨hin, by omega, by omega⟩]
    · rw [if_neg (fun hh => hin hh.1)]
      unfold Grid.pending
      have hd : g.glyph_grid_layers.getD layer default = default :=
        List.getD_eq_default _ _ (by unfold Grid.grid_layers at hin; omega)
      rw [hd]
      rfl

theorem base_code_plain (env : Env) (fuel ch32 : Nat) (h : ch32 ≤ 0x110000) :
    base_code env fuel ch32 = ch32 := by
  cases fuel with
  | zero => rw [base_code, if_neg (by omega)]
  | succ fuel => rw [base_code, if_neg (by omega)]

/-- The loop over the combining characters, in either threading mode, on a
grid of the size of the screen: a returning run leaves `base_code` in `ch32`,
arrays of the right size, and the base layer as it was. -/
theorem combine_loop_base (env : Env) (cols lines cache_attr_index i : Nat) :
    ∀ (fuel layer ch32 : Nat) (g : Grid) (r : Nat × Grid),
    g.grid_w = cols → g.grid_h = lines → 1 ≤ g.grid_layers → g.sized →
    combine_loop env cols lines cache_attr_index i fuel layer ch32 g = Res.ok r →
    r.1 = base_code env fuel ch32 ∧ r.2.sized ∧
      (∀ x y, x < cols → y < lines → r.2.pending 0 x y = g.pending 0 x y) := by
  intro fuel
  induction fuel with
  | zero =>
    intro layer ch32 g r hw hh hl hg h
    rw [combine_loop] at h
    by_cases h0 : ch32 > 0x110000
    · rw [if_pos h0] at h; cases h
    · rw [if_neg h0] at h
      cases h
      exact ⟨by rw [base_code, if_neg h0], hg, fun _ _ _ _ => rfl⟩
  | succ fuel ih =>
    intro layer ch32 g r hw hh hl hg h
    rw [combine_loop] at h
    by_cases h0 : ch32 > 0x110000
    · rw [if_pos h0] at h
      dsimp only at h
      cases he : ensure_glyph_grid env cols lines (layer + 1 + 1) g with
      | undef => rw [he] at h; cases h
      | fuelOut => rw [he] at h; cases h
      | ok g1 =>
        rw [he] at h
        simp only [Res.bind] at h
        obtain ⟨e1, e2, _, _, _⟩ := ensure_glyph_grid_colors env cols lines _ g g1 hg.1 he
        obtain ⟨s1, s2, s3⟩ := ensure_glyph_grid_pending env cols lines _ g g1 hg he
        have hsz : Grid.sized
            { color_grid := g1.color_grid
              glyph_grid_layers :=
                set_cell g1.glyph_grid_layers (layer + 1) i
                  (((env.expand_combined ch32).2 ||| cache_attr_index <<< 30) % 2 ^ 32)
                  fun o => (o + 1) % 2 ^ 32
              grid_w := g1.grid_w
              grid_h := g1.grid_h } :=
          ⟨s1.1, set_cell_sized (g1.grid_w * g1.grid_h) g1.glyph_grid_layers (layer + 1) i
            (((env.expand_combined ch32).2 ||| (cache_attr_index <<< 30)) % 2 ^ 32)
            (fun o => (o + 1) % 2 ^ 32) s1.2⟩
        have hlay : 1 ≤ Grid.grid_layers
            { color_grid := g1.color_grid
              glyph_grid_layers :=
                set_cell g1.glyph_grid_layers (layer + 1) i
                  (((env.expand_combined ch32).2 ||| cache_attr_index <<< 30) % 2 ^ 32)
                  fun o => (o + 1) % 2 ^ 32
              grid_w := g1.grid_w
              grid_h := g1.grid_h } := by
          unfold Grid.grid_layers
          dsimp only
          rw [set_cell_length]
          exact le_trans hl s2
        obtain ⟨i1, i2, i3⟩ :=
          ih (layer + 1) (env.expand_combined ch32).1
            { color_grid := g1.color_grid
              glyph_grid_layers :=
                set_cell g1.glyph_grid_layers (layer + 1) i
                  (((env.expand_combined ch32).2 ||| cache_attr_index <<< 30) % 2 ^ 32)
                  fun o => (o + 1) % 2 ^ 32
              grid_w := g1.grid_w
              grid_h := g1.grid_h } r e1 e2 hlay hsz h
        refine ⟨?_, i2, ?_⟩
        · rw [i1, base_code, if_pos h0]
        · intro x y hx hy
          rw [i3 x y hx hy]
          have : g1.pending 0 x y = g.pending 0 x y := by
            rw [s3 0 x y hx hy, if_pos ⟨by omega, by omega, by omega⟩]
          rw [← this]
          unfold Grid.pending
          dsimp only
          unfold set_cell
          rw [getD_modify, if_neg (by omega)]
    · rw [if_neg h0] at h
      cases h
      exact ⟨by rw [base_code, if_neg h0], hg, fun _ _ _ _ => rfl⟩

/-- What a returning `draw_glyph` leaves, for every code point and threading
mode and every grid with arrays of the size its dimensions say: a grid of the
size of the screen with arrays of that size and at least one layer; the cell
drawn holds the new colour record and the base word `base_code | style << 30`,
every other cell the record and the base word it had, zero if it did not
exist. -/
theorem draw_glyph_cell (env : Env) (cols lines cache_attr_index fuel x y : Nat)
    (attr ch32 background foreground : Nat) (g g1 : Grid) (hx : x < cols) (hy : y < lines)
    (hg : g.sized)
    (h : draw_glyph env cols lines cache_attr_index fuel y x attr ch32 background foreground g
      = Res.ok g1) :
    g1.grid_w = cols ∧ g1.grid_h = lines ∧ 1 ≤ g1.grid_layers ∧ g1.sized ∧
      (∀ x1 y1, x1 < cols → y1 < lines →
        g1.color x1 y1 =
          if x1 = x ∧ y1 = y then
            { bg_color := background
              fg_color := (foreground ||| (gl_attrs env attr <<< 24)) % 2 ^ 32 }
          else if x1 < g.grid_w ∧ y1 < g.grid_h then g.color x1 y1 else color_data.mk 0 0) ∧
      (∀ x1 y1, x1 < cols → y1 < lines →
        g1.pending 0 x1 y1 =
          if x1 = x ∧ y1 = y then
            (base_code env fuel ch32 ||| (cache_attr_index <<< 30)) % 2 ^ 32
          else if x1 < g.grid_w ∧ y1 < g.grid_h then g.pending 0 x1 y1 else 0) := by
  obtain ⟨c1, c2, c3, _, c5⟩ :=
    draw_glyph_colors env cols lines cache_attr_index fuel x y attr ch32 background foreground
      g g1 hx hy hg.1 h
  refine ⟨c1, c2, c3, ?_⟩
  unfold draw_glyph at h
  have hin : ¬ ((y : Int) < 0 ∨ (y : Int) ≥ lines ∨ (x : Int) < 0 ∨ (x : Int) ≥ cols) := by
    omega
  have hi : ((x : Int) + (y : Int) * (cols : Int)).toNat = x + y * cols := by
    have : (x : Int) + (y : Int) * (cols : Int) = ((x + y * cols : Nat) : Int) := by
      push_cast; ring
    rw [this, Int.toNat_ofNat]
  rw [if_neg hin, hi] at h
  dsimp only at h
  cases he : ensure_glyph_grid env cols lines 1 g with
  | undef => rw [he] at h; cases h
  | fuelOut => rw [he] at h; cases h
  | ok ga =>
    rw [he] at h
    simp only [Res.bind] at h
    obtain ⟨e1, e2, e3, _, _⟩ := ensure_glyph_grid_colors env cols lines 1 g ga hg.1 he
    obtain ⟨s1, s2, s3⟩ := ensure_glyph_grid_pending env cols lines 1 g ga hg he
    have hsz : Grid.sized
        { color_grid := store ga.color_grid (x + y * cols)
            { bg_color := background
              fg_color := (foreground ||| (gl_attrs env attr <<< 24)) % 2 ^ 32 }
          glyph_grid_layers := clear_upper_layers (x + y * cols) ga.glyph_grid_layers
          grid_w := ga.grid_w
          grid_h := ga.grid_h } :=
      ⟨holds_store _ _ _ _ s1.1, clear_upper_layers_sized _ _ _ s1.2⟩
    have hlay : 1 ≤ Grid.grid_layers
        { color_grid := store ga.color_grid (x + y * cols)
            { bg_color := background
              fg_color := (foreground ||| (gl_attrs env attr <<< 24)) % 2 ^ 32 }
          glyph_grid_layers := clear_upper_layers (x + y * cols) ga.glyph_grid_layers
          grid_w := ga.grid_w
          grid_h := ga.grid_h } := by
      show 1 ≤ (clear_upper_layers (x + y * cols) ga.glyph_grid_layers).length
      rw [clear_upper_layers_length]
      exact e3
    cases hcl : combine_loop env cols lines cache_attr_index (x + y * cols) fuel 0 ch32
        { color_grid := store ga.color_grid (x + y * cols)
            { bg_color := background
              fg_color := (foreground ||| (gl_attrs env attr <<< 24)) % 2 ^ 32 }
          glyph_grid_layers := clear_upper_layers (x + y * cols) ga.glyph_grid_layers
          grid_w := ga.grid_w
          grid_h := ga.grid_h } with
    | undef => rw [hcl] at h; cases h
    | fuelOut => rw [hcl] at h; cases h
    | ok r =>
      rw [hcl] at h
      simp only [Res.ok.injEq] at h
      subst h
      obtain ⟨b1, b2, b3⟩ :=
        combine_loop_base env cols lines cache_attr_index (x + y * cols) fuel 0 ch32
          { color_grid := store ga.color_grid (x + y * cols)
              { bg_color := background
                fg_color := (foreground ||| (gl_attrs env attr <<< 24)) % 2 ^ 32 }
            glyph_grid_layers := clear_upper_layers (x + y * cols) ga.glyph_grid_layers
            grid_w := ga.grid_w
            grid_h := ga.grid_h } r e1 e2 hlay hsz hcl
      have hw : r.2.grid_w = cols := c1
      have hh : r.2.grid_h = lines := c2
      have hl : 1 ≤ r.2.glyph_grid_layers.length := by
        have := c3
        unfold Grid.grid_layers at this
        rw [set_cell_length] at this
        exact this
      refine ⟨⟨b2.1, set_cell_sized (r.2.grid_w * r.2.grid_h) r.2.glyph_grid_layers 0 (x + y * cols)
        ((r.1 ||| cache_attr_index <<< 30) % 2 ^ 32) (fun o => o) b2.2⟩, c5, ?_⟩
      intro x1 y1 hx1 hy1
      have hbase : layer_sized (r.2.grid_w * r.2.grid_h) (r.2.glyph_grid_layers.getD 0 default) := by
        rw [List.getD_eq_getElem _ _ (by omega)]
        exact b2.2 _ (List.getElem_mem _)
      obtain ⟨ca, hca, hcalen⟩ := hbase
      have hold : r.2.pending 0 x1 y1 =
          if x1 < g.grid_w ∧ y1 < g.grid_h then g.pending 0 x1 y1 else 0 := by
        rw [b3 x1 y1 hx1 hy1]
        have hcu : Grid.pending
            { color_grid := store ga.color_grid (x + y * cols)
                { bg_color := background
                  fg_color := (foreground ||| (gl_attrs env attr <<< 24)) % 2 ^ 32 }
              glyph_grid_layers := clear_upper_layers (x + y * cols) ga.glyph_grid_layers
              grid_w := ga.grid_w
              grid_h := ga.grid_h } 0 x1 y1 = ga.pending 0 x1 y1 := by
          unfold Grid.pending
          cases hls : ga.glyph_grid_layers with
          | nil => rfl
          | cons base upper => rfl
        rw [hcu, s3 0 x1 y1 hx1 hy1]
        by_cases hz : 0 < g.grid_layers
        · by_cases c : x1 < g.grid_w ∧ y1 < g.grid_h
          · rw [if_pos ⟨hz, c⟩, if_pos c]
          · rw [if_neg (fun hh => c hh.2), if_neg c]
        · rw [if_neg (fun hh => hz hh.1)]
          have hd : g.glyph_grid_layers.getD 0 default = default :=
            List.getD_eq_default _ _ (by unfold Grid.grid_layers at hz; omega)
          unfold Grid.pending
          rw [hd]
          simp [default_layer, load]
      unfold Grid.pending
      dsimp only
      unfold set_cell
      rw [getD_modify, if_pos ⟨rfl, by omega⟩]
      dsimp only
      rw [load_store, hw, b1]
      by_cases hcell : x1 = x ∧ y1 = y
      · obtain ⟨rfl, rfl⟩ := hcell
        rw [if_pos ⟨rfl, by
          rw [hca]
          show x1 + y1 * cols < ca.length
          rw [hcalen, hw, hh]
          exact cell_index_lt cols lines x1 y1 hx hy⟩, if_pos ⟨rfl, rfl⟩]
      · rw [if_neg hcell, if_neg]
        · have hold1 := hold
          unfold Grid.pending at hold1
          rw [hw] at hold1
          exact hold1
        · rintro ⟨hidx, _⟩
          exact hcell (cell_index_inj cols x y x1 y1 hx hx1 hidx)

/-! ## Runs of cells in either threading mode -/

theorem draw_glyph_off_screen (env : Env) (cols lines cache_attr_index fuel : Nat) (y x : Int)
    (attr ch32 background foreground : Nat) (g : Grid)
    (h : y < 0 ∨ y ≥ lines ∨ x < 0 ∨ x ≥ cols) :
    draw_glyph env cols lines cache_attr_index fuel y x attr ch32 background foreground g
      = Res.ok g := by
  unfold draw_glyph
  rw [if_pos h]

/-- In either threading mode, every screen state reached from the empty
screen has arrays of the size its dimensions say. -/
theorem screen_reachable_sized_either_mode (env : Env) (g : Grid)
    (h : ScreenReachable env g) : g.sized := by
  induction h with
  | empty => exact grid_empty_sized
  | draw g g1 cols lines cai fuel y x attr ch32 bg fg _ hd ih =>
    by_cases hoff : y < 0 ∨ y ≥ lines ∨ x < 0 ∨ x ≥ cols
    · rw [draw_glyph_off_screen env cols lines cai fuel y x attr ch32 bg fg g hoff] at hd
      cases hd
      exact ih
    · have hy : y = ((y.toNat : Nat) : Int) := (Int.toNat_of_nonneg (by omega)).symm
      have hx : x = ((x.toNat : Nat) : Int) := (Int.toNat_of_nonneg (by omega)).symm
      rw [hy, hx] at hd
      exact (draw_glyph_cell env cols lines cai fuel x.toNat y.toNat attr ch32 bg fg g g1
        (by omega) (by omega) ih hd).2.2.2.1
  | ensure g g1 cols lines k _ he ih =>
    exact (ensure_glyph_grid_pending env cols lines k g g1 ih he).1
  | shrink g g1 _ hs ih => exact shrink_glyph_grid_sized g g1 ih hs

/-- On a grid of the size of the screen the loop over the combining characters
returns, in either threading mode, when `fuel` rounds are enough to reach a
plain code point. -/
theorem combine_loop_returns (env : Env) (cols lines cache_attr_index i : Nat) :
    ∀ (fuel layer ch32 : Nat) (g : Grid), g.grid_w = cols → g.grid_h = lines → g.sized →
    base_code env fuel ch32 ≤ 0x110000 →
    ∃ r, combine_loop env cols lines cache_attr_index i fuel layer ch32 g = Res.ok r := by
  intro fuel
  induction fuel with
  | zero =>
    intro layer ch32 g _ _ _ hb
    rw [base_code] at hb
    by_cases h0 : ch32 > 0x110000
    · rw [if_pos h0] at hb
      omega
    · rw [combine_loop, if_neg h0]
      exact ⟨_, rfl⟩
  | succ fuel ih =>
    intro layer ch32 g hw hh hg hb
    rw [combine_loop]
    by_cases h0 : ch32 > 0x110000
    · rw [base_code, if_pos h0] at hb
      rw [if_pos h0]
      dsimp only
      obtain ⟨g1, he⟩ := ensure_glyph_grid_returns env cols lines (layer + 1 + 1) g
        (Or.inr (by rw [hw, hh, Nat.mul_comm]))
      obtain ⟨e1, e2, _, _, _⟩ := ensure_glyph_grid_colors env cols lines _ g g1 hg.1 he
      obtain ⟨s1, _, _⟩ := ensure_glyph_grid_pending env cols lines _ g g1 hg he
      rw [he]
      simp only [Res.bind]
      exact ih (layer + 1) (env.expand_combined ch32).1
        { color_grid := g1.color_grid
          glyph_grid_layers :=
            set_cell g1.glyph_grid_layers (layer + 1) i
              (((env.expand_combined ch32).2 ||| cache_attr_index <<< 30) % 2 ^ 32)
              fun o => (o + 1) % 2 ^ 32
          grid_w := g1.grid_w
          grid_h := g1.grid_h } e1 e2
        ⟨s1.1, set_cell_sized (g1.grid_w * g1.grid_h) g1.glyph_grid_layers (layer + 1) i
          (((env.expand_combined ch32).2 ||| (cache_attr_index <<< 30)) % 2 ^ 32)
          (fun o => (o + 1) % 2 ^ 32) s1.2⟩ hb
    · rw [if_neg h0]
      exact ⟨_, rfl⟩

/-- In two-thread mode, and in single-threaded mode when the screen has no
more cells than the grid, `draw_glyph` returns when `fuel` rounds are enough
to expand its code point, as they are for every plain code point. -/
theorem draw_glyph_returns (env : Env) (cols lines cache_attr_index fuel x y : Nat)
    (attr ch32 background foreground : Nat) (g : Grid) (hx : x < cols) (hy : y < lines)
    (hg : g.sized) (hch : base_code env fuel ch32 ≤ 0x110000)
    (hret : env.pdc_threading_mode = ThreadingMode.PDC_GL_MULTI_THREADED_RENDERING ∨
      lines * cols ≤ g.grid_w * g.grid_h) :
    ∃ g1, draw_glyph env cols lines cache_attr_index fuel y x attr ch32 background foreground g
      = Res.ok g1 := by
  unfold draw_glyph
  have hin : ¬ ((y : Int) < 0 ∨ (y : Int) ≥ lines ∨ (x : Int) < 0 ∨ (x : Int) ≥ cols) := by
    omega
  obtain ⟨ga, he⟩ := ensure_glyph_grid_returns env cols lines 1 g hret
  obtain ⟨e1, e2, _, _, _⟩ := ensure_glyph_grid_colors env cols lines 1 g ga hg.1 he
  obtain ⟨s1, _, _⟩ := ensure_glyph_grid_pending env cols lines 1 g ga hg he
  rw [if_neg hin, he]
  simp only [Res.bind]
  obtain ⟨r, hr⟩ :=
    combine_loop_returns env cols lines cache_attr_index ((x : Int) + (y : Int) * (cols : Int)).toNat
      fuel 0 ch32
      { color_grid := store ga.color_grid ((x : Int) + (y : Int) * (cols : Int)).toNat
          { bg_color := background
            fg_color := (foreground ||| (gl_attrs env attr <<< 24)) % 2 ^ 32 }
        glyph_grid_layers :=
          clear_upper_layers ((x : Int) + (y : Int) * (cols : Int)).toNat ga.glyph_grid_layers
        grid_w := ga.grid_w
        grid_h := ga.grid_h } e1 e2
      ⟨holds_store _ _ _ _ s1.1, clear_upper_layers_sized _ _ _ s1.2⟩ hch
  rw [hr]
  exact ⟨_, rfl⟩

/-- A run on a line that is not on the screen changes nothing. -/
theorem new_packet_loop_off_line (env : Env) (cu : Curses) (cols lines fuel : Nat) (blink : Bool)
    (pen : Pen) (attr : Nat) (lineno x : Int) (srcp : List Nat)
    (h : lineno < 0 ∨ lineno ≥ lines) :
    ∀ (k j : Nat) (g : Grid),
      new_packet_loop env cu cols lines fuel blink pen attr lineno x srcp k j g = Res.ok g := by
  intro k
  induction k with
  | zero => intro j g; rfl
  | succ k ih =>
    intro j g
    rw [new_packet_loop, draw_glyph_off_screen env cols lines _ fuel lineno _ attr _ _ _ g
      (by omega)]
    exact ih (j + 1) g

/-- The loop of `_new_packet` on a grid of the size of the screen, for every
code point and threading mode: a returning run leaves, on the cells of the run
that are on the screen, the colour record of the pen and the base word of the
cell's code point, and on every other cell of the screen what it held. -/
theorem new_packet_loop_cells (env : Env) (cu : Curses) (cols lines fuel : Nat) (blink : Bool)
    (pen : Pen) (attr y : Nat) (x : Int) (srcp : List Nat) (hy : y < lines) :
    ∀ (k j : Nat) (g g1 : Grid), g.grid_w = cols → g.grid_h = lines → g.sized →
    new_packet_loop env cu cols lines fuel blink pen attr y x srcp k j g = Res.ok g1 →
    g1.grid_w = cols ∧ g1.grid_h = lines ∧ g1.sized ∧
      (∀ x1 y1, x1 < cols → y1 < lines →
        g1.color x1 y1 =
          if y1 = y ∧ x + j ≤ x1 ∧ (x1 : Int) < x + j + k then
            { bg_color := get_pdc_color cu pen.backgr
              fg_color := (get_pdc_color cu pen.foregr ||| (gl_attrs env attr <<< 24)) % 2 ^ 32 }
          else g.color x1 y1) ∧
      (∀ x1 y1, x1 < cols → y1 < lines →
        g1.pending 0 x1 y1 =
          if y1 = y ∧ x + j ≤ x1 ∧ (x1 : Int) < x + j + k then
            (base_code env fuel (packet_char cu blink (srcp.getD ((x1 : Int) - x).toNat 0)) |||
              (pen.cache_attr_index <<< 30)) % 2 ^ 32
          else g.pending 0 x1 y1) := by
  intro k
  induction k with
  | zero =>
    intro j g g1 hw hh hs h
    cases h
    refine ⟨hw, hh, hs, ?_, ?_⟩
    · intro x1 y1 _ _
      rw [if_neg (by omega)]
    · intro x1 y1 _ _
      rw [if_neg (by omega)]
  | succ k ih =>
    intro j g g1 hw hh hs h
    rw [new_packet_loop] at h
    by_cases hoff : x + (j : Int) < 0 ∨ x + (j : Int) ≥ cols
    · rw [draw_glyph_off_screen env cols lines _ fuel (y : Int) _ attr _ _ _ g
        (Or.inr (Or.inr hoff))] at h
      simp only [Res.bind] at h
      obtain ⟨i1, i2, i3, i4, i5⟩ := ih (j + 1) g g1 hw hh hs h
      refine ⟨i1, i2, i3, ?_, ?_⟩
      · intro x1 y1 hx1 hy1
        rw [i4 x1 y1 hx1 hy1]
        by_cases ha : y1 = y ∧ x + ((j + 1 : Nat) : Int) ≤ x1 ∧ (x1 : Int) < x + ((j + 1 : Nat) : Int) + k
        · rw [if_pos ha, if_pos (by push_cast at ha ⊢; omega)]
        · rw [if_neg ha, if_neg (by push_cast at ha ⊢; omega)]
      · intro x1 y1 hx1 hy1
        rw [i5 x1 y1 hx1 hy1]
        by_cases ha : y1 = y ∧ x + ((j + 1 : Nat) : Int) ≤ x1 ∧ (x1 : Int) < x + ((j + 1 : Nat) : Int) + k
        · rw [if_pos ha, if_pos (by push_cast at ha ⊢; omega)]
        · rw [if_neg ha, if_neg (by push_cast at ha ⊢; omega)]
    · have hcast : x + (j : Int) = (((x + (j : Int)).toNat : Nat) : Int) :=
        (Int.toNat_of_nonneg (by omega)).symm
      have hxn : (x + (j : Int)).toNat < cols := by omega
      rw [hcast] at h
      cases hd : draw_glyph env cols lines pen.cache_attr_index fuel (y : Int)
          (((x + (j : Int)).toNat : Nat) : Int) attr (packet_char cu blink (srcp.getD j 0))
          (get_pdc_color cu pen.backgr) (get_pdc_color cu pen.foregr) g with
      | undef => rw [hd] at h; cases h
      | fuelOut => rw [hd] at h; cases h
      | ok ga =>
        rw [hd] at h
        simp only [Res.bind] at h
        obtain ⟨d1, d2, _, d4, d5, d6⟩ :=
          draw_glyph_cell env cols lines pen.cache_attr_index fuel (x + (j : Int)).toNat y attr
            (packet_char cu blink (srcp.getD j 0)) (get_pdc_color cu pen.backgr)
            (get_pdc_color cu pen.foregr) g ga hxn hy hs hd
        obtain ⟨i1, i2, i3, i4, i5⟩ := ih (j + 1) ga g1 d1 d2 d4 h
        refine ⟨i1, i2, i3, ?_, ?_⟩
        · intro x1 y1 hx1 hy1
          rw [i4 x1 y1 hx1 hy1, d5 x1 y1 hx1 hy1]
          by_cases ha : y1 = y ∧ x + ((j + 1 : Nat) : Int) ≤ x1 ∧
              (x1 : Int) < x + ((j + 1 : Nat) : Int) + k
          · rw [if_pos ha, if_pos (by push_cast at ha ⊢; omega)]
          · rw [if_neg ha]
            by_cases hb1 : x1 = (x + (j : Int)).toNat ∧ y1 = y
            · rw [if_pos hb1, if_pos (by push_cast at ha ⊢; omega)]
            · rw [if_neg hb1, if_pos (show x1 < g.grid_w ∧ y1 < g.grid_h from ⟨by omega, by omega⟩),
                if_neg (by push_cast at ha ⊢; omega)]
        · intro x1 y1 hx1 hy1
          rw [i5 x1 y1 hx1 hy1, d6 x1 y1 hx1 hy1]
          by_cases ha : y1 = y ∧ x + ((j + 1 : Nat) : Int) ≤ x1 ∧
              (x1 : Int) < x + ((j + 1 : Nat) : Int) + k
          · rw [if_pos ha, if_pos (by push_cast at ha ⊢; omega)]
          · rw [if_neg ha]
            by_cases hb1 : x1 = (x + (j : Int)).toNat ∧ y1 = y
            · rw [if_pos hb1, if_pos (by push_cast at ha ⊢; omega)]
              have : ((x1 : Int) - x).toNat = j := by omega
              rw [this]
            · rw [if_neg hb1, if_pos (show x1 < g.grid_w ∧ y1 < g.grid_h from ⟨by omega, by omega⟩),
                if_neg (by push_cast at ha ⊢; omega)]

/-- The loop of `_new_packet` on any grid with arrays of the size its
dimensions say, for every code point and threading mode: a returning run
leaves, on every cell of the run that is on the screen, the colour record of
the pen and the base word of the cell's code point. -/
theorem new_packet_loop_run (env : Env) (cu : Curses) (cols lines fuel : Nat) (blink : Bool)
    (pen : Pen) (attr y : Nat) (x : Int) (srcp : List Nat) (hy : y < lines) :
    ∀ (k j : Nat) (g g1 : Grid), g.sized →
    new_packet_loop env cu cols lines fuel blink pen attr y x srcp k j g = Res.ok g1 →
    ∀ x1, x1 < cols → x + j ≤ x1 → (x1 : Int) < x + j + k →
      g1.color x1 y =
          { bg_color := get_pdc_color cu pen.backgr
            fg_color := (get_pdc_color cu pen.foregr ||| (gl_attrs env attr <<< 24)) % 2 ^ 32 } ∧
        g1.pending 0 x1 y =
          (base_code env fuel (packet_char cu blink (srcp.getD ((x1 : Int) - x).toNat 0)) |||
            (pen.cache_attr_index <<< 30)) % 2 ^ 32 := by
  intro k
  induction k with
  | zero =>
    intro j g g1 _ _ x1 _ h1 h2
    omega
  | succ k ih =>
    intro j g g1 hs h x1 hx1 h1 h2
    rw [new_packet_loop] at h
    by_cases hoff : x + (j : Int) < 0 ∨ x + (j : Int) ≥ cols
    · rw [draw_glyph_off_screen env cols lines _ fuel (y : Int) _ attr _ _ _ g
        (Or.inr (Or.inr hoff))] at h
      simp only [Res.bind] at h
      exact ih (j + 1) g g1 hs h x1 hx1 (by push_cast; omega) (by push_cast; omega)
    · have hcast : x + (j : Int) = (((x + (j : Int)).toNat : Nat) : Int) :=
        (Int.toNat_of_nonneg (by omega)).symm
      have hxn : (x + (j : Int)).toNat < cols := by omega
      rw [hcast] at h
      cases hd : draw_glyph env cols lines pen.cache_attr_index fuel (y : Int)
          (((x + (j : Int)).toNat : Nat) : Int) attr (packet_char cu blink (srcp.getD j 0))
          (get_pdc_color cu pen.backgr) (get_pdc_color cu pen.foregr) g with
      | undef => rw [hd] at h; cases h
      | fuelOut => rw [hd] at h; cases h
      | ok ga =>
        rw [hd] at h
        simp only [Res.bind] at h
        obtain ⟨d1, d2, _, d4, d5, d6⟩ :=
          draw_glyph_cell env cols lines pen.cache_attr_index fuel (x + (j : Int)).toNat y attr
            (packet_char cu blink (srcp.getD j 0)) (get_pdc_color cu pen.backgr)
            (get_pdc_color cu pen.foregr) g ga hxn hy hs hd
        obtain ⟨_, _, _, i4, i5⟩ :=
          new_packet_loop_cells env cu cols lines fuel blink pen attr y x srcp hy k (j + 1) ga g1
            d1 d2 d4 h
        rw [i4 x1 y hx1 hy, i5 x1 y hx1 hy]
        by_cases ha : y = y ∧ x + ((j + 1 : Nat) : Int) ≤ x1 ∧
            (x1 : Int) < x + ((j + 1 : Nat) : Int) + k
        · rw [if_pos ha, if_pos ha]
          exact ⟨rfl, rfl⟩
        · rw [if_neg ha, if_neg ha]
          have hx1j : x1 = (x + (j : Int)).toNat := by push_cast at ha; omega
          rw [d5 x1 y hx1 hy, d6 x1 y hx1 hy, if_pos ⟨hx1j, rfl⟩, if_pos ⟨hx1j, rfl⟩]
          have : ((x1 : Int) - x).toNat = j := by omega
          rw [this]
          exact ⟨rfl, rfl⟩

/-- Two returning runs of the loop of `_new_packet` over the same cells with
the same pen, whatever the code points they draw, leave the same colour record
in every cell of the screen when they start from grids of equal dimensions
with the same colour records. -/
theorem new_packet_loop_same_colors (env : Env) (cu : Curses) (cols lines fuel : Nat)
    (blink_a blink_b : Bool) (pen : Pen) (attr y : Nat) (x : Int) (srcp : List Nat)
    (hy : y < lines) :
    ∀ (k j : Nat) (ga gb ga1 gb1 : Grid), ga.grid_w = gb.grid_w → ga.grid_h = gb.grid_h →
    holds ga.color_grid (ga.grid_w * ga.grid_h) → holds gb.color_grid (gb.grid_w * gb.grid_h) →
    (∀ x1 y1, x1 < cols → y1 < lines → ga.color x1 y1 = gb.color x1 y1) →
    new_packet_loop env cu cols lines fuel blink_a pen attr y x srcp k j ga = Res.ok ga1 →
    new_packet_loop env cu cols lines fuel blink_b pen attr y x srcp k j gb = Res.ok gb1 →
    ∀ x1 y1, x1 < cols → y1 < lines → ga1.color x1 y1 = gb1.color x1 y1 := by
  intro k
  induction k with
  | zero =>
    intro j ga gb ga1 gb1 _ _ _ _ hc h1 h2
    cases h1
    cases h2
    exact hc
  | succ k ih =>
    intro j ga gb ga1 gb1 hw hh ha hb hc h1 h2
    rw [new_packet_loop] at h1 h2
    by_cases hoff : x + (j : Int) < 0 ∨ x + (j : Int) ≥ cols
    · rw [draw_glyph_off_screen env cols lines _ fuel (y : Int) _ attr _ _ _ ga
        (Or.inr (Or.inr hoff))] at h1
      rw [draw_glyph_off_screen env cols lines _ fuel (y : Int) _ attr _ _ _ gb
        (Or.inr (Or.inr hoff))] at h2
      simp only [Res.bind] at h1 h2
      exact ih (j + 1) ga gb ga1 gb1 hw hh ha hb hc h1 h2
    · have hcast : x + (j : Int) = (((x + (j : Int)).toNat : Nat) : Int) :=
        (Int.toNat_of_nonneg (by omega)).symm
      have hxn : (x + (j : Int)).toNat < cols := by omega
      rw [hcast] at h1 h2
      cases hda : draw_glyph env cols lines pen.cache_attr_index fuel (y : Int)
          (((x + (j : Int)).toNat : Nat) : Int) attr (packet_char cu blink_a (srcp.getD j 0))
          (get_pdc_color cu pen.backgr) (get_pdc_color cu pen.foregr) ga with
      | undef => rw [hda] at h1; cases h1
      | fuelOut => rw [hda] at h1; cases h1
      | ok ga2 =>
        cases hdb : draw_glyph env cols lines pen.cache_attr_index fuel (y : Int)
            (((x + (j : Int)).toNat : Nat) : Int) attr (packet_char cu blink_b (srcp.getD j 0))
            (get_pdc_color cu pen.backgr) (get_pdc_color cu pen.foregr) gb with
        | undef => rw [hdb] at h2; cases h2
        | fuelOut => rw [hdb] at h2; cases h2
        | ok gb2 =>
          rw [hda] at h1
          rw [hdb] at h2
          simp only [Res.bind] at h1 h2
          obtain ⟨a1, a2, _, a4, a5⟩ :=
            draw_glyph_colors env cols lines pen.cache_attr_index fuel (x + (j : Int)).toNat y attr
              (packet_char cu blink_a (srcp.getD j 0)) (get_pdc_color cu pen.backgr)
              (get_pdc_color cu pen.foregr) ga ga2 hxn hy ha hda
          obtain ⟨b1, b2, _, b4, b5⟩ :=
            draw_glyph_colors env cols lines pen.cache_attr_index fuel (x + (j : Int)).toNat y attr
              (packet_char cu blink_b (srcp.getD j 0)) (get_pdc_color cu pen.backgr)
              (get_pdc_color cu pen.foregr) gb gb2 hxn hy hb hdb
          refine ih (j + 1) ga2 gb2 ga1 gb1 (by rw [a1, b1]) (by rw [a2, b2]) a4 b4 ?_ h1 h2
          intro x1 y1 hx1 hy1
          rw [a5 x1 y1 hx1 hy1, b5 x1 y1 hx1 hy1, hw, hh, hc x1 y1 hx1 hy1]

/-- In two-thread mode, and in single-threaded mode when the screen has no
more cells than the grid, the loop of `_new_packet` returns when `fuel` rounds
are enough to expand every code point of the run. -/
theorem new_packet_loop_returns (env : Env) (cu : Curses) (cols lines fuel : Nat) (blink : Bool)
    (pen : Pen) (attr y : Nat) (x : Int) (srcp : List Nat) (hy : y < lines) :
    ∀ (k j : Nat) (g : Grid), g.sized →
    (env.pdc_threading_mode = ThreadingMode.PDC_GL_MULTI_THREADED_RENDERING ∨
      lines * cols ≤ g.grid_w * g.grid_h) →
    (∀ i, j ≤ i → i < j + k →
      base_code env fuel (packet_char cu blink (srcp.getD i 0)) ≤ 0x110000) →
    ∃ g1, new_packet_loop env cu cols lines fuel blink pen attr y x srcp k j g = Res.ok g1 := by
  intro k
  induction k with
  | zero => intro j g _ _ _; exact ⟨g, rfl⟩
  | succ k ih =>
    intro j g hs hret hplain
    rw [new_packet_loop]
    by_cases hoff : x + (j : Int) < 0 ∨ x + (j : Int) ≥ cols
    · rw [draw_glyph_off_screen env cols lines _ fuel (y : Int) _ attr _ _ _ g
        (Or.inr (Or.inr hoff))]
      simp only [Res.bind]
      exact ih (j + 1) g hs hret (fun i h1 h2 => hplain i (by omega) (by omega))
    · have hcast : x + (j : Int) = (((x + (j : Int)).toNat : Nat) : Int) :=
        (Int.toNat_of_nonneg (by omega)).symm
      have hxn : (x + (j : Int)).toNat < cols := by omega
      rw [hcast]
      obtain ⟨ga, hd⟩ :=
        draw_glyph_returns env cols lines pen.cache_attr_index fuel (x + (j : Int)).toNat y
          attr (packet_char cu blink (srcp.getD j 0)) (get_pdc_color cu pen.backgr)
          (get_pdc_color cu pen.foregr) g hxn hy hs (hplain j (le_refl _) (by omega)) hret
      obtain ⟨d1, d2, _, d4, _, _⟩ :=
        draw_glyph_cell env cols lines pen.cache_attr_index fuel (x + (j : Int)).toNat y attr
          (packet_char cu blink (srcp.getD j 0)) (get_pdc_color cu pen.backgr)
          (get_pdc_color cu pen.foregr) g ga hxn hy hs hd
      rw [hd]
      simp only [Res.bind]
      exact ih (j + 1) ga d4 (Or.inr (by rw [d1, d2, Nat.mul_comm])) 
        (fun i h1 h2 => hplain i (by omega) (by omega))

theorem packet_char_clear (cu : Curses) (ch : Nat) :
    packet_char cu false ch =
      ((if cu.is_altcharset ch then cu.acs_map (ch &&& 0x7f) else ch) &&& cu.A_CHARTEXT)
        % 2 ^ 32 := by
  unfold packet_char
  simp only [Bool.false_eq_true, if_false]

theorem new_packet_eq (env : Env) (cu : Curses) (cols lines fuel : Nat) (blinked_off : Bool)
    (attr : Nat) (lineno x : Int) (len : Nat) (srcp : List Nat) (pen : Pen) (g : Grid) :
    _new_packet env cu cols lines fuel blinked_off attr lineno x len srcp (pen, g) =
      (new_packet_loop env cu cols lines fuel
        (blinked_off && decide (attr &&& cu.A_BLINK ≠ 0) &&
          decide (cu.termattrs &&& cu.A_BLINK ≠ 0))
        (_set_attr cu attr pen) attr lineno x srcp len 0 g).bind fun g1 =>
          Res.ok (_set_attr cu attr pen, g1) := rfl

theorem bind_ok_pair {α β : Type} (r : Res α) (b b1 : β) (a1 : α)
    (h : (r.bind fun a => Res.ok (b, a)) = Res.ok (b1, a1)) : b1 = b ∧ r = Res.ok a1 := by
  cases r with
  | undef => cases h
  | fuelOut => cases h
  | ok a =>
    simp only [Res.bind, Res.ok.injEq, Prod.mk.injEq] at h
    exact ⟨h.1.symm, by rw [h.2]⟩

/-- C21: a run of `len` cells from column `x` of line `lineno` whose attr has
`A_BLINK`, with `A_BLINK` in `SP->termattrs`; the screen state is any with
arrays of the size its dimensions say, the empty state before the first packet
included, in either threading mode.  Whenever `_new_packet` returns, the pen
is the one `_set_attr(attr)` leaves, and every cell of the run that is on the
screen holds the colour record of that pen (background, foreground and
line-attribute byte) and a base word with the style index of the pen and this
code point: with `blinked_off` set the space, 32; with `blinked_off` clear the
cell's own character `srcp[j]`, replaced by its `acs_map` entry if it is an
alternate character set cell and masked with `A_CHARTEXT`, of which a combined
code (above 0x110000) leaves its base character.  The results of the two cases
have the same colour record in every cell of the screen.  In two-thread mode,
and in single-threaded mode when the screen has no more cells than the grid
(the `memset` of line 425 is not reached), the call with `blinked_off` set
returns, and so does the call with `blinked_off` clear when `fuel` rounds are
enough to expand every combined code of the run, as any number is for plain
code points. -/
theorem new_packet_blink (env : Env) (cu : Curses) (cols lines fuel attr : Nat) (lineno x : Int)
    (len : Nat) (srcp : List Nat) (pen : Pen) (g : Grid)
    (hattr : attr &&& cu.A_BLINK ≠ 0) (hsys : cu.termattrs &&& cu.A_BLINK ≠ 0)
    (hspace : cu.is_altcharset 32 = false ∧ 32 &&& cu.A_CHARTEXT = 32) (hs : g.sized) :
    (∀ p_off g_off,
      _new_packet env cu cols lines fuel true attr lineno x len srcp (pen, g)
        = Res.ok (p_off, g_off) →
      p_off = _set_attr cu attr pen ∧
      ∀ j x1 y1 : Nat, j < len → (x1 : Int) = x + j → (y1 : Int) = lineno → x1 < cols → y1 < lines →
        g_off.pending 0 x1 y1 =
            (32 ||| ((_set_attr cu attr pen).cache_attr_index <<< 30)) % 2 ^ 32 ∧
          g_off.color x1 y1 =
            { bg_color := get_pdc_color cu (_set_attr cu attr pen).backgr
              fg_color :=
                (get_pdc_color cu (_set_attr cu attr pen).foregr ||| (gl_attrs env attr <<< 24))
                  % 2 ^ 32 }) ∧
    (∀ p_on g_on,
      _new_packet env cu cols lines fuel false attr lineno x len srcp (pen, g)
        = Res.ok (p_on, g_on) →
      p_on = _set_attr cu attr pen ∧
      ∀ j x1 y1 : Nat, j < len → (x1 : Int) = x + j → (y1 : Int) = lineno → x1 < cols → y1 < lines →
        g_on.pending 0 x1 y1 =
            (base_code env fuel
                (((if cu.is_altcharset (srcp.getD j 0) then cu.acs_map (srcp.getD j 0 &&& 0x7f)
                  else srcp.getD j 0) &&& cu.A_CHARTEXT) % 2 ^ 32) |||
              ((_set_attr cu attr pen).cache_attr_index <<< 30)) % 2 ^ 32 ∧
          (((if cu.is_altcharset (srcp.getD j 0) then cu.acs_map (srcp.getD j 0 &&& 0x7f)
              else srcp.getD j 0) &&& cu.A_CHARTEXT) % 2 ^ 32 ≤ 0x110000 →
            g_on.pending 0 x1 y1 =
              ((((if cu.is_altcharset (srcp.getD j 0) then cu.acs_map (srcp.getD j 0 &&& 0x7f)
                  else srcp.getD j 0) &&& cu.A_CHARTEXT) % 2 ^ 32) |||
                ((_set_attr cu attr pen).cache_attr_index <<< 30)) % 2 ^ 32) ∧
          g_on.color x1 y1 =
            { bg_color := get_pdc_color cu (_set_attr cu attr pen).backgr
              fg_color :=
                (get_pdc_color cu (_set_attr cu attr pen).foregr ||| (gl_attrs env attr <<< 24))
                  % 2 ^ 32 }) ∧
    (∀ p_off g_off p_on g_on,
      _new_packet env cu cols lines fuel true attr lineno x len srcp (pen, g)
        = Res.ok (p_off, g_off) →
      _new_packet env cu cols lines fuel false attr lineno x len srcp (pen, g)
        = Res.ok (p_on, g_on) →
      ∀ x1 y1, x1 < cols → y1 < lines → g_on.color x1 y1 = g_off.color x1 y1) ∧
    ((env.pdc_threading_mode = ThreadingMode.PDC_GL_MULTI_THREADED_RENDERING ∨
        lines * cols ≤ g.grid_w * g.grid_h) →
      (∃ g_off,
        _new_packet env cu cols lines fuel true attr lineno x len srcp (pen, g)
          = Res.ok (_set_attr cu attr pen, g_off)) ∧
      ((∀ j, j < len →
          base_code env fuel
            (((if cu.is_altcharset (srcp.getD j 0) then cu.acs_map (srcp.getD j 0 &&& 0x7f)
              else srcp.getD j 0) &&& cu.A_CHARTEXT) % 2 ^ 32) ≤ 0x110000) →
        ∃ g_on,
          _new_packet env cu cols lines fuel false attr lineno x len srcp (pen, g)
            = Res.ok (_set_attr cu attr pen, g_on))) := by
  have hb_on : (true && decide (attr &&& cu.A_BLINK ≠ 0) && decide (cu.termattrs &&& cu.A_BLINK ≠ 0))
      = true := by
    simp only [Bool.true_and, Bool.and_eq_true, decide_eq_true_eq]
    exact ⟨hattr, hsys⟩
  have hb_off : (false && decide (attr &&& cu.A_BLINK ≠ 0) &&
      decide (cu.termattrs &&& cu.A_BLINK ≠ 0)) = false := by
    simp only [Bool.false_and]
  by_cases hline : lineno < 0 ∨ lineno ≥ lines
  · have hloop : ∀ b, new_packet_loop env cu cols lines fuel b (_set_attr cu attr pen) attr lineno x
        srcp len 0 g = Res.ok g :=
      fun b => new_packet_loop_off_line env cu cols lines fuel b _ attr lineno x srcp hline len 0 g
    refine ⟨?_, ?_, ?_, ?_⟩
    · intro p_off g_off h
      rw [new_packet_eq] at h
      obtain ⟨hp, _⟩ := bind_ok_pair _ _ _ _ h
      refine ⟨hp, ?_⟩
      intro j x1 y1 _ _ hy1 _ hy2
      omega
    · intro p_on g_on h
      rw [new_packet_eq] at h
      obtain ⟨hp, _⟩ := bind_ok_pair _ _ _ _ h
      refine ⟨hp, ?_⟩
      intro j x1 y1 _ _ hy1 _ hy2
      omega
    · intro p_off g_off p_on g_on h1 h2
      rw [new_packet_eq] at h1 h2
      obtain ⟨_, e1⟩ := bind_ok_pair _ _ _ _ h1
      obtain ⟨_, e2⟩ := bind_ok_pair _ _ _ _ h2
      rw [hloop] at e1 e2
      cases e1
      cases e2
      intro _ _ _ _
      rfl
    · intro _
      refine ⟨⟨g, ?_⟩, fun _ => ⟨g, ?_⟩⟩
      · rw [new_packet_eq, hloop]; rfl
      · rw [new_packet_eq, hloop]; rfl
  · obtain ⟨y, rfl⟩ : ∃ y : Nat, lineno = (y : Int) :=
      ⟨lineno.toNat, (Int.toNat_of_nonneg (by omega)).symm⟩
    have hy : y < lines := by omega
    refine ⟨?_, ?_, ?_, ?_⟩
    · intro p_off g_off h
      rw [new_packet_eq] at h
      obtain ⟨hp, hl⟩ := bind_ok_pair _ _ _ _ h
      rw [hb_on] at hl
      refine ⟨hp, ?_⟩
      intro j x1 y1 hj hx1 hy1 hxc _
      have hyy : y1 = y := by omega
      rw [hyy]
      obtain ⟨r1, r2⟩ :=
        new_packet_loop_run env cu cols lines fuel true (_set_attr cu attr pen) attr y x srcp hy
          len 0 g g_off hs hl x1 hxc (by push_cast; omega) (by push_cast; omega)
      rw [packet_char_blink cu _ hspace.1 hspace.2, base_code_plain env fuel 32 (by decide)] at r2
      exact ⟨r2, r1⟩
    · intro p_on g_on h
      rw [new_packet_eq] at h
      obtain ⟨hp, hl⟩ := bind_ok_pair _ _ _ _ h
      rw [hb_off] at hl
      refine ⟨hp, ?_⟩
      intro j x1 y1 hj hx1 hy1 hxc _
      have hyy : y1 = y := by omega
      rw [hyy]
      obtain ⟨r1, r2⟩ :=
        new_packet_loop_run env cu cols lines fuel false (_set_attr cu attr pen) attr y x srcp hy
          len 0 g g_on hs hl x1 hxc (by push_cast; omega) (by push_cast; omega)
      have hidx : ((x1 : Int) - x).toNat = j := by omega
      rw [hidx, packet_char_clear] at r2
      refine ⟨r2, ?_, r1⟩
      intro hplain
      rw [r2, base_code_plain env fuel _ hplain]
    · intro p_off g_off p_on g_on h1 h2
      rw [new_packet_eq] at h1 h2
      obtain ⟨_, e1⟩ := bind_ok_pair _ _ _ _ h1
      obtain ⟨_, e2⟩ := bind_ok_pair _ _ _ _ h2
      exact new_packet_loop_same_colors env cu cols lines fuel _ _ (_set_attr cu attr pen) attr y x
        srcp hy len 0 g g g_on g_off rfl rfl hs.1 hs.1 (fun _ _ _ _ => rfl) e2 e1
    · intro hret
      constructor
      · obtain ⟨g1, e1⟩ :=
          new_packet_loop_returns env cu cols lines fuel true (_set_attr cu attr pen) attr y x srcp
            hy len 0 g hs hret
            (fun i _ _ => by
              rw [packet_char_blink cu _ hspace.1 hspace.2, base_code_plain env fuel 32 (by decide)]
              decide)
        refine ⟨g1, ?_⟩
        rw [new_packet_eq, hb_on, e1]
        rfl
      · intro hplain
        obtain ⟨g1, e1⟩ :=
          new_packet_loop_returns env cu cols lines fuel false (_set_attr cu attr pen) attr y x srcp
            hy len 0 g hs hret
            (fun i _ hi => by rw [packet_char_clear]; exact hplain i (by omega))
        refine ⟨g1, ?_⟩
        rw [new_packet_eq, hb_off, e1]
        rfl

/-- C21 at a concrete input: the blinking cells `Z` and `Y` with colour pair 7
as the first packet of a two-thread run, on the empty screen state of a 2 x 1
screen.  Both calls return with pen (7, 0, 0); the base words are two spaces
with `blinked_off` set and `Z` (90), `Y` (89) with it clear, and both cells
hold the colour record (0, 0x070707) in both results. -/
theorem new_packet_blink_witness :
    ∃ g_off g_on,
      _new_packet demo_env demo_curses 2 1 0 true 0x700020000000 0 0 2 blink_cells
          (Pen.mk (-2) (-2) 0, Grid.empty) = Res.ok (Pen.mk 7 0 0, g_off) ∧
      _new_packet demo_env demo_curses 2 1 0 false 0x700020000000 0 0 2 blink_cells
          (Pen.mk (-2) (-2) 0, Grid.empty) = Res.ok (Pen.mk 7 0 0, g_on) ∧
      g_off.pending 0 0 0 = 32 ∧ g_off.pending 0 1 0 = 32 ∧
      g_on.pending 0 0 0 = 90 ∧ g_on.pending 0 1 0 = 89 ∧
      g_off.color 0 0 = color_data.mk 0 0x070707 ∧
      g_off.color 1 0 = color_data.mk 0 0x070707 ∧
      g_on.color 0 0 = g_off.color 0 0 ∧ g_on.color 1 0 = g_off.color 1 0 := by
  obtain ⟨t1, t2, t3, t4⟩ :=
    new_packet_blink demo_env demo_curses 2 1 0 0x700020000000 0 0 2 blink_cells
      (Pen.mk (-2) (-2) 0) Grid.empty (by decide) (by decide) (by decide) grid_empty_sized
  obtain ⟨⟨g_off, e_off⟩, h_on⟩ := t4 (Or.inl rfl)
  obtain ⟨g_on, e_on⟩ := h_on (by decide)
  have hpen : _set_attr demo_curses 0x700020000000 (Pen.mk (-2) (-2) 0) = Pen.mk 7 0 0 := by
    decide
  obtain ⟨_, c_off⟩ := t1 _ g_off e_off
  obtain ⟨_, c_on⟩ := t2 _ g_on e_on
  have a0 := c_off 0 0 0 (by decide) (by decide) (by decide) (by decide) (by decide)
  have a1 := c_off 1 1 0 (by decide) (by decide) (by decide) (by decide) (by decide)
  have b0 := c_on 0 0 0 (by decide) (by decide) (by decide) (by decide) (by decide)
  have b1 := c_on 1 1 0 (by decide) (by decide) (by decide) (by decide) (by decide)
  refine ⟨g_off, g_on, hpen ▸ e_off, hpen ▸ e_on, a0.1.trans (by decide), a1.1.trans (by decide),
    (b0.2.1 (by decide)).trans (by decide), (b1.2.1 (by decide)).trans (by decide),
    a0.2.trans (by decide), a1.2.trans (by decide), ?_, ?_⟩
  · exact t3 _ g_off _ g_on e_off e_on 0 0 (by decide) (by decide)
  · exact t3 _ g_off _ g_on e_off e_on 1 0 (by decide) (by decide)

end PDCGL
